import Mathlib

/-!
# Skeletal animation of `AnimatedModel` (Player.hpp)

A shallow embedding of the skeleton registry (`loadBones`), the keyframe
interpolator (`getInterpolatedBoneTransform`), the hierarchy propagation
(`calculateBoneTransformations`) and the playback clock (`updateAnimation`).

Conventions of the embedding

* The scalars are the elements of a linearly ordered field `K` with a floor
  function.  Computed examples take `K = ℚ`; the statements about the
  rotation interpolation, which leaves the rationals, take `K = ℝ`.
* Arithmetic on `float` and on `double` values is exact.  The conversions of
  a `double` value to `float`, which are the three stores `float t = ...` of
  the interpolator, the store of the advanced clock in `animationTime` and
  the cast `(float)duration`, are the rounding `toFloat` of IEEE 754
  binary32; a value that is not a number (an infinity, NaN, a quotient by
  zero) is `none`.
* The interpolation factor `t` is an `Option`: the source divides only after
  its guard against a zero divisor, and the model's division without that
  guard has no value.  A channel whose factor is not a number is left at the
  initial value of its matrix variable, the identity; the source's matrix has
  entries that are not numbers there.
* `glm::mat4` is a 4x4 matrix indexed (row, column); the source's `m[c][r]`
  is the entry `m r c`, and `operator*` is the matrix product.
* `std::map<std::string, Bone>` is the list of its entries in insertion order;
  the key of an entry is the `name` field of the bone stored under it.
* `int` counters and container sizes are natural numbers.
-/

set_option linter.unusedSectionVars false

namespace AnimatedModel

variable {K : Type} [LinearOrderedField K] [FloorRing K]

/-! ## Linear algebra of glm -/

/-- The type `glm::mat4`. -/
abbrev Mat4 (K : Type) := Matrix (Fin 4) (Fin 4) K

/-- The type `glm::vec3`. -/
structure Vec3 (K : Type) where
  x : K
  y : K
  z : K
deriving DecidableEq, Repr

/-- The type `glm::quat`, built in the source as `glm::quat(w, x, y, z)`. -/
structure Quat (K : Type) where
  w : K
  x : K
  y : K
  z : K
deriving DecidableEq, Repr

/-- The library function `glm::translate(m, v)`: `m` times the translation
by `v`. -/
def translate (m : Mat4 K) (v : Vec3 K) : Mat4 K :=
  m * !![1, 0, 0, v.x; 0, 1, 0, v.y; 0, 0, 1, v.z; 0, 0, 0, 1]

/-- The library function `glm::scale(m, v)`: `m` times the axis scaling by
`v`. -/
def scale (m : Mat4 K) (v : Vec3 K) : Mat4 K :=
  m * !![v.x, 0, 0, 0; 0, v.y, 0, 0; 0, 0, v.z, 0; 0, 0, 0, 1]

/-- The library function `glm::mix(x, y, a)` on `vec3`: `x * (1 - a) + y * a`. -/
def mix (a b : Vec3 K) (t : K) : Vec3 K :=
  ⟨a.x * (1 - t) + b.x * t, a.y * (1 - t) + b.y * t, a.z * (1 - t) + b.z * t⟩

/-- The library function `glm::mat4_cast(q)`: the rotation matrix of a
quaternion. -/
def mat4_cast (q : Quat K) : Mat4 K :=
  !![1 - 2 * (q.y * q.y + q.z * q.z), 2 * (q.x * q.y - q.w * q.z), 2 * (q.x * q.z + q.w * q.y), 0;
     2 * (q.x * q.y + q.w * q.z), 1 - 2 * (q.x * q.x + q.z * q.z), 2 * (q.y * q.z - q.w * q.x), 0;
     2 * (q.x * q.z - q.w * q.y), 2 * (q.y * q.z + q.w * q.x), 1 - 2 * (q.x * q.x + q.y * q.y), 0;
     0, 0, 0, 1]

/-- The image of the point `v` under `m`: the first three rows of
`m * (v, 1)`, as the vertex shader computes `boneTransform * vec4(aPos, 1.0)`. -/
def transformPoint (m : Mat4 K) (v : Vec3 K) : Vec3 K :=
  ⟨m 0 0 * v.x + m 0 1 * v.y + m 0 2 * v.z + m 0 3,
   m 1 0 * v.x + m 1 1 * v.y + m 1 2 * v.z + m 1 3,
   m 2 0 * v.x + m 2 1 * v.y + m 2 2 * v.z + m 2 3⟩

/-- The C library function `fmod(x, y)`: `x - n * y` with `n` the quotient `x / y`
truncated toward zero, so the result has the sign of `x`.  For `y = 0` the
C function returns NaN, which is no scalar: `none`. -/
def fmod (x y : K) : Option K :=
  if y = 0 then none
  else some (x - y * (if 0 ≤ x / y then ⌊x / y⌋ else ⌈x / y⌉))

/-! ## Narrowing of `double` to `float` -/

/-- The exponent of the `float` format (IEEE 754 binary32) at `x`: the values
of the format next to `x` are the multiples of `2 ^ (floatExponent x - 23)`.
Below the least normal number the exponent stays at `-126` (subnormals). -/
def floatExponent (x : K) : Int :=
  max (Int.log 2 |x|) (-126)

/-- The integer nearest to `x`, the even one when `x` lies halfway between
two integers. -/
def roundTiesEven (x : K) : Int :=
  if x - ⌊x⌋ < 1 / 2 then ⌊x⌋
  else if 1 / 2 < x - ⌊x⌋ then ⌊x⌋ + 1
  else if ⌊x⌋ % 2 = 0 then ⌊x⌋ else ⌊x⌋ + 1

/-- The value of the `float` format nearest to `x`, ties to the even
significand, with the exponent unbounded above. -/
def roundFloat (x : K) : K :=
  (roundTiesEven (x / 2 ^ (floatExponent x - 23)) : K) * 2 ^ (floatExponent x - 23)

/-- The conversion of a `double` value to `float`, as in the assignment of a
`double` expression to a `float` variable or the cast `(float)x`: the nearest
value of the format; `none` when that value exceeds the largest finite
`float`, `(2 ^ 24 - 1) * 2 ^ 104`, where the conversion yields an infinity. -/
def toFloat (x : K) : Option K :=
  if |roundFloat x| ≤ (2 ^ 24 - 1) * 2 ^ 104 then some (roundFloat x) else none

/-! ## Data of the importer (assimp) -/

/-- The type `aiMatrix4x4`, with rows `a`, `b`, `c`, `d`. -/
structure aiMatrix4x4 (K : Type) where
  a1 : K
  a2 : K
  a3 : K
  a4 : K
  b1 : K
  b2 : K
  b3 : K
  b4 : K
  c1 : K
  c2 : K
  c3 : K
  c4 : K
  d1 : K
  d2 : K
  d3 : K
  d4 : K
deriving DecidableEq, Repr

/-- The type `aiVector3D`. -/
structure aiVector3D (K : Type) where
  x : K
  y : K
  z : K
deriving DecidableEq, Repr

/-- The type `aiQuaternion`. -/
structure aiQuaternion (K : Type) where
  w : K
  x : K
  y : K
  z : K
deriving DecidableEq, Repr

/-- A keyframe: a time stamp `mTime` and a value `mValue`. -/
structure Key (K : Type) (α : Type) where
  mTime : K
  mValue : α
deriving DecidableEq, Repr

/-- The type `aiVectorKey`. -/
abbrev aiVectorKey (K : Type) := (Key K) (aiVector3D K)

/-- The type `aiQuatKey`. -/
abbrev aiQuatKey (K : Type) := (Key K) (aiQuaternion K)

/-- The type `aiVertexWeight`. -/
structure aiVertexWeight (K : Type) where
  mVertexId : Nat
  mWeight : K
deriving DecidableEq, Repr

/-- The type `aiBone`: a bone declaration of a mesh. -/
structure aiBone (K : Type) where
  mName : String
  mOffsetMatrix : aiMatrix4x4 K
  mWeights : List (aiVertexWeight K)
deriving DecidableEq, Repr

/-- The type `aiMesh`, reduced to what the skeleton code reads. -/
structure aiMesh (K : Type) where
  mNumVertices : Nat
  mBones : List (aiBone K)
deriving DecidableEq, Repr

/-- The type `aiNode`: a node of the scene graph with the indices of its
meshes in `scene->mMeshes` and its children. -/
inductive aiNode (K : Type) where
  | mk (mName : String) (mTransformation : aiMatrix4x4 K) (mMeshes : List Nat)
      (mChildren : List (aiNode K)) : aiNode K

/-- The type `aiNodeAnim`: the keyframes of one node in one animation. -/
structure aiNodeAnim (K : Type) where
  mNodeName : String
  mPositionKeys : List (aiVectorKey K)
  mRotationKeys : List (aiQuatKey K)
  mScalingKeys : List (aiVectorKey K)
deriving DecidableEq, Repr

/-- The type `aiAnimation`. -/
structure aiAnimation (K : Type) where
  mName : String
  mDuration : K
  mTicksPerSecond : K
  mChannels : List (aiNodeAnim K)
deriving DecidableEq, Repr

/-- The type `aiScene`; `incomplete` is the test
`mFlags & AI_SCENE_FLAGS_INCOMPLETE`, and `mRootNode` is absent when null. -/
structure aiScene (K : Type) where
  incomplete : Bool
  mRootNode : Option (aiNode K)
  mMeshes : List (aiMesh K)
  mAnimations : List (aiAnimation K)

/-! ## Data of the model -/

/-- The struct `Bone`. -/
structure Bone (K : Type) where
  name : String
  id : Nat
  offsetMatrix : Mat4 K
  finalTransformation : Mat4 K
deriving DecidableEq

/-- The struct `Animation`; each `std::map` is the list of its entries. -/
structure Animation (K : Type) where
  name : String
  duration : K
  ticksPerSecond : K
  positionKeyframes : List (String × List (aiVectorKey K))
  rotationKeyframes : List (String × List (aiQuatKey K))
  scalingKeyframes : List (String × List (aiVectorKey K))
deriving DecidableEq

/-- The struct `Mesh`, as the contents of its two skinning buffers
(`boneIDVBO`, `boneWeightVBO`): four slots per vertex.  The handles of the
graphics library are not part of the model. -/
structure Mesh (K : Type) where
  boneIDsData : List Int
  boneWeightsData : List K
deriving DecidableEq, Repr

/-- A line written to `std::cerr` by the model code. -/
inductive Diagnostic where
  | errorLoadingModel : Diagnostic
  | boneNotFound (boneName : String) : Diagnostic
  | boneIdOutOfBounds (id size : Nat) : Diagnostic
deriving DecidableEq, Repr

/-- The members of an `AnimatedModel`.  `rootNode` is `scene->mRootNode`,
absent while no scene is loaded; `errors` collects the lines written to
`std::cerr`.  `globalInverseTransform` and `modelCenter`, which the skeleton
code never reads, are left out. -/
structure State (K : Type) where
  bones : List (Bone K)
  boneTransforms : List (Mat4 K)
  animations : List (Animation K)
  rootNode : Option (aiNode K)
  meshes : List (Mesh K)
  animationTime : K
  boneCounter : Nat
  shaderProgram : Nat
  errors : List Diagnostic

/-- The members before the constructor body runs: empty containers,
`animationTime = 0.0f` and `boneCounter(0)`. -/
def State.initial : State K :=
  { bones := [], boneTransforms := [], animations := [], rootNode := none, meshes := [],
    animationTime := 0, boneCounter := 0, shaderProgram := 0, errors := [] }

/-- The method `convertMatrix`: `to[c][r]` receives the entry of row `r`
and column `c` of `from`. -/
def convertMatrix (m : aiMatrix4x4 K) : Mat4 K :=
  !![m.a1, m.a2, m.a3, m.a4;
     m.b1, m.b2, m.b3, m.b4;
     m.c1, m.c2, m.c3, m.c4;
     m.d1, m.d2, m.d3, m.d4]

/-- The lookup `bones.find(name)`. -/
def findBone (bones : List (Bone K)) (name : String) : Option (Bone K) :=
  bones.find? (fun b => b.name == name)

/-! ## Skeleton registry -/

/-- The body of the loop of `loadBones` for one bone of the mesh: a name not
yet in `bones` is stored with the id `boneCounter++`.  `Bone b;` leaves
`finalTransformation` to the default constructor of `glm::mat4`, taken here as
the identity; no code reads it before `calculateBoneTransformations` has
written it. -/
def loadBone (s : State K) (bone : aiBone K) : State K :=
  if (findBone s.bones bone.mName).isNone then
    { s with
      bones := s.bones ++ [{ name := bone.mName, id := s.boneCounter,
                             offsetMatrix := convertMatrix bone.mOffsetMatrix,
                             finalTransformation := 1 }],
      boneCounter := s.boneCounter + 1 }
  else s

/-- The method `loadBones`. -/
def loadBones (s : State K) (mesh : aiMesh K) : State K :=
  mesh.mBones.foldl loadBone s

/-- The call `v.resize(n, x)` of `std::vector`. -/
def resize {α : Type} (v : List α) (n : Nat) (x : α) : List α :=
  v.take n ++ List.replicate (n - v.length) x

/-! ## Keyframe interpolation -/

/-- The key `keys[i]`; the default is returned for no index the source uses. -/
def keyAt {α : Type} [Inhabited α] (keys : List (Key K α)) (i : Nat) : Key K α :=
  keys.getD i ⟨0, default⟩

/-- The scan `for (i = 0; i < keys.size() - 1; ++i) if (animTime < keys[i + 1].mTime)
{ frame = i; break; }` from index `i` on, where `rest` holds `keys[i + 1]` and
the keys after it.  When the scan ends without a hit, `frame` still has its
initial value `0`. -/
def findFrameLoop {α : Type} (animTime : K) : List (Key K α) → Nat → Nat
  | [], _ => 0
  | k :: rest, i => if animTime < k.mTime then i else findFrameLoop animTime rest (i + 1)

/-- The value of `frame` after the scan over the whole track. -/
def findFrame {α : Type} (keys : List (Key K α)) (animTime : K) : Nat :=
  findFrameLoop animTime keys.tail 0

/-- The index `nextFrame = (frame + 1) % keys.size()`. -/
def nextFrame {α : Type} (keys : List (Key K α)) (frame : Nat) : Nat :=
  (frame + 1) % keys.length

/-- The test `keys[nextFrame].mTime == keys[frame].mTime || keys.size() < 2`
that selects the branch without interpolation. -/
def snaps {α : Type} [Inhabited α] (keys : List (Key K α)) (frame : Nat) : Bool :=
  decide ((keyAt keys (nextFrame keys frame)).mTime = (keyAt keys frame).mTime) || decide (keys.length < 2)

/-- The divisor `keys[nextFrame].mTime - keys[frame].mTime` of the factor. -/
def segmentLength {α : Type} [Inhabited α] (keys : List (Key K α)) (frame : Nat) : K :=
  (keyAt keys (nextFrame keys frame)).mTime - (keyAt keys frame).mTime

/-- The factor `float t = (animTime - keys[frame].mTime) /
(keys[nextFrame].mTime - keys[frame].mTime)` of the interpolating branch: the
quotient, computed in `double`, is narrowed to `float`.  It is `none` when
the divisor is zero or the narrowed quotient is not finite. -/
def factor {α : Type} [Inhabited α] (keys : List (Key K α)) (frame : Nat) (animTime : K) :
    Option K :=
  if segmentLength keys frame = 0 then none
  else toFloat ((animTime - (keyAt keys frame).mTime) / segmentLength keys frame)

instance : Inhabited (aiVector3D K) := ⟨⟨0, 0, 0⟩⟩

instance : Inhabited (aiQuaternion K) := ⟨⟨1, 0, 0, 0⟩⟩

/-- The vector `glm::vec3(v.x, v.y, v.z)` of an `aiVector3D`. -/
def vec3 (v : aiVector3D K) : Vec3 K := ⟨v.x, v.y, v.z⟩

/-- The quaternion `glm::quat(q.w, q.x, q.y, q.z)` of an `aiQuaternion`. -/
def quat (q : aiQuaternion K) : Quat K := ⟨q.w, q.x, q.y, q.z⟩

/-- The position block of `getInterpolatedBoneTransform`: the value of
`translationMatrix` for the track found under the bone's name (`none` when
the map has no entry).  With a factor that is not a number the matrix is
left at its initial value `glm::mat4(1.0f)`. -/
def translationMatrix (track : Option (List (aiVectorKey K))) (animTime : K) : Mat4 K :=
  match track with
  | none => 1
  | some positionKeys =>
    if positionKeys.isEmpty then 1
    else if positionKeys.length = 1 then
      translate 1 (vec3 (keyAt positionKeys 0).mValue)
    else
      let frame := findFrame positionKeys animTime
      if snaps positionKeys frame then
        translate 1 (vec3 (keyAt positionKeys frame).mValue)
      else
        match factor positionKeys frame animTime with
        | none => 1
        | some t =>
          let startPos := vec3 (keyAt positionKeys frame).mValue
          let endPos := vec3 (keyAt positionKeys (nextFrame positionKeys frame)).mValue
          translate 1 (mix startPos endPos t)

/-- The rotation block of `getInterpolatedBoneTransform`: the value of
`rotationMatrix`.  The library function `glm::slerp` is a parameter.  With a
factor that is not a number the matrix is left at its initial value. -/
def rotationMatrix (slerp : Quat K → Quat K → K → Quat K) (track : Option (List (aiQuatKey K)))
    (animTime : K) : Mat4 K :=
  match track with
  | none => 1
  | some rotationKeys =>
    if rotationKeys.isEmpty then 1
    else if rotationKeys.length = 1 then
      mat4_cast (quat (keyAt rotationKeys 0).mValue)
    else
      let frame := findFrame rotationKeys animTime
      if snaps rotationKeys frame then
        mat4_cast (quat (keyAt rotationKeys frame).mValue)
      else
        match factor rotationKeys frame animTime with
        | none => 1
        | some t =>
          let startRot := quat (keyAt rotationKeys frame).mValue
          let endRot := quat (keyAt rotationKeys (nextFrame rotationKeys frame)).mValue
          mat4_cast (slerp startRot endRot t)

/-- The scaling block of `getInterpolatedBoneTransform`: the value of
`scaleMatrix`.  With a factor that is not a number the matrix is left at its
initial value. -/
def scaleMatrix (track : Option (List (aiVectorKey K))) (animTime : K) : Mat4 K :=
  match track with
  | none => 1
  | some scaleKeys =>
    if scaleKeys.isEmpty then 1
    else if scaleKeys.length = 1 then
      scale 1 (vec3 (keyAt scaleKeys 0).mValue)
    else
      let frame := findFrame scaleKeys animTime
      if snaps scaleKeys frame then
        scale 1 (vec3 (keyAt scaleKeys frame).mValue)
      else
        match factor scaleKeys frame animTime with
        | none => 1
        | some t =>
          let startScale := vec3 (keyAt scaleKeys frame).mValue
          let endScale := vec3 (keyAt scaleKeys (nextFrame scaleKeys frame)).mValue
          scale 1 (mix startScale endScale t)

/-- The method `getInterpolatedBoneTransform`. -/
def getInterpolatedBoneTransform (slerp : Quat K → Quat K → K → Quat K) (anim : Animation K)
    (boneName : String) (animTime : K) : Mat4 K :=
  translationMatrix (anim.positionKeyframes.lookup boneName) animTime
    * rotationMatrix slerp (anim.rotationKeyframes.lookup boneName) animTime
    * scaleMatrix (anim.scalingKeyframes.lookup boneName) animTime

/-! ## Hierarchy propagation -/

/-- The assignment `bone.finalTransformation = m` through the reference
`boneIt->second` of the entry found under `name`. -/
def setFinalTransformation (bones : List (Bone K)) (name : String) (m : Mat4 K) : List (Bone K) :=
  match bones with
  | [] => []
  | b :: rest =>
    if b.name = name then { b with finalTransformation := m } :: rest
    else b :: setFinalTransformation rest name m

/-- The local transform of a node in `calculateBoneTransformations`: the
interpolated transform of `animations[0]` when the node is a bone and a clip
exists, the node's own `mTransformation` otherwise. -/
def nodeTransformation (slerp : Quat K → Quat K → K → Quat K) (s : State K) (nodeName : String)
    (mTransformation : aiMatrix4x4 K) : Mat4 K :=
  if (findBone s.bones nodeName).isSome then
    match s.animations with
    | currentAnimation :: _ =>
      getInterpolatedBoneTransform slerp currentAnimation nodeName s.animationTime
    | [] => convertMatrix mTransformation
  else convertMatrix mTransformation

/-- The write of one node in `calculateBoneTransformations`: when the node
is a bone, its `finalTransformation` becomes `globalTransformation *
offsetMatrix`, which is also stored in `boneTransforms[bone.id]` when the id
is inside the array; otherwise the error line is written. -/
def writeBone (s : State K) (nodeName : String) (globalTransformation : Mat4 K) : State K :=
  match findBone s.bones nodeName with
  | none => s
  | some bone =>
    let finalTransformation := globalTransformation * bone.offsetMatrix
    let s1 := { s with bones := setFinalTransformation s.bones nodeName finalTransformation }
    if bone.id < s1.boneTransforms.length then
      { s1 with boneTransforms := s1.boneTransforms.set bone.id finalTransformation }
    else
      { s1 with errors := s1.errors ++ [Diagnostic.boneIdOutOfBounds bone.id s1.boneTransforms.length] }

mutual
/-- The method `calculateBoneTransformations`. -/
def calculateBoneTransformations (slerp : Quat K → Quat K → K → Quat K) :
    (aiNode K) → Mat4 K → State K → State K
  | .mk nodeName mTransformation _ mChildren, parentTransform, s =>
    let globalTransformation := parentTransform * nodeTransformation slerp s nodeName mTransformation
    calculateChildren slerp mChildren globalTransformation (writeBone s nodeName globalTransformation)
/-- The loop of `calculateBoneTransformations` over the children of a node,
each called with the node's `globalTransformation`. -/
def calculateChildren (slerp : Quat K → Quat K → K → Quat K) :
    List (aiNode K) → Mat4 K → State K → State K
  | [], _, s => s
  | child :: rest, globalTransformation, s =>
    calculateChildren slerp rest globalTransformation
      (calculateBoneTransformations slerp child globalTransformation s)
end

/-- The entries of `bones` in the order a range-for visits a `std::map`:
ascending by key. -/
def inKeyOrder (bones : List (Bone K)) : List (Bone K) :=
  bones.insertionSort (fun a b => a.name ≤ b.name)

/-- The two statements `animationTime += deltaTime * ticksPerSecond;
animationTime = fmod(animationTime, (float)duration);` of `updateAnimation`.
The sum is formed in `double` and stored in the `float` member; the
`double` duration is narrowed to `float` before `fmod`.  The result is `none`
when the stored sum is an infinity or the narrowed duration is zero, where
`fmod` returns NaN; with a narrowed duration that is an infinity `fmod`
returns its first argument. -/
def advanceClock (animationTime deltaTime : K) (currentAnimation : Animation K) : Option K :=
  match toFloat (animationTime + deltaTime * currentAnimation.ticksPerSecond) with
  | none => none
  | some time =>
    match toFloat currentAnimation.duration with
    | none => some time
    | some duration => fmod time duration

/-- The method `updateAnimation`.  Without a clip every bone's offset matrix
is copied to its slot.  With a clip the clock is advanced by `advanceClock`,
then the hierarchy is propagated from the root with the identity as parent
transform.  The result is `none` when the new clock is not a number or when
the scene pointer dereferenced for the root is null. -/
def updateAnimation (slerp : Quat K → Quat K → K → Quat K) (s : State K) (deltaTime : K) :
    Option (State K) :=
  match s.animations with
  | [] =>
    some { s with
      boneTransforms := (inKeyOrder s.bones).foldl
        (fun transforms bone =>
          if bone.id < transforms.length then transforms.set bone.id bone.offsetMatrix
          else transforms)
        s.boneTransforms }
  | currentAnimation :: _ =>
    match advanceClock s.animationTime deltaTime currentAnimation with
    | none => none
    | some time =>
      match s.rootNode with
      | none => none
      | some root =>
        some (calculateBoneTransformations slerp root 1 { s with animationTime := time })

/-! ## Construction -/

/-- The innermost loop of `processMesh` over the slots `k` of one vertex:
the first slot whose weight is exactly zero receives the weight and the
bone index.  A vertex index outside the mesh, which the importer's
validation step excludes, leaves both arrays as they are. -/
def fillSlot (vertexID : Nat) (weight : K) (boneIndex : Int) (m : Mesh K) : List Nat → Mesh K
  | [] => m
  | k :: rest =>
    if m.boneWeightsData.getD (vertexID * 4 + k) 0 = 0 then
      { boneWeightsData := m.boneWeightsData.set (vertexID * 4 + k) weight,
        boneIDsData := m.boneIDsData.set (vertexID * 4 + k) boneIndex }
    else fillSlot vertexID weight boneIndex m rest

/-- The body of the loop of `processMesh` over the bones of the mesh: a
bone found in `bones` deals each of its weights to the first free slot of the
weight's vertex; a bone missing from `bones` is reported and skipped. -/
def skinBone (bones : List (Bone K)) (acc : Mesh K × List Diagnostic) (bone : aiBone K) :
    (Mesh K) × List Diagnostic :=
  match findBone bones bone.mName with
  | none => (acc.1, acc.2 ++ [Diagnostic.boneNotFound bone.mName])
  | some b =>
    (bone.mWeights.foldl
      (fun m weight => fillSlot weight.mVertexId weight.mWeight b.id m [0, 1, 2, 3]) acc.1,
     acc.2)

/-- The skinning part of `processMesh`: both arrays are sized to four slots
per vertex (weights `0`, ids `-1`), then the bones of the mesh are visited in
order. -/
def skinData (bones : List (Bone K)) (mesh : aiMesh K) : Mesh K × List Diagnostic :=
  mesh.mBones.foldl (skinBone bones)
    ({ boneIDsData := List.replicate (mesh.mNumVertices * 4) (-1),
       boneWeightsData := List.replicate (mesh.mNumVertices * 4) 0 }, [])

/-- The method `processMesh`: the mesh with its skinning buffers is appended
to `meshes`. -/
def processMesh (s : State K) (mesh : aiMesh K) : State K :=
  let r := skinData s.bones mesh
  { s with meshes := s.meshes ++ [r.1], errors := s.errors ++ r.2 }

/-- The call `processMesh(scene->mMeshes[i])` for a mesh index `i` of a node;
an index outside `scene->mMeshes`, which the importer's validation excludes,
processes nothing. -/
def processMeshAt (sceneMeshes : List (aiMesh K)) (s : State K) (i : Nat) : State K :=
  match sceneMeshes.get? i with
  | some mesh => processMesh s mesh
  | none => s

mutual
/-- The method `processNode`: the meshes of the node, looked up by index in
`scene->mMeshes`, then the children in order. -/
def processNode (sceneMeshes : List (aiMesh K)) : aiNode K → State K → State K
  | .mk _ _ mMeshes mChildren, s =>
    processChildren sceneMeshes mChildren (mMeshes.foldl (processMeshAt sceneMeshes) s)
/-- The loop of `processNode` over the children of a node. -/
def processChildren (sceneMeshes : List (aiMesh K)) : List (aiNode K) → State K → State K
  | [], s => s
  | child :: rest, s => processChildren sceneMeshes rest (processNode sceneMeshes child s)
end

/-- The assignment `m[key] = value` of `std::map`. -/
def mapAssign {β : Type} (m : List (String × β)) (key : String) (value : β) :
    List (String × β) :=
  match m with
  | [] => [(key, value)]
  | entry :: rest =>
    if entry.1 == key then (key, value) :: rest else entry :: mapAssign rest key value

/-- The body of the loop of `loadAnimations` for one imported animation. -/
def loadAnimation (anim : aiAnimation K) : Animation K :=
  anim.mChannels.foldl
    (fun animation channel =>
      { animation with
        positionKeyframes := mapAssign animation.positionKeyframes channel.mNodeName channel.mPositionKeys,
        rotationKeyframes := mapAssign animation.rotationKeyframes channel.mNodeName channel.mRotationKeys,
        scalingKeyframes := mapAssign animation.scalingKeyframes channel.mNodeName channel.mScalingKeys })
    { name := anim.mName, duration := anim.mDuration,
      ticksPerSecond := if anim.mTicksPerSecond ≠ 0 then anim.mTicksPerSecond else 25,
      positionKeyframes := [], rotationKeyframes := [], scalingKeyframes := [] }

/-- The method `loadAnimations`. -/
def loadAnimations (sceneAnimations : List (aiAnimation K)) (s : State K) : State K :=
  { s with animations := s.animations ++ sceneAnimations.map loadAnimation }

/-- The constructor `AnimatedModel(path)`, given the handle `program`
returned by `glCreateProgram` and the result `scene` of `importer.ReadFile`
(`none` for a null pointer).  A missing, incomplete or rootless scene ends the
constructor after the error line.  Otherwise the bones of every mesh are
registered, `boneTransforms` is resized to `bones.size()` with identity
matrices, the node tree is processed and the animations are loaded. -/
def construct (program : Nat) (scene : Option (aiScene K)) : State K :=
  let s0 := { State.initial with shaderProgram := program }
  match scene with
  | none => { s0 with errors := s0.errors ++ [Diagnostic.errorLoadingModel] }
  | some sc =>
    match sc.incomplete, sc.mRootNode with
    | false, some root =>
      let s1 := sc.mMeshes.foldl loadBones { s0 with rootNode := some root }
      let s2 := { s1 with boneTransforms := resize s1.boneTransforms s1.bones.length 1 }
      let s3 := processNode sc.mMeshes root s2
      loadAnimations sc.mAnimations s3
    | _, _ => { s0 with errors := s0.errors ++ [Diagnostic.errorLoadingModel], rootNode := sc.mRootNode }

/-! ## Notions used to state the properties -/

/-- The names of the bone declarations of the meshes, in the order in which
`loadBones`, called on each mesh in turn, visits them. -/
def declaredNames (meshes : List (aiMesh K)) : List String :=
  (meshes.flatMap aiMesh.mBones).map aiBone.mName

/-- The registry invariant after the bone declarations `decls` have been
visited: ids follow the insertion order from `0`, the counter is the number
of entries, names are unique and are the declared ones, and the first
declaration of a name received as id the number of distinct names before it. -/
structure Registered (decls : List (aiBone K)) (s : State K) : Prop where
  ids : s.bones.map Bone.id = List.range s.bones.length
  counter : s.boneCounter = s.bones.length
  nodup : (s.bones.map Bone.name).Nodup
  names : ∀ n, n ∈ s.bones.map Bone.name ↔ n ∈ decls.map aiBone.mName
  first : ∀ (j : Nat) (h : j < (decls.map aiBone.mName).length),
    (decls.map aiBone.mName)[j] ∉ (decls.map aiBone.mName).take j →
      ∃ b ∈ s.bones, b.name = (decls.map aiBone.mName)[j] ∧
        b.id = ((decls.map aiBone.mName).take j).toFinset.card

/-- The successive calls `updateAnimation(deltaTime)` of the render loop, one
per frame, for the given frame times; `none` as soon as one call has no
result. -/
def updates (slerp : Quat K → Quat K → K → Quat K) (s : State K) : List K → Option (State K)
  | [] => some s
  | deltaTime :: rest =>
    match updateAnimation slerp s deltaTime with
    | none => none
    | some s' => updates slerp s' rest

/-- Every registered bone's id is an index of `boneTransforms`. -/
def InBounds (s : State K) : Prop :=
  ∀ b ∈ s.bones, b.id < s.boneTransforms.length

/-- What the skeleton code keeps fixed between two states of a model: the
names, ids and offset matrices of the registry (entry by entry), the size of
`boneTransforms`, the clips, the node tree and the members it never writes. -/
structure SameRegistry (s s' : State K) : Prop where
  names : s'.bones.map Bone.name = s.bones.map Bone.name
  ids : s'.bones.map Bone.id = s.bones.map Bone.id
  offsets : s'.bones.map Bone.offsetMatrix = s.bones.map Bone.offsetMatrix
  size : s'.boneTransforms.length = s.boneTransforms.length
  animations : s'.animations = s.animations
  rootNode : s'.rootNode = s.rootNode
  meshes : s'.meshes = s.meshes
  boneCounter : s'.boneCounter = s.boneCounter
  shaderProgram : s'.shaderProgram = s.shaderProgram

/-- The line `Error: bone.id ... out of bounds for boneTransforms` was never
written. -/
def NoIdError (s : State K) : Prop :=
  ∀ i n, Diagnostic.boneIdOutOfBounds i n ∉ s.errors

/-! ## A sample model -/

/-- The identity as an `aiMatrix4x4`. -/
def identityMatrix : aiMatrix4x4 K := ⟨1, 0, 0, 0, 0, 1, 0, 0, 0, 0, 1, 0, 0, 0, 0, 1⟩

/-- A stand-in for `glm::slerp` in computed examples: it returns its first
argument. -/
def sampleSlerp : Quat ℚ → Quat ℚ → ℚ → Quat ℚ := fun a _ _ => a

/-- A two-level node tree: the node `Root` with the single child `Hand`. -/
def sampleTree : aiNode K :=
  .mk "Root" identityMatrix [0] [.mk "Hand" identityMatrix [] []]

/-- A clip of 10 ticks at 10 ticks per second that moves `Root` along the
x axis and holds `Hand` at a fixed position and scale. -/
def sampleAnimation : aiAnimation ℚ :=
  ⟨"wave", 10, 10,
    [⟨"Root", [⟨0, ⟨0, 0, 0⟩⟩, ⟨10, ⟨2, 0, 0⟩⟩], [], []⟩,
     ⟨"Hand", [⟨0, ⟨1, 2, 3⟩⟩], [], [⟨0, ⟨2, 2, 2⟩⟩]⟩]⟩

/-- A scene with one mesh of three vertices skinned by `Root` and `Hand`. -/
def sampleScene : aiScene ℚ :=
  { incomplete := false
    mRootNode := some sampleTree
    mMeshes := [⟨3, [⟨"Root", identityMatrix, [⟨0, 1⟩]⟩, ⟨"Hand", identityMatrix, [⟨1, 1 / 2⟩]⟩]⟩]
    mAnimations := [sampleAnimation] }

/-- The model the constructor builds from `sampleScene`. -/
def sampleModel : State ℚ := construct 1 (some sampleScene)

/-- The keyframe times of a track are non-decreasing. -/
def NonDecreasing {α : Type} (keys : List (Key K α)) : Prop :=
  keys.Pairwise (fun a b => a.mTime ≤ b.mTime)

instance {α : Type} (keys : List (Key K α)) : Decidable (NonDecreasing keys) :=
  inferInstanceAs (Decidable (keys.Pairwise (fun (a b : Key K α) => a.mTime ≤ b.mTime)))

/-- A track of three position keys at the times `0`, `1` and `2`. -/
def threeKeys : List (aiVectorKey ℚ) := [⟨0, ⟨0, 0, 0⟩⟩, ⟨1, ⟨1, 0, 0⟩⟩, ⟨2, ⟨2, 0, 0⟩⟩]

/-- A position track whose two keyframes share the time `0`. -/
def flatKeys : List (aiVectorKey ℚ) := [⟨0, ⟨1, 2, 3⟩⟩, ⟨0, ⟨4, 5, 6⟩⟩]

/-- A rotation track whose two keyframes share the time `0`. -/
def flatRotationKeys : List (aiQuatKey ℚ) := [⟨0, ⟨1, 0, 0, 0⟩⟩, ⟨0, ⟨0, 1, 0, 0⟩⟩]

/-- The last row of the matrix is `(0, 0, 0, 1)`: the matrix is an affine map
of points. -/
def Affine (m : Mat4 K) : Prop :=
  m 3 0 = 0 ∧ m 3 1 = 0 ∧ m 3 2 = 0 ∧ m 3 3 = 1

/-- A clip in which the bone `Hand` has one position key, one scale key and
no rotation key. -/
def handClip : Animation ℚ :=
  { name := "hold", duration := 10, ticksPerSecond := 25,
    positionKeyframes := [("Hand", [⟨0, ⟨1, 2, 3⟩⟩])],
    rotationKeyframes := [],
    scalingKeyframes := [("Hand", [⟨0, ⟨2, 2, 2⟩⟩])] }

/-- The model the constructor builds from `sampleScene` with the clip's
ticks per second replaced by `-1`. -/
def reverseModel : State ℚ :=
  construct 1 (some { sampleScene with
    mAnimations := [{ sampleAnimation with mTicksPerSecond := -1 }] })

/-- The model the constructor builds from `sampleScene` with the clip's
duration replaced by `2 ^ (-160)`, a `double` below the range of `float`. -/
def briefModel : State ℚ :=
  construct 1 (some { sampleScene with
    mAnimations := [{ sampleAnimation with mDuration := 1 / 2 ^ 160 }] })

/-- The model the constructor builds from `sampleScene` with the clip's
ticks per second replaced by `1 + 2 ^ (-30)`, a `double` that is not a
`float`. -/
def fineRateModel : State ℚ :=
  construct 1 (some { sampleScene with
    mAnimations := [{ sampleAnimation with mTicksPerSecond := 1 + 1 / 2 ^ 30 }] })

/-- A state of a model as the program can hold it: built by the constructor
from some import result and advanced by the render loop's `updateAnimation`
calls for some frame times. -/
def Reachable (slerp : Quat K → Quat K → K → Quat K) (s : State K) : Prop :=
  ∃ (program : Nat) (scene : Option (aiScene K)) (deltas : List K),
    updates slerp (construct program scene) deltas = some s

/-- A track of two position keys at the times `1` and `2`. -/
def lateKeys : List (aiVectorKey ℚ) := [⟨1, ⟨0, 0, 0⟩⟩, ⟨2, ⟨1, 0, 0⟩⟩]

/-- A track of two position keys at the times `0` and `0.7`, the second one
the `double` nearest to `0.7`. -/
def nearEndKeys : List (aiVectorKey ℚ) :=
  [⟨0, ⟨0, 0, 0⟩⟩, ⟨3152519739159347 / 4503599627370496, ⟨1, 0, 0⟩⟩]

/-- An imported clip of duration `0`: a static pose that holds `Hand` at a
fixed position and scale. -/
def poseAnimation : aiAnimation ℚ :=
  ⟨"pose", 0, 0, [⟨"Hand", [⟨0, ⟨1, 2, 3⟩⟩], [], [⟨0, ⟨2, 2, 2⟩⟩]⟩]⟩

/-- The model the constructor builds from `sampleScene` with `poseAnimation`
as its only clip. -/
def poseModel : State ℚ :=
  construct 1 (some { sampleScene with mAnimations := [poseAnimation] })

/-- The model the constructor builds from `sampleScene` without any clip. -/
def stillModel : State ℚ :=
  construct 1 (some { sampleScene with mAnimations := [] })

/-- The test `characters.back()->shaderProgram == 0` by which `main` decides,
right after the constructor, that loading the model failed. -/
def loadingFailed (s : State K) : Bool :=
  s.shaderProgram == 0

/-! ## Reference description of the skin data -/

/-- The weight in slot `k` of vertex `v`: `boneWeightsData[v * 4 + k]`. -/
def slotWeight (m : Mesh K) (v k : Nat) : K :=
  m.boneWeightsData.getD (v * 4 + k) 0

/-- The bone id in slot `k` of vertex `v`: `boneIDsData[v * 4 + k]`. -/
def slotId (m : Mesh K) (v k : Nat) : Int :=
  m.boneIDsData.getD (v * 4 + k) (-1)

/-- The influences on vertex `v` in the raw bone-influence list of a mesh, in
list order (bones in mesh order, weights in each bone's order), restricted to
bones of the registry: each is the registry id of the bone with the weight. -/
def influencesOn (bones : List (Bone K)) (meshBones : List (aiBone K)) (v : Nat) : List (Int × K) :=
  meshBones.flatMap
    (fun bone =>
      match findBone bones bone.mName with
      | none => []
      | some b =>
        (bone.mWeights.filter (fun weight => weight.mVertexId = v)).map
          (fun weight => ((b.id : Int), weight.mWeight)))

/-- The first four influences with a nonzero weight. -/
def firstFour (influences : List (Int × K)) : List (Int × K) :=
  (influences.filter (fun p => p.2 ≠ 0)).take 4

/-- The slots of vertex `v` agree with the reference description for the
influences `influences` on `v` visited so far: both arrays have four slots per
vertex, the weights are those of the first four nonzero influences padded with
zero, the ids of the occupied slots are theirs, and without any influence all
ids are still `-1`. -/
structure SkinInv (n v : Nat) (m : Mesh K) (influences : List (Int × K)) : Prop where
  weightsLength : m.boneWeightsData.length = n * 4
  idsLength : m.boneIDsData.length = n * 4
  weights : ∀ k, k < 4 → slotWeight m v k = ((firstFour influences).map Prod.snd).getD k 0
  ids : ∀ k, k < (firstFour influences).length →
    slotId m v k = ((firstFour influences).map Prod.fst).getD k (-1)
  untouched : influences = [] → ∀ k, k < 4 → slotId m v k = -1

/-- A mesh of three vertices in which five influences fall on vertex `1` and
one bone of unknown name influences vertex `0`. -/
def crowdedMesh : aiMesh ℚ :=
  ⟨3, [⟨"Root", identityMatrix, [⟨1, 5⟩]⟩, ⟨"Hand", identityMatrix, [⟨1, 4⟩, ⟨1, 3⟩]⟩,
       ⟨"Ghost", identityMatrix, [⟨0, 1⟩]⟩,
       ⟨"Root", identityMatrix, [⟨1, 2⟩]⟩, ⟨"Hand", identityMatrix, [⟨1, 1⟩]⟩]⟩

/-- The translation by `(5, 0, 0)` as an `aiMatrix4x4`. -/
def shiftMatrix : aiMatrix4x4 K := ⟨1, 0, 0, 5, 0, 1, 0, 0, 0, 0, 1, 0, 0, 0, 0, 1⟩

/-- A node tree whose root `Armature` is a grouping node, not a bone, with the
single childless child `Hand`; both nodes carry `shiftMatrix` as their own
transformation. -/
def groupTree : aiNode ℚ :=
  .mk "Armature" shiftMatrix [] [.mk "Hand" shiftMatrix [0] []]

/-- A scene over `groupTree` with one mesh skinned by `Hand` alone and one
clip of 10 ticks at 10 ticks per second with the given channels. -/
def groupScene (channels : List (aiNodeAnim ℚ)) : aiScene ℚ :=
  { incomplete := false
    mRootNode := some groupTree
    mMeshes := [⟨2, [⟨"Hand", shiftMatrix, [⟨0, 1⟩]⟩]⟩]
    mAnimations := [⟨"lift", 10, 10, channels⟩] }

/-- The model the constructor builds from `groupScene` with a clip that holds
`Hand` at a fixed position. -/
def groupModel : State ℚ :=
  construct 1 (some (groupScene [⟨"Hand", [⟨0, ⟨1, 2, 3⟩⟩], [], []⟩]))

/-- The model the constructor builds from `groupScene` with a clip whose only
channel, for `Hand`, has no keyframe at all. -/
def idleModel : State ℚ :=
  construct 1 (some (groupScene [⟨"Hand", [], [], []⟩]))

/-- The skin data of a mesh against the list `ids` of the registered bone
ids: both arrays have the same length, every stored bone id is `-1` or a
member of `ids`, and an entry with a nonzero weight stores a member of `ids`. -/
def IdsRegistered (ids : List Nat) (m : Mesh K) : Prop :=
  m.boneWeightsData.length = m.boneIDsData.length
  ∧ ∀ i, (m.boneIDsData.getD i (-1) = -1 ∨ ∃ n ∈ ids, m.boneIDsData.getD i (-1) = (n : Int))
      ∧ (m.boneWeightsData.getD i 0 ≠ 0 → ∃ n ∈ ids, m.boneIDsData.getD i (-1) = (n : Int))

/-- A bone declaration of a mesh with the influences of weight exactly zero
removed from its list. -/
def withoutZeroWeights (bone : aiBone K) : aiBone K :=
  { bone with mWeights := bone.mWeights.filter (fun weight => weight.mWeight ≠ 0) }

/-- A mesh with all zero-weight influences removed from its influence list. -/
def dropZeroWeights (mesh : aiMesh K) : aiMesh K :=
  { mesh with mBones := mesh.mBones.map withoutZeroWeights }

/-- A mesh of two vertices in which `Hand` has an influence of weight zero on
vertex `0`, between two influences of `Root` on that vertex. -/
def zeroWeightMesh : aiMesh ℚ :=
  ⟨2, [⟨"Root", identityMatrix, [⟨0, 5⟩]⟩, ⟨"Hand", identityMatrix, [⟨0, 0⟩]⟩,
       ⟨"Root", identityMatrix, [⟨0, 3⟩]⟩]⟩

/-! ## Rotation interpolation over the reals -/

/-- Modelled from the spec: the inner product of two quaternions as
4-vectors, the library function `glm::dot`, in which the angle between two
rotations and the length of a quaternion are expressed. -/
def dot (x y : Quat K) : K :=
  x.w * y.w + x.x * y.x + x.y * y.y + x.z * y.z

/-- Modelled from the spec: the length of a quaternion, the library function
`glm::length`; the spec's unit-length quaternions are those of length `1`. -/
noncomputable def Quat.length (q : Quat ℝ) : ℝ :=
  Real.sqrt (dot q q)

/-- Modelled from the spec: the library function `glm::slerp(x, y, a)`, which
the source calls for the rotation channel and whose code is not part of the
repository.  The spec describes it as the spherical linear interpolation
between two rotations, with constant angular velocity and shortest-arc
travel.  Of `y` and `-y`, which stand for the same rotation, the one that
makes the smaller angle with `x` is the end `z` of the arc; with `angle` the
angle between `x` and `z`, the result at `a` is the point of the great arc
from `x` to `z` at the angle `a * angle` from `x`,
`(sin((1 - a) * angle) * x + sin(a * angle) * z) / sin(angle)`, and it is `x`
when the arc has no length.  The library's own code replaces this formula
by a componentwise linear interpolation when the cosine of the angle exceeds
`1 - epsilon`; the spec has no such case. -/
noncomputable def slerp (x y : Quat ℝ) (a : ℝ) : Quat ℝ :=
  let z : Quat ℝ := if dot x y < 0 then ⟨-y.w, -y.x, -y.y, -y.z⟩ else y
  let angle := Real.arccos (dot x z)
  if Real.sin angle = 0 then x
  else
    ⟨(Real.sin ((1 - a) * angle) * x.w + Real.sin (a * angle) * z.w) / Real.sin angle,
     (Real.sin ((1 - a) * angle) * x.x + Real.sin (a * angle) * z.x) / Real.sin angle,
     (Real.sin ((1 - a) * angle) * x.y + Real.sin (a * angle) * z.y) / Real.sin angle,
     (Real.sin ((1 - a) * angle) * x.z + Real.sin (a * angle) * z.z) / Real.sin angle⟩

/-- The quaternion of the rotation by 90 degrees about the Y axis,
`(cos 45°, 0, sin 45°, 0)` in the order `(w, x, y, z)`. -/
noncomputable def quarterTurn : aiQuaternion ℝ :=
  ⟨Real.sqrt 2 / 2, 0, Real.sqrt 2 / 2, 0⟩

end AnimatedModel

/-!
# Terrain functions (main.cpp)

The mesh generators `generateTerrainGridVertices` and
`generateTerrainGridIndices` and the height lookup `getTerrainHeight`.

* `float` values are exact rationals; a division by zero, whose result in the
  source is an infinity or NaN, reports `none`.
* `int` parameters are integers.  Where the source stores the result of `int`
  arithmetic in an `unsigned int`, or compares it with one, the value is
  reduced modulo `2 ^ 32`: on the two's-complement targets of the program this
  is what wrapping `int` arithmetic followed by the conversion yields.
* The image behind `const unsigned char*` is a map from byte offsets to bytes;
  a null pointer is `none`.
-/

namespace Terrain

/-- Division of two `float` values; `none` when the divisor is zero. -/
def fdiv (x y : ℚ) : Option ℚ :=
  if y = 0 then none else some (x / y)

/-- The conversion of an `int` value to `unsigned int`. -/
def toUnsigned (n : Int) : Nat :=
  (n % 2 ^ 32).toNat

/-- The function `generateTerrainGridVertices`: eight floats per grid point
(position, normal, texture coordinates), row by row.  A component is `none`
when a resolution of `1` makes its divisor `resolution - 1` zero. -/
def generateTerrainGridVertices (resolutionX resolutionZ : Int)
    (terrainSizeX terrainSizeZ baseHeight : ℚ) : List (Option ℚ) :=
  let stepX := fdiv terrainSizeX ((resolutionX - 1 : Int) : ℚ)
  let stepZ := fdiv terrainSizeZ ((resolutionZ - 1 : Int) : ℚ)
  (List.range resolutionZ.toNat).flatMap (fun z =>
    (List.range resolutionX.toNat).flatMap (fun x =>
      let posX := stepX.map (fun step => -terrainSizeX / 2 + (x : ℚ) * step)
      let posZ := stepZ.map (fun step => -terrainSizeZ / 2 + (z : ℚ) * step)
      let posY := some baseHeight
      let normX := some 0
      let normY := some 1
      let normZ := some 0
      let texU := fdiv (x : ℚ) ((resolutionX - 1 : Int) : ℚ)
      let texV := fdiv (z : ℚ) ((resolutionZ - 1 : Int) : ℚ)
      [posX, posY, posZ, normX, normY, normZ, texU, texV]))

/-- The function `generateTerrainGridIndices`: two triangles, six
`unsigned int` indices, per grid cell, row by row. -/
def generateTerrainGridIndices (resolutionX resolutionZ : Int) : List Nat :=
  (List.range (resolutionZ - 1).toNat).flatMap (fun z =>
    (List.range (resolutionX - 1).toNat).flatMap (fun x =>
      let topLeft := toUnsigned ((z : Int) * resolutionX + (x : Int))
      let topRight := toUnsigned ((z : Int) * resolutionX + (x : Int) + 1)
      let bottomLeft := toUnsigned (((z : Int) + 1) * resolutionX + (x : Int))
      let bottomRight := toUnsigned (((z : Int) + 1) * resolutionX + (x : Int) + 1)
      [topLeft, bottomLeft, topRight, topRight, bottomLeft, bottomRight]))

/-- The library function `glm::clamp(x, minVal, maxVal)`, which is
`min(max(x, minVal), maxVal)`. -/
def clamp {α : Type} [LinearOrder α] (x minVal maxVal : α) : α :=
  min (max x minVal) maxVal

/-- The library function `glm::mix(x, y, a)` on floats, which is
`x * (1 - a) + y * a`. -/
def mix (x y a : ℚ) : ℚ :=
  x * (1 - a) + y * a

/-- The value `index = (z * h_width + x) * h_channels` of the lambda
`getPixelHeightValue`, an `unsigned int`. -/
def pixelIndex (h_width h_channels x z : Int) : Nat :=
  toUnsigned ((z * h_width + x) * h_channels)

/-- The test `index >= h_width * h_height * h_channels` of the lambda, in
which the `int` product is converted to `unsigned int` for the comparison. -/
def outOfRange (h_width h_height h_channels : Int) (index : Nat) : Bool :=
  decide (index ≥ toUnsigned (h_width * h_height * h_channels))

/-- The lambda `getPixelHeightValue` of `getTerrainHeight`: `0` when the
index fails the range test, the byte at the index divided by `255`
otherwise. -/
def getPixelHeightValue (heightmapData : Nat → Fin 256) (h_width h_height h_channels : Int)
    (x z : Int) : ℚ :=
  let index := pixelIndex h_width h_channels x z
  if outOfRange h_width h_height h_channels index then 0
  else ((heightmapData index).val : ℚ) / 255

/-- The pixel position and the four surrounding pixel coordinates that
`getTerrainHeight` computes for a world position. -/
structure Cell where
  pixelX_float : ℚ
  pixelZ_float : ℚ
  x1 : Int
  x2 : Int
  z1 : Int
  z2 : Int
deriving DecidableEq, Repr

/-- Steps 1 to 3 of `getTerrainHeight`: the world position is normalised to
the unit square and clamped, scaled to pixel coordinates, and the floor and
ceiling of each coordinate are clamped to the image. -/
def cell (worldX worldZ terrainWidth terrainDepth : ℚ) (h_width h_height : Int) :
    Option Cell :=
  match fdiv (worldX + terrainWidth / 2) terrainWidth,
      fdiv (worldZ + terrainDepth / 2) terrainDepth with
  | some normalizedX, some normalizedZ =>
    let normalizedX := clamp normalizedX 0 1
    let normalizedZ := clamp normalizedZ 0 1
    let pixelX_float := normalizedX * ((h_width - 1 : Int) : ℚ)
    let pixelZ_float := normalizedZ * ((h_height - 1 : Int) : ℚ)
    let x1 : Int := ⌊pixelX_float⌋
    let x2 : Int := ⌈pixelX_float⌉
    let z1 : Int := ⌊pixelZ_float⌋
    let z2 : Int := ⌈pixelZ_float⌉
    some { pixelX_float := pixelX_float, pixelZ_float := pixelZ_float,
           x1 := clamp x1 0 (h_width - 1), x2 := clamp x2 0 (h_width - 1),
           z1 := clamp z1 0 (h_height - 1), z2 := clamp z2 0 (h_height - 1) }
  | _, _ => none

/-- The function `getTerrainHeight`.  The result is `none` when one of the
two divisions by the terrain size has a zero divisor. -/
def getTerrainHeight (worldX worldZ terrainWidth terrainDepth terrainYOffset heightScale : ℚ)
    (heightmapData : Option (Nat → Fin 256)) (h_width h_height h_channels : Int) : Option ℚ :=
  match heightmapData with
  | none => some terrainYOffset
  | some data =>
    if h_width = 0 ∨ h_height = 0 then some terrainYOffset
    else
      match cell worldX worldZ terrainWidth terrainDepth h_width h_height with
      | none => none
      | some c =>
        let h00 := getPixelHeightValue data h_width h_height h_channels c.x1 c.z1
        let h10 := getPixelHeightValue data h_width h_height h_channels c.x2 c.z1
        let h01 := getPixelHeightValue data h_width h_height h_channels c.x1 c.z2
        let h11 := getPixelHeightValue data h_width h_height h_channels c.x2 c.z2
        let tx := c.pixelX_float - (c.x1 : ℚ)
        let tz := c.pixelZ_float - (c.z1 : ℚ)
        let interpolatedX1 := mix h00 h10 tx
        let interpolatedX2 := mix h01 h11 tx
        let finalHeightValue := mix interpolatedX1 interpolatedX2 tz
        some (terrainYOffset + finalHeightValue * heightScale)

/-- An image in which every byte is `255`. -/
def whiteImage : Nat → Fin 256 := fun _ => 255

end Terrain

namespace AnimatedModel

variable {K : Type} [LinearOrderedField K] [FloorRing K]

/-! ## Narrowing to `float` -/

theorem two_zpow_pos (k : Int) : (0 : K) < 2 ^ k :=
  zpow_pos two_pos k

theorem two_zpow_mono {m n : Int} (h : m ≤ n) : (2 : K) ^ m ≤ 2 ^ n :=
  zpow_le_zpow_right₀ one_le_two h

theorem roundTiesEven_intCast (n : Int) : roundTiesEven (n : K) = n := by
  unfold roundTiesEven
  rw [Int.floor_intCast, sub_self, if_pos (by norm_num)]

theorem roundTiesEven_le (x : K) (N : Int) (h : x ≤ N) : roundTiesEven x ≤ N := by
  have hfloor : ⌊x⌋ ≤ N := by
    have := le_trans (Int.floor_le x) h
    exact_mod_cast this
  have hstep : 0 < x - ⌊x⌋ → ⌊x⌋ + 1 ≤ N := by
    intro hpos
    have : ((⌊x⌋ : Int) : K) < N := lt_of_lt_of_le (sub_pos.mp hpos) h
    have : ⌊x⌋ < N := by exact_mod_cast this
    omega
  unfold roundTiesEven
  split
  · exact hfloor
  · next h1 =>
    have hpos : 0 < x - ⌊x⌋ := lt_of_lt_of_le (by norm_num) (not_lt.mp h1)
    split
    · exact hstep hpos
    · split
      · exact hfloor
      · exact hstep hpos

theorem le_roundTiesEven (x : K) (N : Int) (h : (N : K) ≤ x) : N ≤ roundTiesEven x := by
  have hfloor : N ≤ ⌊x⌋ := Int.le_floor.mpr h
  unfold roundTiesEven
  split
  · exact hfloor
  · split
    · omega
    · split
      · exact hfloor
      · omega

theorem log_two_le_of_le {a : K} (ha : 0 < a) {k : Int} (h : a ≤ 2 ^ k) : Int.log 2 a ≤ k := by
  have := Int.log_mono_right (b := 2) ha h
  have hk : Int.log 2 ((2 : K) ^ k) = k := by
    have := Int.log_zpow (R := K) (b := 2) (by norm_num) k
    simpa using this
  rw [hk] at this
  exact this

theorem log_two_lt_of_lt {a : K} (ha : 0 < a) {k : Int} (h : a < 2 ^ k) : Int.log 2 a < k := by
  have := (Int.lt_zpow_iff_log_lt (R := K) (b := 2) (by norm_num) (x := k) ha).mp
    (by simpa using h)
  exact this

theorem floatExponent_ge (x : K) : -126 ≤ floatExponent x :=
  le_max_right _ _

theorem two_zpow_cast (d : Int) (hd : 0 ≤ d) : (2 : K) ^ d = ((2 ^ d.toNat : Int) : K) := by
  have : d = (d.toNat : Int) := (Int.toNat_of_nonneg hd).symm
  rw [this, zpow_natCast]
  push_cast
  rw [Int.toNat_natCast]

theorem div_ulp_eq (k e : Int) : (2 : K) ^ k / 2 ^ (e - 23) = 2 ^ (k - (e - 23)) :=
  (zpow_sub₀ two_ne_zero k (e - 23)).symm

theorem roundFloat_le_zpow (x : K) (k : Int) (hk : -126 ≤ k) (h : x ≤ 2 ^ k) :
    roundFloat x ≤ 2 ^ k := by
  have hu := two_zpow_pos (K := K) (floatExponent x - 23)
  unfold roundFloat
  rcases le_or_lt x 0 with hx | hx
  · have : roundTiesEven (x / 2 ^ (floatExponent x - 23)) ≤ 0 :=
      roundTiesEven_le _ 0 (by
        have := div_nonpos_of_nonpos_of_nonneg hx (le_of_lt hu)
        simpa using this)
    have hc : ((roundTiesEven (x / 2 ^ (floatExponent x - 23)) : Int) : K) ≤ 0 := by
      exact_mod_cast this
    exact le_trans (mul_nonpos_of_nonpos_of_nonneg hc (le_of_lt hu)) (le_of_lt (two_zpow_pos k))
  · have hL : Int.log 2 |x| ≤ k := log_two_le_of_le (abs_pos.mpr (ne_of_gt hx))
      (by rw [abs_of_pos hx]; exact h)
    have he : floatExponent x ≤ k := max_le hL hk
    have hd : 0 ≤ k - (floatExponent x - 23) := by omega
    have hdiv : x / 2 ^ (floatExponent x - 23)
        ≤ ((2 ^ (k - (floatExponent x - 23)).toNat : Int) : K) := by
      rw [← two_zpow_cast _ hd, ← div_ulp_eq]
      exact div_le_div_of_nonneg_right h (le_of_lt hu)
    have hr := roundTiesEven_le _ _ hdiv
    have hc : ((roundTiesEven (x / 2 ^ (floatExponent x - 23)) : Int) : K)
        ≤ ((2 ^ (k - (floatExponent x - 23)).toNat : Int) : K) := by exact_mod_cast hr
    calc ((roundTiesEven (x / 2 ^ (floatExponent x - 23)) : Int) : K)
          * 2 ^ (floatExponent x - 23)
        ≤ ((2 ^ (k - (floatExponent x - 23)).toNat : Int) : K) * 2 ^ (floatExponent x - 23) :=
          mul_le_mul_of_nonneg_right hc (le_of_lt hu)
      _ = 2 ^ k := by
          rw [← two_zpow_cast _ hd, ← zpow_add₀ two_ne_zero]
          congr 1
          omega

theorem neg_zpow_le_roundFloat (x : K) (k : Int) (hk : -126 ≤ k) (h : -(2 ^ k) ≤ x) :
    -(2 ^ k) ≤ roundFloat x := by
  have hu := two_zpow_pos (K := K) (floatExponent x - 23)
  unfold roundFloat
  rcases le_or_lt 0 x with hx | hx
  · have : 0 ≤ roundTiesEven (x / 2 ^ (floatExponent x - 23)) :=
      le_roundTiesEven _ 0 (by
        have := div_nonneg hx (le_of_lt hu)
        simpa using this)
    have hc : (0 : K) ≤ ((roundTiesEven (x / 2 ^ (floatExponent x - 23)) : Int) : K) := by
      exact_mod_cast this
    exact le_trans (neg_nonpos.mpr (le_of_lt (two_zpow_pos k))) (mul_nonneg hc (le_of_lt hu))
  · have hL : Int.log 2 |x| ≤ k := log_two_le_of_le (abs_pos.mpr (ne_of_lt hx))
      (by rw [abs_of_neg hx]; linarith)
    have he : floatExponent x ≤ k := max_le hL hk
    have hd : 0 ≤ k - (floatExponent x - 23) := by omega
    have hdiv : ((-(2 ^ (k - (floatExponent x - 23)).toNat) : Int) : K)
        ≤ x / 2 ^ (floatExponent x - 23) := by
      rw [Int.cast_neg, ← two_zpow_cast _ hd, ← div_ulp_eq, ← neg_div]
      exact div_le_div_of_nonneg_right h (le_of_lt hu)
    have hr := le_roundTiesEven _ _ hdiv
    have hc : ((-(2 ^ (k - (floatExponent x - 23)).toNat) : Int) : K)
        ≤ ((roundTiesEven (x / 2 ^ (floatExponent x - 23)) : Int) : K) := by exact_mod_cast hr
    calc -(2 ^ k) = ((-(2 ^ (k - (floatExponent x - 23)).toNat) : Int) : K)
          * 2 ^ (floatExponent x - 23) := by
          rw [Int.cast_neg, ← two_zpow_cast _ hd, neg_mul, ← zpow_add₀ two_ne_zero]
          congr 2
          omega
      _ ≤ ((roundTiesEven (x / 2 ^ (floatExponent x - 23)) : Int) : K)
          * 2 ^ (floatExponent x - 23) :=
          mul_le_mul_of_nonneg_right hc (le_of_lt hu)

theorem roundFloat_nonneg (x : K) (h : 0 ≤ x) : 0 ≤ roundFloat x := by
  have hu := two_zpow_pos (K := K) (floatExponent x - 23)
  unfold roundFloat
  have : 0 ≤ roundTiesEven (x / 2 ^ (floatExponent x - 23)) :=
    le_roundTiesEven _ 0 (by
      have := div_nonneg h (le_of_lt hu)
      simpa using this)
  have hc : (0 : K) ≤ ((roundTiesEven (x / 2 ^ (floatExponent x - 23)) : Int) : K) := by
    exact_mod_cast this
  exact mul_nonneg hc (le_of_lt hu)

theorem roundFloat_zero : roundFloat (0 : K) = 0 := by
  unfold roundFloat
  rw [zero_div]
  have := roundTiesEven_intCast (K := K) 0
  rw [Int.cast_zero] at this
  rw [this, Int.cast_zero, zero_mul]

theorem roundFloat_of_representable (m k : Int) (hm : |m| < 2 ^ 24) (hk : -149 ≤ k) :
    roundFloat ((m : K) * 2 ^ k) = (m : K) * 2 ^ k := by
  by_cases h0 : m = 0
  · rw [h0, Int.cast_zero, zero_mul]
    exact roundFloat_zero
  · have hpos : (0 : K) < |(m : K) * 2 ^ k| := by
      apply abs_pos.mpr
      exact mul_ne_zero (by exact_mod_cast h0) (ne_of_gt (two_zpow_pos k))
    have hm' : |(m : K)| < 2 ^ 24 := by
      have : ((|m| : Int) : K) < ((2 ^ 24 : Int) : K) := by exact_mod_cast hm
      rw [Int.cast_abs] at this
      exact lt_of_lt_of_le this (by norm_num)
    have hlt : |(m : K) * 2 ^ k| < 2 ^ (k + 24) := by
      rw [abs_mul, abs_of_pos (two_zpow_pos (K := K) k), zpow_add₀ two_ne_zero, mul_comm]
      have h24 : (2 : K) ^ (24 : Int) = 2 ^ 24 := by norm_cast
      rw [h24]
      exact mul_lt_mul_of_pos_left hm' (two_zpow_pos k)
    have hL : Int.log 2 |(m : K) * 2 ^ k| < k + 24 := log_two_lt_of_lt hpos hlt
    have he : floatExponent ((m : K) * 2 ^ k) - 23 ≤ k := by
      unfold floatExponent
      have : max (Int.log 2 |(m : K) * 2 ^ k|) (-126) ≤ k + 23 := max_le (by omega) (by omega)
      omega
    have hd : 0 ≤ k - (floatExponent ((m : K) * 2 ^ k) - 23) := by omega
    have hdiv : (m : K) * 2 ^ k / 2 ^ (floatExponent ((m : K) * 2 ^ k) - 23)
        = ((m * 2 ^ (k - (floatExponent ((m : K) * 2 ^ k) - 23)).toNat : Int) : K) := by
      rw [mul_div_assoc, div_ulp_eq, two_zpow_cast _ hd]
      push_cast
      rfl
    unfold roundFloat
    rw [hdiv, roundTiesEven_intCast]
    push_cast
    have h2 := two_zpow_cast (K := K) _ hd
    push_cast at h2
    rw [← h2, mul_assoc, ← zpow_add₀ two_ne_zero]
    congr 2
    omega

theorem toFloat_eq_some {x y : K} (h : toFloat x = some y) : y = roundFloat x := by
  unfold toFloat at h
  split at h
  · exact (Option.some.inj h).symm
  · cases h

theorem two_pow_127_le : (2 : K) ^ (127 : Int) ≤ (2 ^ 24 - 1) * 2 ^ 104 := by
  have h : (2 : K) ^ (127 : Int) = 2 ^ 127 := by norm_cast
  rw [h]
  norm_num

theorem toFloat_of_abs_le (x : K) (k : Int) (hk : -126 ≤ k) (hk' : k ≤ 127)
    (h : |x| ≤ 2 ^ k) : ∃ y, toFloat x = some y ∧ y = roundFloat x ∧ |y| ≤ 2 ^ k := by
  obtain ⟨hlo, hhi⟩ := abs_le.mp h
  have hr : |roundFloat x| ≤ 2 ^ k :=
    abs_le.mpr ⟨neg_zpow_le_roundFloat x k hk hlo, roundFloat_le_zpow x k hk hhi⟩
  refine ⟨roundFloat x, ?_, rfl, hr⟩
  unfold toFloat
  rw [if_pos (le_trans hr (le_trans (two_zpow_mono hk') two_pow_127_le))]

theorem toFloat_of_representable (m k : Int) (hm : |m| < 2 ^ 24) (hk : -149 ≤ k)
    (hk' : k ≤ 104) : toFloat ((m : K) * 2 ^ k) = some ((m : K) * 2 ^ k) := by
  unfold toFloat
  rw [roundFloat_of_representable m k hm hk, if_pos]
  rw [abs_mul, abs_of_pos (two_zpow_pos (K := K) k)]
  have hm' : |(m : K)| ≤ 2 ^ 24 - 1 := by
    have : |m| ≤ 2 ^ 24 - 1 := by omega
    have : ((|m| : Int) : K) ≤ ((2 ^ 24 - 1 : Int) : K) := by exact_mod_cast this
    rw [Int.cast_abs] at this
    exact le_trans this (by norm_num)
  have h104 : (2 : K) ^ k ≤ 2 ^ 104 := by
    have := two_zpow_mono (K := K) hk'
    have h : (2 : K) ^ (104 : Int) = 2 ^ 104 := by norm_cast
    rw [h] at this
    exact this
  exact mul_le_mul hm' h104 (le_of_lt (two_zpow_pos k)) (by norm_num)

theorem toFloat_intCast (n : Int) (h : |n| < 2 ^ 24) : toFloat (n : K) = some (n : K) := by
  have := toFloat_of_representable (K := K) n 0 h (by norm_num) (by norm_num)
  rw [zpow_zero, mul_one] at this
  exact this

theorem toFloat_half : toFloat (1 / 2 : K) = some (1 / 2) := by
  have := toFloat_of_representable (K := K) 1 (-1) (by norm_num) (by norm_num) (by norm_num)
  have h : ((1 : Int) : K) * 2 ^ (-1 : Int) = 1 / 2 := by
    rw [Int.cast_one, one_mul, zpow_neg_one, one_div]
  rw [h] at this
  exact this

theorem toFloat_nonneg {x y : K} (h : toFloat x = some y) (hx : 0 ≤ x) : 0 ≤ y := by
  rw [toFloat_eq_some h]
  exact roundFloat_nonneg x hx

theorem toFloat_unit (x : K) (h0 : 0 ≤ x) (h1 : x ≤ 1) :
    ∃ t, toFloat x = some t ∧ t = roundFloat x ∧ 0 ≤ t ∧ t ≤ 1 := by
  have habs : |x| ≤ 2 ^ (0 : Int) := by
    rw [zpow_zero, abs_of_nonneg h0]
    exact h1
  obtain ⟨t, ht, heq, hle⟩ := toFloat_of_abs_le x 0 (by norm_num) (by norm_num) habs
  rw [zpow_zero] at hle
  exact ⟨t, ht, heq, toFloat_nonneg ht h0, (abs_le.mp hle).2⟩

theorem roundFloat_near_one (x : K) (h1 : 1 - 1 / 2 ^ 25 ≤ x) (h2 : x < 1) :
    roundFloat x = 1 := by
  have hx : (0 : K) < x := lt_of_lt_of_le (by norm_num) h1
  have hL : Int.log 2 |x| = -1 := by
    rw [abs_of_pos hx]
    apply le_antisymm
    · have := log_two_lt_of_lt hx (k := 0) (by rw [zpow_zero]; exact h2)
      omega
    · apply (Int.zpow_le_iff_le_log (R := K) (b := 2) (by norm_num) hx).mp
      have : ((2 : ℕ) : K) ^ (-1 : Int) = 1 / 2 := by
        rw [zpow_neg_one, one_div]
        norm_num
      rw [this]
      exact le_trans (by norm_num) h1
  have he : floatExponent x - 23 = -24 := by
    unfold floatExponent
    rw [hL]
    rfl
  have hu : (2 : K) ^ (-24 : Int) = 1 / 16777216 := by
    rw [zpow_neg, one_div]
    norm_cast
  have hfloor : ⌊x / (1 / 16777216)⌋ = 16777215 := by
    rw [Int.floor_eq_iff]
    constructor
    · push_cast
      rw [le_div_iff₀ (by norm_num)]
      linarith
    · push_cast
      rw [div_lt_iff₀ (by norm_num)]
      linarith
  have hfrac : ¬ (x / (1 / 16777216) - ((16777215 : Int) : K) < 1 / 2) := by
    rw [not_lt]
    push_cast
    rw [le_sub_iff_add_le, le_div_iff₀ (by norm_num)]
    linarith
  have hround : roundTiesEven (x / (1 / 16777216)) = 16777216 := by
    unfold roundTiesEven
    rw [hfloor, if_neg hfrac]
    split
    · rfl
    · rw [if_neg (by decide)]
      rfl
  unfold roundFloat
  rw [he, hu, hround]
  push_cast
  norm_num

theorem roundFloat_just_above_one (x : K) (h1 : 1 ≤ x) (h2 : x < 1 + 1 / 2 ^ 24) :
    roundFloat x = 1 := by
  have hx : (0 : K) < x := lt_of_lt_of_le one_pos h1
  have hL : Int.log 2 |x| = 0 := by
    rw [abs_of_pos hx]
    apply le_antisymm
    · have := log_two_lt_of_lt hx (k := 1) (by
        rw [zpow_one]
        exact lt_trans h2 (by norm_num))
      omega
    · apply (Int.zpow_le_iff_le_log (R := K) (b := 2) (by norm_num) hx).mp
      rw [zpow_zero]
      exact h1
  have he : floatExponent x - 23 = -23 := by
    unfold floatExponent
    rw [hL]
    rfl
  have hu : (2 : K) ^ (-23 : Int) = 1 / 8388608 := by
    rw [zpow_neg, one_div]
    norm_cast
  have hfloor : ⌊x / (1 / 8388608)⌋ = 8388608 := by
    rw [Int.floor_eq_iff]
    constructor
    · push_cast
      rw [le_div_iff₀ (by norm_num)]
      linarith
    · push_cast
      rw [div_lt_iff₀ (by norm_num)]
      linarith
  have hfrac : x / (1 / 8388608) - ((8388608 : Int) : K) < 1 / 2 := by
    push_cast
    rw [sub_lt_iff_lt_add, div_lt_iff₀ (by norm_num)]
    linarith
  have hround : roundTiesEven (x / (1 / 8388608)) = 8388608 := by
    unfold roundTiesEven
    rw [hfloor, if_pos hfrac]
  unfold roundFloat
  rw [he, hu, hround]
  push_cast
  norm_num

theorem roundFloat_tiny (x : K) (h0 : 0 < x) (h : x < 1 / 2 ^ 150) : roundFloat x = 0 := by
  have hL : Int.log 2 |x| < -150 := by
    rw [abs_of_pos h0]
    apply log_two_lt_of_lt h0
    have : (2 : K) ^ (-150 : Int) = 1 / 2 ^ 150 := by
      rw [zpow_neg, one_div]
      norm_cast
    rw [this]
    exact h
  have he : floatExponent x - 23 = -149 := by
    unfold floatExponent
    rw [max_eq_right (by omega)]
    rfl
  have hu : (2 : K) ^ (-149 : Int) = 1 / 2 ^ 149 := by
    rw [zpow_neg, one_div]
    norm_cast
  have hq : x / (1 / 2 ^ 149) < 1 / 2 := by
    rw [div_lt_iff₀ (by positivity)]
    calc x < 1 / 2 ^ 150 := h
      _ = 1 / 2 * (1 / 2 ^ 149) := by norm_num
  have hq0 : 0 ≤ x / (1 / 2 ^ 149) := div_nonneg (le_of_lt h0) (by positivity)
  have hfloor : ⌊x / (1 / 2 ^ 149)⌋ = 0 := by
    rw [Int.floor_eq_iff]
    constructor
    · simpa using hq0
    · push_cast
      linarith
  have hround : roundTiesEven (x / (1 / 2 ^ 149)) = 0 := by
    unfold roundTiesEven
    rw [hfloor, if_pos (by simpa using hq)]
  unfold roundFloat
  rw [he, hu, hround]
  simp

theorem toFloat_of_roundFloat_eq {x y : K} (h : roundFloat x = y)
    (hy : |y| ≤ (2 ^ 24 - 1) * 2 ^ 104) : toFloat x = some y := by
  unfold toFloat
  rw [h, if_pos hy]

/-! ## Properties of the skeleton registry -/

theorem findBone_isNone_iff (bones : List (Bone K)) (name : String) :
    (findBone bones name).isNone = true ↔ name ∉ bones.map Bone.name := by
  induction bones with
  | nil => simp [findBone]
  | cons b rest ih =>
    simp only [findBone, List.find?_cons] at ih ⊢
    by_cases h : b.name = name
    · simp [h]
    · have h' : (b.name == name) = false := by simpa using h
      simp only [h', List.map_cons, List.mem_cons]
      rw [ih]
      constructor
      · intro hn hc
        rcases hc with hc | hc
        · exact h hc.symm
        · exact hn hc
      · intro hn hc
        exact hn (Or.inr hc)

theorem foldl_loadBones (meshes : List (aiMesh K)) (s : State K) :
    meshes.foldl loadBones s = (meshes.flatMap aiMesh.mBones).foldl loadBone s := by
  induction meshes generalizing s with
  | nil => rfl
  | cons m rest ih => simp [List.foldl_append, loadBones, ih]

theorem Registered.card {decls : List (aiBone K)} {s : State K} (h : Registered decls s) :
    s.bones.length = (decls.map aiBone.mName).toFinset.card := by
  have h1 : (s.bones.map Bone.name).toFinset = (decls.map aiBone.mName).toFinset := by
    ext n
    simp only [List.mem_toFinset]
    exact h.names n
  rw [← h1, List.toFinset_card_of_nodup h.nodup, List.length_map]

theorem registered_foldl (decls : List (aiBone K)) (s0 : State K) (hb : s0.bones = [])
    (hc : s0.boneCounter = 0) : Registered decls (decls.foldl loadBone s0) := by
  induction decls using List.reverseRecOn with
  | nil =>
    refine ⟨by simp [hb], by simp [hb, hc], by simp [hb], ?_, ?_⟩
    · intro n; simp [hb]
    · intro j h; simp at h
  | append_singleton p d ih =>
    rw [List.foldl_append, List.foldl_cons, List.foldl_nil]
    generalize p.foldl loadBone s0 = s at ih ⊢
    have hcard := ih.card
    by_cases hreg : d.mName ∈ s.bones.map Bone.name
    · -- already registered: nothing changes
      have hs : loadBone s d = s := by
        have : ¬ (findBone s.bones d.mName).isNone = true := by
          rw [findBone_isNone_iff]; exact not_not.mpr hreg
        simp [loadBone, this]
      rw [hs]
      refine ⟨ih.ids, ih.counter, ih.nodup, ?_, ?_⟩
      · intro n
        rw [ih.names n]
        simp only [List.map_append, List.map_cons, List.map_nil, List.mem_append,
          List.mem_singleton]
        constructor
        · exact Or.inl
        · rintro (h | h)
          · exact h
          · rw [h]; exact (ih.names _).mp hreg
      · intro j hj hfirst
        simp only [List.map_append, List.map_cons, List.map_nil] at hj hfirst ⊢
        by_cases hjp : j < (p.map aiBone.mName).length
        · rw [List.getElem_append_left hjp] at hfirst ⊢
          rw [List.take_append_of_le_length (le_of_lt hjp)] at hfirst ⊢
          exact ih.first j hjp hfirst
        · exfalso
          have hje : j = (p.map aiBone.mName).length := by
            simp only [List.length_append, List.length_singleton] at hj
            omega
          subst hje
          apply hfirst
          rw [List.getElem_append_right (le_refl _)]
          simp only [Nat.sub_self, List.getElem_cons_zero, List.take_left']
          exact (ih.names _).mp hreg
    · -- a new bone is appended
      have hs : loadBone s d =
          { s with
            bones := s.bones ++ [{ name := d.mName, id := s.boneCounter,
                                   offsetMatrix := convertMatrix d.mOffsetMatrix,
                                   finalTransformation := 1 }],
            boneCounter := s.boneCounter + 1 } := by
        have : (findBone s.bones d.mName).isNone = true := by
          rw [findBone_isNone_iff]; exact hreg
        simp [loadBone, this]
      rw [hs]
      refine ⟨?_, ?_, ?_, ?_, ?_⟩
      · simp only [List.map_append, List.map_cons, List.map_nil, List.length_append,
          List.length_singleton, List.range_succ, ih.ids, ih.counter]
      · simp [ih.counter]
      · simp only [List.map_append, List.map_cons, List.map_nil]
        rw [List.nodup_append]
        refine ⟨ih.nodup, List.nodup_singleton _, ?_⟩
        intro a ha hb
        rw [List.mem_singleton] at hb
        exact hreg (hb ▸ ha)
      · intro n
        simp only [List.map_append, List.map_cons, List.map_nil, List.mem_append,
          List.mem_singleton]
        rw [ih.names n]
      · intro j hj hfirst
        simp only [List.map_append, List.map_cons, List.map_nil] at hj hfirst ⊢
        by_cases hjp : j < (p.map aiBone.mName).length
        · rw [List.getElem_append_left hjp] at hfirst ⊢
          rw [List.take_append_of_le_length (le_of_lt hjp)] at hfirst ⊢
          obtain ⟨b, hb, hbn, hbi⟩ := ih.first j hjp hfirst
          exact ⟨b, List.mem_append_left _ hb, hbn, hbi⟩
        · have hje : j = (p.map aiBone.mName).length := by
            simp only [List.length_append, List.length_singleton] at hj
            omega
          subst hje
          refine ⟨_, List.mem_append_right _ (List.mem_singleton_self _), ?_, ?_⟩
          · rw [List.getElem_append_right (le_refl _)]
            simp
          · simp only [List.take_left']
            rw [ih.counter, hcard]


theorem not_mem_take_indexOf (l : List String) (a : String) : a ∉ l.take (l.indexOf a) := by
  induction l with
  | nil => simp
  | cons x rest ih =>
    by_cases h : x = a
    · simp [h]
    · rw [List.indexOf_cons_ne _ h, List.take_succ_cons, List.mem_cons]
      rintro (h1 | h1)
      · exact h h1.symm
      · exact ih h1

/-- C1: starting from the empty registry, after `loadBones` has run over
any sequence of meshes the ids of the registered bones are `0, ..., n - 1` in
insertion order, hence pairwise distinct and exactly the set below `n`, where
`n` is the number of distinct declared bone names; `boneCounter` and
`bones.size()` equal `n`; the registered names are the declared ones; and the
id of each bone is the number of distinct names declared before the first
declaration of its own name. -/
theorem loadBones_ids_dense (meshes : List (aiMesh K)) :
    (meshes.foldl loadBones State.initial).bones.map Bone.id
        = List.range (declaredNames meshes).toFinset.card
    ∧ ((meshes.foldl loadBones State.initial).bones.map Bone.id).Nodup
    ∧ (∀ i, i ∈ (meshes.foldl loadBones State.initial).bones.map Bone.id
        ↔ i < (declaredNames meshes).toFinset.card)
    ∧ (meshes.foldl loadBones State.initial).boneCounter = (declaredNames meshes).toFinset.card
    ∧ (meshes.foldl loadBones State.initial).bones.length = (declaredNames meshes).toFinset.card
    ∧ (∀ n, n ∈ (meshes.foldl loadBones State.initial).bones.map Bone.name
        ↔ n ∈ declaredNames meshes)
    ∧ ∀ b ∈ (meshes.foldl loadBones State.initial).bones,
        b.id = ((declaredNames meshes).take ((declaredNames meshes).indexOf b.name)).toFinset.card := by
  have hreg := registered_foldl (meshes.flatMap aiMesh.mBones) State.initial rfl rfl
  rw [← foldl_loadBones] at hreg
  unfold declaredNames
  have hcard := hreg.card
  have hids := hreg.ids
  rw [hcard] at hids
  refine ⟨hids, ?_, ?_, ?_, hcard, hreg.names, ?_⟩
  · rw [hids]; exact List.nodup_range _
  · intro i; rw [hids, List.mem_range]
  · rw [hreg.counter, hcard]
  · intro b hb
    have hmem := (hreg.names b.name).mp (List.mem_map_of_mem _ hb)
    have hlt := List.indexOf_lt_length.mpr hmem
    have hget := List.getElem_indexOf hlt
    obtain ⟨b', hb', hn', hi'⟩ := hreg.first _ hlt (by
      rw [hget]; exact not_mem_take_indexOf _ _)
    have hbb : b' = b := by
      apply List.inj_on_of_nodup_map hreg.nodup hb' hb
      rw [hn']; exact hget
    rw [← hbb, hi', hbb]

/-! ## Bone ids stay inside `boneTransforms` -/

theorem loadAnimation_fold_fields (channels : List (aiNodeAnim K)) (a : Animation K) :
    (channels.foldl
      (fun animation channel =>
        { animation with
          positionKeyframes := mapAssign animation.positionKeyframes channel.mNodeName channel.mPositionKeys,
          rotationKeyframes := mapAssign animation.rotationKeyframes channel.mNodeName channel.mRotationKeys,
          scalingKeyframes := mapAssign animation.scalingKeyframes channel.mNodeName channel.mScalingKeys })
      a).duration = a.duration
    ∧ (channels.foldl
      (fun animation channel =>
        { animation with
          positionKeyframes := mapAssign animation.positionKeyframes channel.mNodeName channel.mPositionKeys,
          rotationKeyframes := mapAssign animation.rotationKeyframes channel.mNodeName channel.mRotationKeys,
          scalingKeyframes := mapAssign animation.scalingKeyframes channel.mNodeName channel.mScalingKeys })
      a).ticksPerSecond = a.ticksPerSecond := by
  induction channels generalizing a with
  | nil => exact ⟨rfl, rfl⟩
  | cons c rest ih =>
    rw [List.foldl_cons]
    obtain ⟨h1, h2⟩ := ih
      { a with
        positionKeyframes := mapAssign a.positionKeyframes c.mNodeName c.mPositionKeys,
        rotationKeyframes := mapAssign a.rotationKeyframes c.mNodeName c.mRotationKeys,
        scalingKeyframes := mapAssign a.scalingKeyframes c.mNodeName c.mScalingKeys }
    exact ⟨h1, h2⟩

theorem loadAnimation_duration (anim : aiAnimation K) :
    (loadAnimation anim).duration = anim.mDuration :=
  (loadAnimation_fold_fields anim.mChannels _).1

theorem loadAnimation_ticksPerSecond (anim : aiAnimation K) :
    (loadAnimation anim).ticksPerSecond
      = if anim.mTicksPerSecond = 0 then 25 else anim.mTicksPerSecond := by
  unfold loadAnimation
  rw [(loadAnimation_fold_fields anim.mChannels _).2]
  dsimp only
  by_cases h : anim.mTicksPerSecond = 0
  · simp [h]
  · simp [h]

theorem SameRegistry.refl (s : State K) : SameRegistry s s :=
  ⟨rfl, rfl, rfl, rfl, rfl, rfl, rfl, rfl, rfl⟩

theorem SameRegistry.trans {a b c : State K} (h1 : SameRegistry a b) (h2 : SameRegistry b c) :
    SameRegistry a c :=
  ⟨h2.names.trans h1.names, h2.ids.trans h1.ids, h2.offsets.trans h1.offsets,
   h2.size.trans h1.size, h2.animations.trans h1.animations, h2.rootNode.trans h1.rootNode,
   h2.meshes.trans h1.meshes, h2.boneCounter.trans h1.boneCounter,
   h2.shaderProgram.trans h1.shaderProgram⟩

theorem InBounds.of_same {s s' : State K} (h : InBounds s) (hs : SameRegistry s s') :
    InBounds s' := by
  intro b hb
  have h1 : b.id ∈ s'.bones.map Bone.id := List.mem_map_of_mem _ hb
  rw [hs.ids, List.mem_map] at h1
  obtain ⟨b0, hb0, hid⟩ := h1
  rw [hs.size, ← hid]
  exact h b0 hb0

theorem setFinalTransformation_names (bones : List (Bone K)) (name : String) (m : Mat4 K) :
    (setFinalTransformation bones name m).map Bone.name = bones.map Bone.name := by
  induction bones with
  | nil => rfl
  | cons b rest ih =>
    simp only [setFinalTransformation]
    split
    · rfl
    · simp only [List.map_cons, ih]

theorem setFinalTransformation_ids (bones : List (Bone K)) (name : String) (m : Mat4 K) :
    (setFinalTransformation bones name m).map Bone.id = bones.map Bone.id := by
  induction bones with
  | nil => rfl
  | cons b rest ih =>
    simp only [setFinalTransformation]
    split
    · rfl
    · simp only [List.map_cons, ih]

theorem setFinalTransformation_offsets (bones : List (Bone K)) (name : String) (m : Mat4 K) :
    (setFinalTransformation bones name m).map Bone.offsetMatrix
      = bones.map Bone.offsetMatrix := by
  induction bones with
  | nil => rfl
  | cons b rest ih =>
    simp only [setFinalTransformation]
    split
    · rfl
    · simp only [List.map_cons, ih]

theorem findBone_mem {bones : List (Bone K)} {name : String} {b : Bone K}
    (h : findBone bones name = some b) : b ∈ bones ∧ b.name = name := by
  unfold findBone at h
  refine ⟨List.mem_of_find?_eq_some h, ?_⟩
  have := List.find?_some h
  simpa using this

theorem writeBone_same (s : State K) (nodeName : String) (g : Mat4 K) :
    SameRegistry s (writeBone s nodeName g) := by
  unfold writeBone
  split
  · exact SameRegistry.refl s
  · dsimp only
    split
    · exact ⟨setFinalTransformation_names _ _ _, setFinalTransformation_ids _ _ _,
        setFinalTransformation_offsets _ _ _, by simp, rfl, rfl, rfl, rfl, rfl⟩
    · exact ⟨setFinalTransformation_names _ _ _, setFinalTransformation_ids _ _ _,
        setFinalTransformation_offsets _ _ _, rfl, rfl, rfl, rfl, rfl, rfl⟩

theorem writeBone_errors (s : State K) (nodeName : String) (g : Mat4 K) (h : InBounds s) :
    (writeBone s nodeName g).errors = s.errors := by
  unfold writeBone
  split
  · rfl
  · next bone hfind =>
    dsimp only
    rw [if_pos (h bone (findBone_mem hfind).1)]

theorem writeBone_animationTime (s : State K) (nodeName : String) (g : Mat4 K) :
    (writeBone s nodeName g).animationTime = s.animationTime := by
  unfold writeBone
  split
  · rfl
  · dsimp only
    split <;> rfl

mutual
theorem calculateBoneTransformations_same (slerp : Quat K → Quat K → K → Quat K) :
    ∀ (node : aiNode K) (parent : Mat4 K) (s : State K),
      SameRegistry s (calculateBoneTransformations slerp node parent s)
  | .mk nodeName tr ms children, parent, s => by
    rw [calculateBoneTransformations]
    exact (writeBone_same s nodeName _).trans (calculateChildren_same slerp children _ _)
theorem calculateChildren_same (slerp : Quat K → Quat K → K → Quat K) :
    ∀ (children : List (aiNode K)) (g : Mat4 K) (s : State K),
      SameRegistry s (calculateChildren slerp children g s)
  | [], g, s => by
    rw [calculateChildren]
    exact SameRegistry.refl s
  | child :: rest, g, s => by
    rw [calculateChildren]
    exact (calculateBoneTransformations_same slerp child g s).trans
      (calculateChildren_same slerp rest g _)
end


mutual
theorem calculateBoneTransformations_errors (slerp : Quat K → Quat K → K → Quat K) :
    ∀ (node : aiNode K) (parent : Mat4 K) (s : State K), InBounds s →
      (calculateBoneTransformations slerp node parent s).errors = s.errors
  | .mk nodeName tr ms children, parent, s, h => by
    rw [calculateBoneTransformations]
    rw [calculateChildren_errors slerp children _ _ (h.of_same (writeBone_same s nodeName _))]
    exact writeBone_errors s nodeName _ h
theorem calculateChildren_errors (slerp : Quat K → Quat K → K → Quat K) :
    ∀ (children : List (aiNode K)) (g : Mat4 K) (s : State K), InBounds s →
      (calculateChildren slerp children g s).errors = s.errors
  | [], g, s, _ => by
    rw [calculateChildren]
  | child :: rest, g, s, h => by
    rw [calculateChildren]
    rw [calculateChildren_errors slerp rest g _
      (h.of_same (calculateBoneTransformations_same slerp child g s))]
    exact calculateBoneTransformations_errors slerp child g s h
end

theorem length_resize {α : Type} (v : List α) (n : Nat) (x : α) : (resize v n x).length = n := by
  simp only [resize, List.length_append, List.length_take, List.length_replicate]
  omega

theorem skinBone_fold_diagnostics (bones : List (Bone K)) (decls : List (aiBone K))
    (acc : Mesh K × List Diagnostic)
    (hacc : ∀ d ∈ acc.2, ∃ name, d = Diagnostic.boneNotFound name) :
    ∀ d ∈ (decls.foldl (skinBone bones) acc).2, ∃ name, d = Diagnostic.boneNotFound name := by
  induction decls generalizing acc with
  | nil => exact hacc
  | cons bone rest ih =>
    rw [List.foldl_cons]
    apply ih
    unfold skinBone
    split
    · intro d hd
      rw [List.mem_append, List.mem_singleton] at hd
      rcases hd with hd | hd
      · exact hacc d hd
      · exact ⟨_, hd⟩
    · exact hacc

theorem skinData_diagnostics (bones : List (Bone K)) (mesh : aiMesh K) :
    ∀ d ∈ (skinData bones mesh).2, ∃ name, d = Diagnostic.boneNotFound name :=
  skinBone_fold_diagnostics bones mesh.mBones _ (by simp)

theorem processMesh_same (s : State K) (mesh : aiMesh K) :
    (processMesh s mesh).bones = s.bones ∧
    (processMesh s mesh).boneTransforms = s.boneTransforms ∧
    (processMesh s mesh).animations = s.animations ∧
    (processMesh s mesh).rootNode = s.rootNode ∧
    (NoIdError s → NoIdError (processMesh s mesh)) := by
  refine ⟨rfl, rfl, rfl, rfl, ?_⟩
  intro h i n hmem
  simp only [processMesh, List.mem_append] at hmem
  rcases hmem with hmem | hmem
  · exact h i n hmem
  · obtain ⟨name, hname⟩ := skinData_diagnostics s.bones mesh _ hmem
    cases hname

theorem processMeshes_same (sceneMeshes : List (aiMesh K)) (indices : List Nat) (s : State K) :
    (indices.foldl (processMeshAt sceneMeshes) s).bones = s.bones ∧
    (indices.foldl (processMeshAt sceneMeshes) s).boneTransforms = s.boneTransforms ∧
    (indices.foldl (processMeshAt sceneMeshes) s).animations = s.animations ∧
    (indices.foldl (processMeshAt sceneMeshes) s).rootNode = s.rootNode ∧
    (NoIdError s → NoIdError (indices.foldl (processMeshAt sceneMeshes) s)) := by
  induction indices generalizing s with
  | nil => exact ⟨rfl, rfl, rfl, rfl, id⟩
  | cons i rest ih =>
    rw [List.foldl_cons]
    unfold processMeshAt
    cases hget : sceneMeshes.get? i with
    | none => exact ih s
    | some mesh =>
      obtain ⟨h1, h2, h3, h4, h5⟩ := processMesh_same s mesh
      obtain ⟨k1, k2, k3, k4, k5⟩ := ih (processMesh s mesh)
      exact ⟨k1.trans h1, k2.trans h2, k3.trans h3, k4.trans h4, fun h => k5 (h5 h)⟩

mutual
theorem processNode_same (sceneMeshes : List (aiMesh K)) :
    ∀ (node : aiNode K) (s : State K),
      (processNode sceneMeshes node s).bones = s.bones ∧
      (processNode sceneMeshes node s).boneTransforms = s.boneTransforms ∧
      (processNode sceneMeshes node s).animations = s.animations ∧
      (processNode sceneMeshes node s).rootNode = s.rootNode ∧
      (NoIdError s → NoIdError (processNode sceneMeshes node s))
  | .mk name tr ms children, s => by
    rw [processNode]
    obtain ⟨h1, h2, h3, h4, h5⟩ := processMeshes_same sceneMeshes ms s
    obtain ⟨k1, k2, k3, k4, k5⟩ := processChildren_same sceneMeshes children
      (ms.foldl (processMeshAt sceneMeshes) s)
    exact ⟨k1.trans h1, k2.trans h2, k3.trans h3, k4.trans h4, fun h => k5 (h5 h)⟩
theorem processChildren_same (sceneMeshes : List (aiMesh K)) :
    ∀ (children : List (aiNode K)) (s : State K),
      (processChildren sceneMeshes children s).bones = s.bones ∧
      (processChildren sceneMeshes children s).boneTransforms = s.boneTransforms ∧
      (processChildren sceneMeshes children s).animations = s.animations ∧
      (processChildren sceneMeshes children s).rootNode = s.rootNode ∧
      (NoIdError s → NoIdError (processChildren sceneMeshes children s))
  | [], s => by
    rw [processChildren]
    exact ⟨rfl, rfl, rfl, rfl, id⟩
  | child :: rest, s => by
    rw [processChildren]
    obtain ⟨h1, h2, h3, h4, h5⟩ := processNode_same sceneMeshes child s
    obtain ⟨k1, k2, k3, k4, k5⟩ := processChildren_same sceneMeshes rest
      (processNode sceneMeshes child s)
    exact ⟨k1.trans h1, k2.trans h2, k3.trans h3, k4.trans h4, fun h => k5 (h5 h)⟩
end

theorem loadBone_fold_frame (decls : List (aiBone K)) (s : State K) :
    (decls.foldl loadBone s).errors = s.errors ∧
    (decls.foldl loadBone s).rootNode = s.rootNode ∧
    (decls.foldl loadBone s).animations = s.animations ∧
    (decls.foldl loadBone s).boneTransforms = s.boneTransforms := by
  induction decls generalizing s with
  | nil => exact ⟨rfl, rfl, rfl, rfl⟩
  | cons d rest ih =>
    rw [List.foldl_cons]
    obtain ⟨k1, k2, k3, k4⟩ := ih (loadBone s d)
    have h : (loadBone s d).errors = s.errors ∧ (loadBone s d).rootNode = s.rootNode ∧
        (loadBone s d).animations = s.animations ∧
        (loadBone s d).boneTransforms = s.boneTransforms := by
      unfold loadBone
      split <;> exact ⟨rfl, rfl, rfl, rfl⟩
    exact ⟨k1.trans h.1, k2.trans h.2.1, k3.trans h.2.2.1, k4.trans h.2.2.2⟩

theorem loadBone_fold_animationTime (decls : List (aiBone K)) (s : State K) :
    (decls.foldl loadBone s).animationTime = s.animationTime := by
  induction decls generalizing s with
  | nil => rfl
  | cons d rest ih =>
    rw [List.foldl_cons, ih]
    unfold loadBone
    split <;> rfl

theorem processMeshes_animationTime (sceneMeshes : List (aiMesh K)) (indices : List Nat)
    (s : State K) :
    (indices.foldl (processMeshAt sceneMeshes) s).animationTime = s.animationTime := by
  induction indices generalizing s with
  | nil => rfl
  | cons i rest ih =>
    rw [List.foldl_cons, ih]
    unfold processMeshAt
    cases sceneMeshes.get? i with
    | none => rfl
    | some mesh => rfl

mutual
theorem processNode_animationTime (sceneMeshes : List (aiMesh K)) :
    ∀ (node : aiNode K) (s : State K),
      (processNode sceneMeshes node s).animationTime = s.animationTime
  | .mk name tr ms children, s => by
    rw [processNode, processChildren_animationTime sceneMeshes children,
      processMeshes_animationTime]
theorem processChildren_animationTime (sceneMeshes : List (aiMesh K)) :
    ∀ (children : List (aiNode K)) (s : State K),
      (processChildren sceneMeshes children s).animationTime = s.animationTime
  | [], s => by
    rw [processChildren]
  | child :: rest, s => by
    rw [processChildren, processChildren_animationTime sceneMeshes rest,
      processNode_animationTime sceneMeshes child]
end

theorem construct_animationTime (program : Nat) (scene : Option (aiScene K)) :
    (construct program scene).animationTime = 0 := by
  unfold construct
  cases scene with
  | none => rfl
  | some sc =>
    dsimp only
    split
    · simp only [loadAnimations]
      rw [processNode_animationTime]
      dsimp only
      rw [foldl_loadBones, loadBone_fold_animationTime]
      rfl
    · rfl

theorem construct_inBounds_aux (program : Nat) (scene : Option (aiScene K)) :
    InBounds (construct program scene) ∧ NoIdError (construct program scene) ∧
    ((construct program scene).animations ≠ [] →
      (construct program scene).rootNode.isSome = true) ∧
    (construct program scene).bones.map Bone.id
      = List.range (construct program scene).bones.length := by
  unfold construct
  cases scene with
  | none =>
    refine ⟨?_, ?_, ?_, rfl⟩
    · intro b hb; simp [State.initial] at hb
    · intro i n hmem; simp [State.initial] at hmem
    · intro h; simp [State.initial] at h
  | some sc =>
    dsimp only
    split
    · next root hinc hroot =>
      obtain ⟨h1, h2, h3, h4, h5⟩ := processNode_same sc.mMeshes root
        { (sc.mMeshes.foldl loadBones { { State.initial with shaderProgram := program } with rootNode := some root }) with
          boneTransforms := resize (sc.mMeshes.foldl loadBones { { State.initial with shaderProgram := program } with rootNode := some root }).boneTransforms
            (sc.mMeshes.foldl loadBones { { State.initial with shaderProgram := program } with rootNode := some root }).bones.length 1 }
      have hreg := registered_foldl (sc.mMeshes.flatMap aiMesh.mBones)
        { { State.initial with shaderProgram := program } with rootNode := some root } rfl rfl
      rw [← foldl_loadBones] at hreg
      have hfr := loadBone_fold_frame (sc.mMeshes.flatMap aiMesh.mBones)
        { { State.initial with shaderProgram := program } with rootNode := some root }
      rw [← foldl_loadBones] at hfr
      refine ⟨?_, ?_, ?_, ?_⟩
      · intro b hb
        simp only [loadAnimations] at hb ⊢
        rw [h1] at hb
        rw [h2]
        dsimp only at hb ⊢
        rw [length_resize]
        have : b.id ∈ List.range _ := hreg.ids ▸ List.mem_map_of_mem Bone.id hb
        exact List.mem_range.mp this
      · intro i n hmem
        simp only [loadAnimations] at hmem
        refine h5 ?_ i n hmem
        intro i n hmem
        dsimp only at hmem
        rw [hfr.1] at hmem
        simp [State.initial] at hmem
      · intro _
        simp only [loadAnimations]
        rw [h4]
        dsimp only
        rw [hfr.2.1]
        rfl
      · simp only [loadAnimations]
        rw [h1]
        exact hreg.ids
    · refine ⟨?_, ?_, ?_, rfl⟩
      · intro b hb; simp [State.initial] at hb
      · intro i n hmem; simp [State.initial] at hmem
      · intro h; simp [State.initial] at h

theorem offsets_fold_length (bones : List (Bone K)) (transforms : List (Mat4 K)) :
    (bones.foldl
      (fun transforms bone =>
        if bone.id < transforms.length then transforms.set bone.id bone.offsetMatrix
        else transforms) transforms).length = transforms.length := by
  induction bones generalizing transforms with
  | nil => rfl
  | cons b rest ih =>
    rw [List.foldl_cons, ih]
    split
    · simp
    · rfl

mutual
theorem calculateBoneTransformations_animationTime (slerp : Quat K → Quat K → K → Quat K) :
    ∀ (node : aiNode K) (parent : Mat4 K) (s : State K),
      (calculateBoneTransformations slerp node parent s).animationTime = s.animationTime
  | .mk nodeName tr ms children, parent, s => by
    rw [calculateBoneTransformations, calculateChildren_animationTime slerp children]
    exact writeBone_animationTime s nodeName _
theorem calculateChildren_animationTime (slerp : Quat K → Quat K → K → Quat K) :
    ∀ (children : List (aiNode K)) (g : Mat4 K) (s : State K),
      (calculateChildren slerp children g s).animationTime = s.animationTime
  | [], g, s => by
    rw [calculateChildren]
  | child :: rest, g, s => by
    rw [calculateChildren, calculateChildren_animationTime slerp rest,
      calculateBoneTransformations_animationTime slerp child]
end

theorem updateAnimation_same {slerp : Quat K → Quat K → K → Quat K} {s s' : State K} {deltaTime : K}
    (h : updateAnimation slerp s deltaTime = some s') :
    SameRegistry s s' ∧ (InBounds s → s'.errors = s.errors) := by
  unfold updateAnimation at h
  split at h
  · simp only [Option.some.injEq] at h
    subst h
    exact ⟨⟨rfl, rfl, rfl, offsets_fold_length _ _, rfl, rfl, rfl, rfl, rfl⟩, fun _ => rfl⟩
  · split at h
    · exact absurd h (by simp)
    · next time _ =>
      split at h
      · exact absurd h (by simp)
      · next root _ =>
        simp only [Option.some.injEq] at h
        subst h
        have hs : SameRegistry s { s with animationTime := time } :=
          ⟨rfl, rfl, rfl, rfl, rfl, rfl, rfl, rfl, rfl⟩
        refine ⟨hs.trans (calculateBoneTransformations_same slerp root 1 _), ?_⟩
        intro hin
        rw [calculateBoneTransformations_errors slerp root 1 _ (hin.of_same hs)]

theorem updates_same {slerp : Quat K → Quat K → K → Quat K} (deltas : List K) :
    ∀ {s s' : State K}, updates slerp s deltas = some s' →
      SameRegistry s s' ∧ (InBounds s → s'.errors = s.errors) := by
  induction deltas with
  | nil =>
    intro s s' h
    simp only [updates, Option.some.injEq] at h
    subst h
    exact ⟨SameRegistry.refl s, fun _ => rfl⟩
  | cons d rest ih =>
    intro s s' h
    simp only [updates] at h
    split at h
    · exact absurd h (by simp)
    · next s1 h1 =>
      obtain ⟨a1, a2⟩ := updateAnimation_same h1
      obtain ⟨b1, b2⟩ := ih h
      exact ⟨a1.trans b1, fun hin => (b2 (hin.of_same a1)).trans (a2 hin)⟩

theorem fmod_isSome {x y : K} (h : y ≠ 0) : ∃ r, fmod x y = some r := by
  simp [fmod, h]

theorem fmod_abs_lt {x y r : K} (h : fmod x y = some r) : |r| < |y| := by
  unfold fmod at h
  split at h
  · cases h
  · next hy =>
    have hr := (Option.some.inj h).symm
    have hfact : r = y * (x / y - ((if 0 ≤ x / y then ⌊x / y⌋ else ⌈x / y⌉ : Int) : K)) := by
      rw [hr]
      field_simp
    have hlt : |x / y - ((if 0 ≤ x / y then ⌊x / y⌋ else ⌈x / y⌉ : Int) : K)| < 1 := by
      rw [abs_lt]
      split
      · exact ⟨by linarith [Int.floor_le (x / y)], by linarith [Int.lt_floor_add_one (x / y)]⟩
      · exact ⟨by linarith [Int.ceil_lt_add_one (x / y)], by linarith [Int.le_ceil (x / y)]⟩
    rw [hfact, abs_mul]
    calc |y| * |x / y - ((if 0 ≤ x / y then ⌊x / y⌋ else ⌈x / y⌉ : Int) : K)|
        < |y| * 1 := mul_lt_mul_of_pos_left hlt (abs_pos.mpr hy)
      _ = |y| := mul_one _

/-- The clock has a value after a frame when the clock before and the advance
are at most `2 ^ 126` in size and the narrowed duration is a nonzero number of
at most that size; the new clock is again within that bound. -/
theorem advanceClock_isSome (animationTime deltaTime : K) (a : Animation K) {d : K}
    (hd : toFloat a.duration = some d) (hd0 : d ≠ 0) (hdb : |d| ≤ 2 ^ (126 : Int))
    (ht : |animationTime| ≤ 2 ^ (126 : Int))
    (hstep : |deltaTime * a.ticksPerSecond| ≤ 2 ^ (126 : Int)) :
    ∃ time, advanceClock animationTime deltaTime a = some time
      ∧ |time| ≤ 2 ^ (126 : Int) := by
  have hsum : |animationTime + deltaTime * a.ticksPerSecond| ≤ 2 ^ (127 : Int) := by
    have h2 : (2 : K) ^ (127 : Int) = 2 ^ (126 : Int) + 2 ^ (126 : Int) := by
      rw [show (127 : Int) = 126 + 1 by norm_num, zpow_add₀ two_ne_zero, zpow_one]
      ring
    rw [h2]
    exact le_trans (abs_add _ _) (add_le_add ht hstep)
  obtain ⟨x, hx, _, _⟩ := toFloat_of_abs_le _ 127 (by norm_num) (by norm_num) hsum
  obtain ⟨r, hr⟩ := fmod_isSome (x := x) hd0
  refine ⟨r, ?_, le_trans (le_of_lt (fmod_abs_lt hr)) hdb⟩
  unfold advanceClock
  rw [hx]
  dsimp only
  rw [hd]
  exact hr

theorem fmod_of_lt {x y : K} (hx : 0 ≤ x) (hxy : x < y) : fmod x y = some x := by
  have hy : 0 < y := lt_of_le_of_lt hx hxy
  have hq : 0 ≤ x / y := div_nonneg hx (le_of_lt hy)
  have hfloor : ⌊x / y⌋ = 0 := by
    rw [Int.floor_eq_iff]
    constructor
    · simpa using hq
    · rw [Int.cast_zero, zero_add, div_lt_one hy]
      exact hxy
  unfold fmod
  rw [if_neg (ne_of_gt hy), if_pos hq, hfloor, Int.cast_zero, mul_zero, sub_zero]

/-- A frame of half a second from the clock `0` of a clip of 10 ticks at 10
ticks per second: every value involved is a `float`, and the new clock is
`5`. -/
theorem advanceClock_half_of_ten (a : Animation K) (ht : a.ticksPerSecond = 10)
    (hd : a.duration = 10) : advanceClock 0 (1 / 2) a = some 5 := by
  have h5 : toFloat (5 : K) = some 5 := by
    have := toFloat_intCast (K := K) 5 (by norm_num)
    simpa using this
  have h10 : toFloat (10 : K) = some 10 := by
    have := toFloat_intCast (K := K) 10 (by norm_num)
    simpa using this
  have hsum : (0 : K) + 1 / 2 * 10 = 5 := by norm_num
  unfold advanceClock
  rw [ht, hd, hsum, h5]
  dsimp only
  rw [h10]
  exact fmod_of_lt (by norm_num) (by norm_num)

theorem updateAnimation_isSome (slerp : Quat K → Quat K → K → Quat K) (s : State K)
    (deltaTime : K)
    (hclock : ∀ a rest, s.animations = a :: rest →
      ∃ time, advanceClock s.animationTime deltaTime a = some time)
    (hroot : s.animations ≠ [] → s.rootNode.isSome = true) :
    ∃ s', updateAnimation slerp s deltaTime = some s' := by
  unfold updateAnimation
  split
  · exact ⟨_, rfl⟩
  · next a rest ha =>
    obtain ⟨r, hr⟩ := hclock a rest ha
    rw [hr]
    dsimp only
    have hsome := hroot (by rw [ha]; simp)
    obtain ⟨root, hroot'⟩ := Option.isSome_iff_exists.mp hsome
    rw [hroot']
    exact ⟨_, rfl⟩

theorem updateAnimation_clock {slerp : Quat K → Quat K → K → Quat K} {s s' : State K}
    {deltaTime : K} (h : updateAnimation slerp s deltaTime = some s') :
    (s.animations = [] ∧ s'.animationTime = s.animationTime)
    ∨ ∃ a rest, s.animations = a :: rest
        ∧ advanceClock s.animationTime deltaTime a = some s'.animationTime := by
  unfold updateAnimation at h
  split at h
  · next hnil =>
    simp only [Option.some.injEq] at h
    subst h
    exact Or.inl ⟨hnil, rfl⟩
  · next a rest ha =>
    split at h
    · exact absurd h (by simp)
    · next time htime =>
      split at h
      · exact absurd h (by simp)
      · next root _ =>
        simp only [Option.some.injEq] at h
        subst h
        refine Or.inr ⟨a, rest, ha, ?_⟩
        rw [calculateBoneTransformations_animationTime]
        exact htime

theorem updates_isSome (slerp : Quat K → Quat K → K → Quat K) (deltas : List K) :
    ∀ (s : State K), |s.animationTime| ≤ 2 ^ (126 : Int) →
      (∀ a rest, s.animations = a :: rest →
        (∃ d, toFloat a.duration = some d ∧ d ≠ 0 ∧ |d| ≤ 2 ^ (126 : Int))
        ∧ ∀ deltaTime ∈ deltas, |deltaTime * a.ticksPerSecond| ≤ 2 ^ (126 : Int)) →
      (s.animations ≠ [] → s.rootNode.isSome = true) →
      ∃ s', updates slerp s deltas = some s' := by
  induction deltas with
  | nil => intro s _ _ _; exact ⟨s, rfl⟩
  | cons delta rest ih =>
    intro s ht hclip hroot
    have hclock : ∀ a r, s.animations = a :: r →
        ∃ time, advanceClock s.animationTime delta a = some time
          ∧ |time| ≤ 2 ^ (126 : Int) := by
      intro a r ha
      obtain ⟨⟨d, hd, hd0, hdb⟩, hsteps⟩ := hclip a r ha
      exact advanceClock_isSome s.animationTime delta a hd hd0 hdb ht
        (hsteps delta (List.mem_cons_self _ _))
    obtain ⟨s1, h1⟩ := updateAnimation_isSome slerp s delta
      (fun a r ha => (hclock a r ha).imp (fun _ h => h.1)) hroot
    have hsame := (updateAnimation_same h1).1
    simp only [updates, h1]
    apply ih
    · rcases updateAnimation_clock h1 with ⟨_, heq⟩ | ⟨a, r, ha, hadv⟩
      · rw [heq]; exact ht
      · obtain ⟨time, htime, hb⟩ := hclock a r ha
        rw [htime] at hadv
        rw [← Option.some.inj hadv]
        exact hb
    · intro a r ha
      obtain ⟨hd, hsteps⟩ := hclip a r (hsame.animations ▸ ha)
      exact ⟨hd, fun deltaTime hmem => hsteps deltaTime (List.mem_cons_of_mem _ hmem)⟩
    · intro hne
      rw [hsame.rootNode]
      exact hroot (hsame.animations ▸ hne)

/-- In a reachable state all ids are in bounds and pairwise distinct, no id
error was written, and a model with a clip has its node tree. -/
theorem Reachable.wellFormed {slerp : Quat K → Quat K → K → Quat K} {s : State K}
    (h : Reachable slerp s) :
    InBounds s ∧ (s.bones.map Bone.id).Nodup ∧ NoIdError s
      ∧ (s.animations ≠ [] → ∃ root, s.rootNode = some root) := by
  obtain ⟨program, scene, deltas, hs⟩ := h
  obtain ⟨hin, herr, hroot, hids⟩ := construct_inBounds_aux program scene
  obtain ⟨hsame, herrs⟩ := updates_same deltas hs
  refine ⟨hin.of_same hsame, ?_, ?_, ?_⟩
  · rw [hsame.ids, hids]
    exact List.nodup_range _
  · intro i n hmem
    rw [herrs hin] at hmem
    exact herr i n hmem
  · intro hne
    rw [hsame.animations] at hne
    rw [hsame.rootNode]
    exact Option.isSome_iff_exists.mp (hroot hne)

/-- C2: in the model built by the constructor every registered bone's id is
below `boneTransforms.size()`; the same holds in every state the render
loop's `updateAnimation` calls reach, where `boneTransforms` keeps its size
and the line `bone.id ... out of bounds` has never been written; from a state
with all ids in bounds `calculateBoneTransformations` writes no error line on
any node tree; and the calls all return a state when the duration of the
first clip, if any, is as a `float` a nonzero number, and neither it nor the
advance `deltaTime * ticksPerSecond` of any frame exceeds `2 ^ 126`. -/
theorem construct_ids_in_bounds (slerp : Quat K → Quat K → K → Quat K) (program : Nat)
    (scene : Option (aiScene K)) :
    (∀ b ∈ (construct program scene).bones,
        b.id < (construct program scene).boneTransforms.length)
    ∧ NoIdError (construct program scene)
    ∧ (∀ (deltas : List K) (s : State K),
        updates slerp (construct program scene) deltas = some s →
          (∀ b ∈ s.bones, b.id < s.boneTransforms.length)
          ∧ s.boneTransforms.length = (construct program scene).boneTransforms.length
          ∧ NoIdError s)
    ∧ (∀ (s : State K), (∀ b ∈ s.bones, b.id < s.boneTransforms.length) →
        ∀ (node : aiNode K) (parent : Mat4 K),
          (calculateBoneTransformations slerp node parent s).errors = s.errors)
    ∧ (∀ deltas : List K,
        (∀ a rest, (construct program scene).animations = a :: rest →
          (∃ d, toFloat a.duration = some d ∧ d ≠ 0 ∧ |d| ≤ 2 ^ (126 : Int))
          ∧ ∀ deltaTime ∈ deltas, |deltaTime * a.ticksPerSecond| ≤ 2 ^ (126 : Int)) →
        ∃ s, updates slerp (construct program scene) deltas = some s) := by
  obtain ⟨hin, herr, hroot, _⟩ := construct_inBounds_aux program scene
  refine ⟨hin, herr, ?_, ?_, ?_⟩
  · intro deltas s h
    obtain ⟨hsame, herrs⟩ := updates_same deltas h
    refine ⟨hin.of_same hsame, hsame.size, ?_⟩
    intro i n hmem
    rw [herrs hin] at hmem
    exact herr i n hmem
  · intro s hs node parent
    exact calculateBoneTransformations_errors slerp node parent s hs
  · intro deltas hclip
    refine updates_isSome slerp deltas _ ?_ hclip hroot
    rw [construct_animationTime, abs_zero]
    exact le_of_lt (two_zpow_pos _)

/-- C2 applied to `sampleScene` and two frames: the render loop reaches a
state, and in it every id is in bounds and no error line was written. -/
theorem construct_ids_in_bounds_witness :
    ∃ s, updates sampleSlerp (construct 1 (some sampleScene)) [1 / 2, 1 / 4] = some s
      ∧ (∀ b ∈ s.bones, b.id < s.boneTransforms.length)
      ∧ s.boneTransforms.length = 2
      ∧ NoIdError s := by
  have h := construct_ids_in_bounds sampleSlerp 1 (some sampleScene)
  have hdur : ∀ a rest, (construct 1 (some sampleScene)).animations = a :: rest →
      (∃ d, toFloat a.duration = some d ∧ d ≠ 0 ∧ |d| ≤ 2 ^ (126 : Int))
      ∧ ∀ deltaTime ∈ [(1 / 2 : ℚ), 1 / 4], |deltaTime * a.ticksPerSecond| ≤ 2 ^ (126 : Int) := by
    intro a rest ha
    have hanim : (construct 1 (some sampleScene)).animations
        = [loadAnimation sampleAnimation] := rfl
    rw [hanim] at ha
    cases ha
    have hd : (loadAnimation sampleAnimation).duration = ((10 : Int) : ℚ) := by decide
    have ht : (loadAnimation sampleAnimation).ticksPerSecond = 10 := by decide
    have hbig : (1024 : ℚ) ≤ 2 ^ (126 : Int) := by
      have : (2 : ℚ) ^ (10 : Int) ≤ 2 ^ (126 : Int) := two_zpow_mono (by norm_num)
      exact le_trans (by norm_num) this
    constructor
    · refine ⟨10, ?_, by norm_num, le_trans (by norm_num) hbig⟩
      rw [hd, toFloat_intCast 10 (by norm_num)]
      norm_num
    · intro deltaTime hmem
      rw [ht]
      simp only [List.mem_cons, List.mem_singleton, List.not_mem_nil, or_false] at hmem
      rcases hmem with h | h <;> rw [h] <;> exact le_trans (by norm_num [abs_of_pos]) hbig
  obtain ⟨s, hs⟩ := h.2.2.2.2 [1 / 2, 1 / 4] hdur
  obtain ⟨h1, h2, h3⟩ := h.2.2.1 _ s hs
  exact ⟨s, hs, h1, h2, h3⟩

/-! ## Propagation over a two-level skeleton -/

theorem findBone_cons (b : Bone K) (rest : List (Bone K)) (name : String) :
    findBone (b :: rest) name = if b.name = name then some b else findBone rest name := by
  unfold findBone
  by_cases h : b.name = name
  · rw [if_pos h, List.find?_cons_of_pos _ (by simpa using h)]
  · rw [if_neg h, List.find?_cons_of_neg _ (by simpa using h)]

theorem findBone_name {bones : List (Bone K)} {name : String} {b : Bone K}
    (h : findBone bones name = some b) : b.name = name := by
  unfold findBone at h
  simpa using List.find?_some h

theorem findBone_setFinalTransformation (bones : List (Bone K)) (name name' : String) (m : Mat4 K) :
    findBone (setFinalTransformation bones name m) name'
      = (findBone bones name').map
          (fun b => if b.name = name then { b with finalTransformation := m } else b) := by
  induction bones with
  | nil => rfl
  | cons b rest ih =>
    simp only [setFinalTransformation]
    by_cases h1 : b.name = name
    · rw [if_pos h1, findBone_cons, findBone_cons]
      by_cases h2 : b.name = name'
      · rw [if_pos h2, if_pos (show ({ b with finalTransformation := m } : Bone K).name = name' from h2)]
        simp only [Option.map_some', if_pos h1]
      · rw [if_neg h2, if_neg (show ¬ ({ b with finalTransformation := m } : Bone K).name = name' from h2)]
        cases hf : findBone rest name' with
        | none => rfl
        | some b' =>
          have hb' := findBone_name hf
          have hne : ¬ b'.name = name := fun hc => h2 (by rw [h1, ← hc, hb'])
          simp only [Option.map_some', if_neg hne]
    · rw [if_neg h1, findBone_cons, findBone_cons]
      by_cases h2 : b.name = name'
      · simp only [if_pos h2, Option.map_some', if_neg h1]
      · simp only [if_neg h2]
        exact ih

theorem findBone_writeBone (s : State K) (name : String) (g : Mat4 K) {name' : String} {b : Bone K}
    (h : findBone s.bones name' = some b) :
    ∃ b', findBone (writeBone s name g).bones name' = some b' ∧ b'.id = b.id ∧
      b'.offsetMatrix = b.offsetMatrix := by
  unfold writeBone
  split
  · exact ⟨b, h, rfl, rfl⟩
  · next bone _ =>
    dsimp only
    have key : ∃ b', findBone (setFinalTransformation s.bones name
        (g * bone.offsetMatrix)) name' = some b' ∧ b'.id = b.id ∧
        b'.offsetMatrix = b.offsetMatrix := by
      rw [findBone_setFinalTransformation, h, Option.map_some']
      refine ⟨_, rfl, ?_, ?_⟩ <;> split <;> rfl
    split <;> exact key

theorem updateAnimation_clip (slerp : Quat K → Quat K → K → Quat K) (s : State K) {deltaTime time : K}
    {anim : Animation K} {rest : List (Animation K)} {root : aiNode K}
    (hanim : s.animations = anim :: rest)
    (htime : advanceClock s.animationTime deltaTime anim = some time)
    (hroot : s.rootNode = some root) :
    updateAnimation slerp s deltaTime
      = some (calculateBoneTransformations slerp root 1 { s with animationTime := time }) := by
  unfold updateAnimation
  split
  · next hnil => rw [hanim] at hnil; cases hnil
  · next a r ha =>
    rw [hanim] at ha
    cases ha
    rw [htime]
    dsimp only
    split
    · next hnone => rw [hroot] at hnone; cases hnone
    · next root' hroot' =>
      rw [hroot] at hroot'
      cases hroot'
      rfl

/-- The propagation from the root of a two-level tree, a root bone with one
childless child bone, in any state with a clip in which the two ids are
distinct indices of `boneTransforms`: the clock is kept and the two matrices
are the products of the local transforms at that clock with the offsets. -/
theorem calculate_two_level (slerp : Quat K → Quat K → K → Quat K) (s1 : State K)
    (anim : Animation K) (rest : List (Animation K))
    (rootName childName : String) (rootTransformation childTransformation : aiMatrix4x4 K)
    (rootMeshes childMeshes : List Nat) (Root Child : Bone K)
    (hA1 : s1.animations = anim :: rest)
    (hR1 : findBone s1.bones rootName = some Root)
    (hC1 : findBone s1.bones childName = some Child)
    (hRb : Root.id < s1.boneTransforms.length) (hCb : Child.id < s1.boneTransforms.length)
    (hne : Root.id ≠ Child.id) :
    (calculateBoneTransformations slerp (.mk rootName rootTransformation rootMeshes
        [.mk childName childTransformation childMeshes []]) 1 s1).animationTime
      = s1.animationTime
    ∧ (calculateBoneTransformations slerp (.mk rootName rootTransformation rootMeshes
        [.mk childName childTransformation childMeshes []]) 1 s1).boneTransforms[Root.id]?
      = some (getInterpolatedBoneTransform slerp anim rootName s1.animationTime
                * Root.offsetMatrix)
    ∧ (calculateBoneTransformations slerp (.mk rootName rootTransformation rootMeshes
        [.mk childName childTransformation childMeshes []]) 1 s1).boneTransforms[Child.id]?
      = some (getInterpolatedBoneTransform slerp anim rootName s1.animationTime
                * getInterpolatedBoneTransform slerp anim childName s1.animationTime
                * Child.offsetMatrix) := by
  -- the root node
  have hlocalR : nodeTransformation slerp s1 rootName rootTransformation
      = getInterpolatedBoneTransform slerp anim rootName s1.animationTime := by
    unfold nodeTransformation
    rw [hR1, hA1]
    rfl
  obtain ⟨s2, hs2⟩ : ∃ s2 : State K, s2 = writeBone s1 rootName
      (1 * nodeTransformation slerp s1 rootName rootTransformation) := ⟨_, rfl⟩
  have hsame2 : SameRegistry s1 s2 := hs2 ▸ writeBone_same _ _ _
  have hT2 : s2.animationTime = s1.animationTime := by rw [hs2, writeBone_animationTime]
  obtain ⟨Child2, hC2, hC2id, hC2off⟩ := findBone_writeBone s1 rootName
    (1 * nodeTransformation slerp s1 rootName rootTransformation) hC1
  rw [← hs2] at hC2
  have hB2 : s2.boneTransforms = s1.boneTransforms.set Root.id
      (getInterpolatedBoneTransform slerp anim rootName s1.animationTime
        * Root.offsetMatrix) := by
    rw [hs2]
    unfold writeBone
    rw [hR1]
    dsimp only
    rw [if_pos hRb, hlocalR, one_mul]
  -- the child node
  have hlocalC : nodeTransformation slerp s2 childName childTransformation
      = getInterpolatedBoneTransform slerp anim childName s1.animationTime := by
    unfold nodeTransformation
    rw [hC2, hsame2.animations, hA1, hT2]
    rfl
  obtain ⟨s3, hs3⟩ : ∃ s3 : State K, s3 = writeBone s2 childName
      (1 * nodeTransformation slerp s1 rootName rootTransformation
        * nodeTransformation slerp s2 childName childTransformation) := ⟨_, rfl⟩
  have hT3 : s3.animationTime = s1.animationTime := by
    rw [hs3, writeBone_animationTime, hT2]
  have hB3 : s3.boneTransforms = s2.boneTransforms.set Child.id
      (getInterpolatedBoneTransform slerp anim rootName s1.animationTime
        * getInterpolatedBoneTransform slerp anim childName s1.animationTime
        * Child.offsetMatrix) := by
    rw [hs3]
    unfold writeBone
    rw [hC2]
    dsimp only
    rw [if_pos (by rw [hC2id, hsame2.size]; exact hCb), hlocalR, hlocalC, one_mul,
      hC2id, hC2off]
  have hfinal : calculateBoneTransformations slerp (.mk rootName rootTransformation rootMeshes
      [.mk childName childTransformation childMeshes []]) 1 s1 = s3 := by
    rw [calculateBoneTransformations, calculateChildren, calculateBoneTransformations,
      calculateChildren, calculateChildren, ← hs2, ← hs3]
  rw [hfinal]
  refine ⟨hT3, ?_, ?_⟩
  · rw [hB3, List.getElem?_set_ne (Ne.symm hne), hB2, List.getElem?_set_self hRb]
  · rw [hB3, List.getElem?_set_self (by rw [hB2, List.length_set]; exact hCb)]

/-- The propagation over a root bone with one childless child bone, from any
state in which the two ids are distinct indices of `boneTransforms`. -/
theorem propagate_two_level (slerp : Quat K → Quat K → K → Quat K) (s : State K)
    (deltaTime time : K) (anim : Animation K) (rest : List (Animation K))
    (rootName childName : String) (rootTransformation childTransformation : aiMatrix4x4 K)
    (rootMeshes childMeshes : List Nat) (Root Child : Bone K)
    (hanim : s.animations = anim :: rest)
    (hclock : advanceClock s.animationTime deltaTime anim = some time)
    (hroot : s.rootNode = some (.mk rootName rootTransformation rootMeshes
      [.mk childName childTransformation childMeshes []]))
    (hR : findBone s.bones rootName = some Root)
    (hC : findBone s.bones childName = some Child)
    (hRb : Root.id < s.boneTransforms.length) (hCb : Child.id < s.boneTransforms.length)
    (hne : Root.id ≠ Child.id) :
    ∃ s', updateAnimation slerp s deltaTime = some s'
      ∧ s'.animationTime = time
      ∧ s'.boneTransforms[Root.id]?
          = some (getInterpolatedBoneTransform slerp anim rootName s'.animationTime
                    * Root.offsetMatrix)
      ∧ s'.boneTransforms[Child.id]?
          = some (getInterpolatedBoneTransform slerp anim rootName s'.animationTime
                    * getInterpolatedBoneTransform slerp anim childName s'.animationTime
                    * Child.offsetMatrix) := by
  obtain ⟨hT, hRoot, hChild⟩ := calculate_two_level slerp { s with animationTime := time }
    anim rest rootName childName rootTransformation childTransformation rootMeshes
    childMeshes Root Child hanim hR hC hRb hCb hne
  refine ⟨_, updateAnimation_clip slerp s hanim hclock hroot, ?_⟩
  rw [hT]
  exact ⟨rfl, hRoot, hChild⟩

/-- C3: in every reachable state of a model whose node tree is a root node
that is the registered bone `Root` with a single childless child node that is
another registered bone `Child`, for a frame whose new clock is the number
`time`, `updateAnimation` returns a state with that clock, where
`boneTransforms[Root.id]` is `localRoot * Root.offsetMatrix` and
`boneTransforms[Child.id]` is `localRoot * localChild * Child.offsetMatrix`,
each local transform being `getInterpolatedBoneTransform` of the node at the
new clock: the root's parent transform is the identity and the offset matrix
is the rightmost factor. -/
theorem updateAnimation_two_level (slerp : Quat K → Quat K → K → Quat K) (s : State K)
    (deltaTime time : K) (anim : Animation K) (rest : List (Animation K))
    (rootName childName : String) (rootTransformation childTransformation : aiMatrix4x4 K)
    (rootMeshes childMeshes : List Nat) (Root Child : Bone K)
    (hreach : Reachable slerp s)
    (hanim : s.animations = anim :: rest)
    (hclock : advanceClock s.animationTime deltaTime anim = some time)
    (hroot : s.rootNode = some (.mk rootName rootTransformation rootMeshes
      [.mk childName childTransformation childMeshes []]))
    (hR : findBone s.bones rootName = some Root)
    (hC : findBone s.bones childName = some Child)
    (hnames : rootName ≠ childName) :
    ∃ s', updateAnimation slerp s deltaTime = some s'
      ∧ s'.animationTime = time
      ∧ s'.boneTransforms[Root.id]?
          = some (getInterpolatedBoneTransform slerp anim rootName s'.animationTime
                    * Root.offsetMatrix)
      ∧ s'.boneTransforms[Child.id]?
          = some (getInterpolatedBoneTransform slerp anim rootName s'.animationTime
                    * getInterpolatedBoneTransform slerp anim childName s'.animationTime
                    * Child.offsetMatrix) := by
  obtain ⟨hin, hnodup, _, _⟩ := hreach.wellFormed
  obtain ⟨hRmem, hRname⟩ := findBone_mem hR
  obtain ⟨hCmem, hCname⟩ := findBone_mem hC
  have hne : Root.id ≠ Child.id := by
    intro hid
    have : Root = Child := List.inj_on_of_nodup_map hnodup hRmem hCmem hid
    exact hnames (by rw [← hRname, ← hCname, this])
  exact propagate_two_level slerp s deltaTime time anim rest rootName childName
    rootTransformation childTransformation rootMeshes childMeshes Root Child hanim hclock hroot
    hR hC (hin Root hRmem) (hin Child hCmem) hne

/-- C3 applied to `sampleModel`, as built by the constructor, and a frame of
half a second. -/
theorem updateAnimation_two_level_witness :
    ∃ s', updateAnimation sampleSlerp sampleModel (1 / 2) = some s'
      ∧ s'.animationTime = 5
      ∧ s'.boneTransforms[0]?
          = some (getInterpolatedBoneTransform sampleSlerp (loadAnimation sampleAnimation) "Root"
                    s'.animationTime * convertMatrix identityMatrix)
      ∧ s'.boneTransforms[1]?
          = some (getInterpolatedBoneTransform sampleSlerp (loadAnimation sampleAnimation) "Root"
                    s'.animationTime
                    * getInterpolatedBoneTransform sampleSlerp (loadAnimation sampleAnimation) "Hand"
                        s'.animationTime
                    * convertMatrix identityMatrix) :=
  updateAnimation_two_level sampleSlerp sampleModel (1 / 2) 5 (loadAnimation sampleAnimation) []
    "Root" "Hand" identityMatrix identityMatrix [0] []
    ⟨"Root", 0, convertMatrix identityMatrix, 1⟩ ⟨"Hand", 1, convertMatrix identityMatrix, 1⟩
    ⟨1, some sampleScene, [], rfl⟩ rfl
    (advanceClock_half_of_ten (loadAnimation sampleAnimation) (by decide) (by decide))
    rfl rfl rfl (by decide)

/-! ## Keyframe interpolation -/

theorem translationMatrix_single (key : aiVectorKey K) (animTime : K) :
    translationMatrix (some [key]) animTime = translate 1 (vec3 key.mValue) := rfl

theorem rotationMatrix_single (slerp : Quat K → Quat K → K → Quat K) (key : aiQuatKey K)
    (animTime : K) :
    rotationMatrix slerp (some [key]) animTime = mat4_cast (quat key.mValue) := rfl

theorem scaleMatrix_single (key : aiVectorKey K) (animTime : K) :
    scaleMatrix (some [key]) animTime = scale 1 (vec3 key.mValue) := rfl

theorem transformPoint_one (v : Vec3 K) : transformPoint 1 v = v := by
  simp [transformPoint]

/-- C4: in each of the three channels of `getInterpolatedBoneTransform` a
track with exactly one keyframe yields, at every query time, the matrix built
from that keyframe's value: the translation by the position key, the rotation
matrix of the rotation key, the scaling by the scale key. -/
theorem single_key_ignores_time (slerp : Quat K → Quat K → K → Quat K) (positionKey : aiVectorKey K)
    (rotationKey : aiQuatKey K) (scaleKey : aiVectorKey K) (animTime : K) :
    translationMatrix (some [positionKey]) animTime = translate 1 (vec3 positionKey.mValue)
    ∧ rotationMatrix slerp (some [rotationKey]) animTime = mat4_cast (quat rotationKey.mValue)
    ∧ scaleMatrix (some [scaleKey]) animTime = scale 1 (vec3 scaleKey.mValue) :=
  ⟨translationMatrix_single positionKey animTime,
   rotationMatrix_single slerp rotationKey animTime,
   scaleMatrix_single scaleKey animTime⟩

theorem two_key_frame {α : Type} [Inhabited α] (k0 k1 : Key K α) (h : k0.mTime < k1.mTime) :
    findFrame [k0, k1] ((k0.mTime + k1.mTime) / 2) = 0
    ∧ snaps [k0, k1] 0 = false
    ∧ factor [k0, k1] 0 ((k0.mTime + k1.mTime) / 2) = some (1 / 2) := by
  refine ⟨?_, ?_, ?_⟩
  · simp only [findFrame, List.tail_cons, findFrameLoop]
    split <;> rfl
  · simp only [snaps, nextFrame, keyAt, List.length_cons, List.length_nil, List.getD_cons_succ,
      List.getD_cons_zero, Bool.or_eq_false_iff, decide_eq_false_iff_not]
    exact ⟨ne_of_gt h, by decide⟩
  · have hne : k1.mTime - k0.mTime ≠ 0 := sub_ne_zero.mpr (ne_of_gt h)
    have hq : ((k0.mTime + k1.mTime) / 2 - k0.mTime) / (k1.mTime - k0.mTime) = 1 / 2 := by
      field_simp
      ring
    simp only [factor, segmentLength, nextFrame, keyAt, List.length_cons, List.length_nil,
      List.getD_cons_succ, List.getD_cons_zero]
    rw [if_neg hne, hq]
    exact toFloat_half

theorem findFrameLoop_not_found {α : Type} (animTime : K) (rest : List (Key K α)) (i : Nat)
    (h : ∀ k ∈ rest, k.mTime ≤ animTime) : findFrameLoop animTime rest i = 0 := by
  induction rest generalizing i with
  | nil => rfl
  | cons k rest ih =>
    rw [findFrameLoop, if_neg (not_lt.mpr (h k (List.mem_cons_self _ _)))]
    exact ih _ (fun k' hk' => h k' (List.mem_cons_of_mem _ hk'))

theorem keyAt_mem {α : Type} [Inhabited α] (keys : List (Key K α)) (i : Nat)
    (h : i < keys.length) : keyAt keys i ∈ keys := by
  unfold keyAt
  rw [List.getD_eq_getElem _ _ h]
  exact List.getElem_mem h

theorem keyAt_cons_succ {α : Type} [Inhabited α] (k : Key K α) (rest : List (Key K α)) (i : Nat) :
    keyAt (k :: rest) (i + 1) = keyAt rest i := by
  simp [keyAt]

theorem NonDecreasing.le_last {α : Type} [Inhabited α] {keys : List (Key K α)}
    (h : NonDecreasing keys) : ∀ k ∈ keys, k.mTime ≤ (keyAt keys (keys.length - 1)).mTime := by
  induction keys with
  | nil => intro k hk; simp at hk
  | cons a rest ih =>
    intro k hk
    unfold NonDecreasing at h
    rw [List.pairwise_cons] at h
    cases rest with
    | nil =>
      simp only [List.mem_singleton] at hk
      subst hk
      simp [keyAt]
    | cons b rest' =>
      have hlast : keyAt (a :: b :: rest') ((a :: b :: rest').length - 1)
          = keyAt (b :: rest') ((b :: rest').length - 1) := by
        simp [keyAt]
      rw [hlast]
      rcases List.mem_cons.mp hk with hk | hk
      · subst hk
        exact h.1 _ (keyAt_mem _ _ (by simp))
      · exact ih h.2 k hk

/-- C6, amended: for a track of at least two keyframes with non-decreasing
times and a query time at or past the last keyframe's time, the scan finds no
index and `frame` keeps its initial value `0`, so the segment from `key[0]` to
`key[1]` is selected; it is the final segment exactly when the track has two
keyframes. -/
theorem past_last_key_selects_first_segment {α : Type} [Inhabited α] (keys : List (Key K α))
    (animTime : K) (hn : 2 ≤ keys.length) (hsorted : NonDecreasing keys)
    (hlast : (keyAt keys (keys.length - 1)).mTime ≤ animTime) :
    findFrame keys animTime = 0
    ∧ nextFrame keys (findFrame keys animTime) = 1
    ∧ (findFrame keys animTime = keys.length - 2 ↔ keys.length = 2) := by
  have h0 : findFrame keys animTime = 0 := by
    unfold findFrame
    apply findFrameLoop_not_found
    intro k hk
    exact le_trans (hsorted.le_last k (List.mem_of_mem_tail hk)) hlast
  refine ⟨h0, ?_, ?_⟩
  · rw [h0]
    unfold nextFrame
    exact Nat.mod_eq_of_lt hn
  · rw [h0]
    omega


/-- The amended C6 applied to `threeKeys` at the time of its last keyframe. -/
theorem past_last_key_selects_first_segment_witness :
    findFrame threeKeys 2 = 0
    ∧ nextFrame threeKeys (findFrame threeKeys 2) = 1
    ∧ (findFrame threeKeys 2 = threeKeys.length - 2 ↔ threeKeys.length = 2) :=
  past_last_key_selects_first_segment threeKeys 2 (by decide) (by decide) (by decide)

/-- C6, counterexample: for the non-decreasing track `threeKeys` queried at
the time `2` of its last keyframe, the selected frame is not `n - 2`. -/
theorem final_segment_not_selected :
    2 ≤ threeKeys.length ∧ NonDecreasing threeKeys
    ∧ (keyAt threeKeys (threeKeys.length - 1)).mTime ≤ 2
    ∧ findFrame threeKeys 2 ≠ threeKeys.length - 2 := by
  refine ⟨by decide, by decide, by decide, by decide⟩

theorem findFrameLoop_found {α : Type} [Inhabited α] (animTime : K) (rest : List (Key K α))
    (i : Nat) (h : ∃ k ∈ rest, animTime < k.mTime) :
    ∃ j, j < rest.length ∧ findFrameLoop animTime rest i = i + j
      ∧ animTime < (keyAt rest j).mTime
      ∧ ∀ j', j' < j → (keyAt rest j').mTime ≤ animTime := by
  induction rest generalizing i with
  | nil =>
    obtain ⟨k, hk, _⟩ := h
    simp at hk
  | cons k rest ih =>
    by_cases hlt : animTime < k.mTime
    · refine ⟨0, by simp, ?_, ?_, ?_⟩
      · rw [findFrameLoop, if_pos hlt]; rfl
      · simpa [keyAt] using hlt
      · intro j' hj'; omega
    · have h' : ∃ k' ∈ rest, animTime < k'.mTime := by
        obtain ⟨k', hk', hlt'⟩ := h
        rcases List.mem_cons.mp hk' with hk' | hk'
        · subst hk'; exact absurd hlt' hlt
        · exact ⟨k', hk', hlt'⟩
      obtain ⟨j, hj, hres, hfound, hmin⟩ := ih (i + 1) h'
      refine ⟨j + 1, by simp [hj], ?_, ?_, ?_⟩
      · rw [findFrameLoop, if_neg hlt, hres]; omega
      · rw [keyAt_cons_succ]; exact hfound
      · intro j' hj'
        cases j' with
        | zero => simpa [keyAt] using not_lt.mp hlt
        | succ m =>
          rw [keyAt_cons_succ]
          exact hmin m (by omega)

theorem findFrame_bracket {α : Type} [Inhabited α] (keys : List (Key K α)) (animTime : K)
    (hn : 2 ≤ keys.length) (h0 : (keyAt keys 0).mTime ≤ animTime)
    (hlast : animTime < (keyAt keys (keys.length - 1)).mTime) :
    findFrame keys animTime + 1 < keys.length
    ∧ (keyAt keys (findFrame keys animTime)).mTime ≤ animTime
    ∧ animTime < (keyAt keys (findFrame keys animTime + 1)).mTime := by
  cases keys with
  | nil => simp at hn
  | cons k0 rest =>
    have hlen : 1 ≤ rest.length := by
      simp only [List.length_cons] at hn; omega
    have hlastmem : keyAt (k0 :: rest) ((k0 :: rest).length - 1) ∈ rest := by
      have : (k0 :: rest).length - 1 = (rest.length - 1) + 1 := by
        simp only [List.length_cons]; omega
      rw [this, keyAt_cons_succ]
      exact keyAt_mem _ _ (by omega)
    obtain ⟨j, hj, hres, hfound, hmin⟩ :=
      findFrameLoop_found animTime rest 0 ⟨_, hlastmem, hlast⟩
    have hf : findFrame (k0 :: rest) animTime = j := by
      unfold findFrame
      rw [List.tail_cons, hres, Nat.zero_add]
    rw [hf]
    refine ⟨by simp only [List.length_cons]; omega, ?_, ?_⟩
    · cases j with
      | zero => exact h0
      | succ m =>
        rw [keyAt_cons_succ]
        exact hmin m (by omega)
    · rw [keyAt_cons_succ]
      exact hfound

theorem nextFrame_eq_succ {α : Type} (keys : List (Key K α)) (frame : Nat)
    (h : frame + 1 < keys.length) : nextFrame keys frame = frame + 1 :=
  Nat.mod_eq_of_lt h

theorem snaps_eq_false_iff {α : Type} [Inhabited α] (keys : List (Key K α)) (frame : Nat)
    (hn : 2 ≤ keys.length) : snaps keys frame = false ↔ segmentLength keys frame ≠ 0 := by
  unfold snaps segmentLength
  rw [Bool.or_eq_false_iff, decide_eq_false_iff_not, decide_eq_false_iff_not, sub_ne_zero]
  constructor
  · exact fun h => h.1
  · exact fun h => ⟨h, by omega⟩

theorem factor_of_ne_zero {α : Type} [Inhabited α] (keys : List (Key K α)) (frame : Nat)
    (animTime : K) (h : segmentLength keys frame ≠ 0) :
    factor keys frame animTime
      = toFloat ((animTime - (keyAt keys frame).mTime) / segmentLength keys frame) := by
  unfold factor
  rw [if_neg h]

theorem factor_of_zero {α : Type} [Inhabited α] (keys : List (Key K α)) (frame : Nat)
    (animTime : K) (h : segmentLength keys frame = 0) : factor keys frame animTime = none := by
  unfold factor
  rw [if_pos h]

/-- Inside the span of a track of at least two keyframes the selected segment
has a positive length, the quotient lies in `[0, 1)` and the factor is a
number in `[0, 1]`, the `float` nearest to the quotient. -/
theorem factor_bracket {α : Type} [Inhabited α] (keys : List (Key K α)) (animTime : K)
    (hn : 2 ≤ keys.length) (h0 : (keyAt keys 0).mTime ≤ animTime)
    (hlast : animTime < (keyAt keys (keys.length - 1)).mTime) :
    0 < segmentLength keys (findFrame keys animTime)
    ∧ ∃ t, factor keys (findFrame keys animTime) animTime = some t
      ∧ t = roundFloat ((animTime - (keyAt keys (findFrame keys animTime)).mTime)
            / segmentLength keys (findFrame keys animTime))
      ∧ 0 ≤ t ∧ t ≤ 1 := by
  obtain ⟨hlt, hlo, hhi⟩ := findFrame_bracket keys animTime hn h0 hlast
  have hpos : 0 < segmentLength keys (findFrame keys animTime) := by
    unfold segmentLength
    rw [nextFrame_eq_succ keys _ hlt]
    linarith
  have hq0 : 0 ≤ (animTime - (keyAt keys (findFrame keys animTime)).mTime)
      / segmentLength keys (findFrame keys animTime) :=
    div_nonneg (by linarith) (le_of_lt hpos)
  have hq1 : (animTime - (keyAt keys (findFrame keys animTime)).mTime)
      / segmentLength keys (findFrame keys animTime) ≤ 1 := by
    rw [div_le_one hpos]
    unfold segmentLength
    rw [nextFrame_eq_succ keys _ hlt]
    linarith
  refine ⟨hpos, ?_⟩
  rw [factor_of_ne_zero keys _ animTime (ne_of_gt hpos)]
  exact toFloat_unit _ hq0 hq1

/-- C7, amended: for a track of at least two keyframes (non-decreasing or
not) and a query time inside its span, `key[0].time <= animTime <
key[n-1].time`, the factor `t` computed for the selected segment is a number
that satisfies `0 <= t <= 1`. -/
theorem factor_in_unit_interval {α : Type} [Inhabited α] (keys : List (Key K α)) (animTime : K)
    (hn : 2 ≤ keys.length) (h0 : (keyAt keys 0).mTime ≤ animTime)
    (hlast : animTime < (keyAt keys (keys.length - 1)).mTime) :
    ∃ t, factor keys (findFrame keys animTime) animTime = some t ∧ 0 ≤ t ∧ t ≤ 1 := by
  obtain ⟨_, t, ht, _, h1, h2⟩ := factor_bracket keys animTime hn h0 hlast
  exact ⟨t, ht, h1, h2⟩

/-- The amended C7 applied to `threeKeys` at the time `1`. -/
theorem factor_in_unit_interval_witness :
    ∃ t, factor threeKeys (findFrame threeKeys 1) 1 = some t ∧ 0 ≤ t ∧ t ≤ 1 :=
  factor_in_unit_interval threeKeys 1 (by decide) (by decide) (by decide)

/-- C7, counterexample: on the non-decreasing track `threeKeys` the
interpolating branch is taken with `t = 2` at the time `2` of the last
keyframe; on the non-decreasing track `lateKeys`, whose first keyframe is at
time `1`, it is taken with `t = -1` at the time `0`. -/
theorem factor_outside_unit_interval :
    2 ≤ threeKeys.length ∧ NonDecreasing threeKeys
    ∧ snaps threeKeys (findFrame threeKeys 2) = false
    ∧ factor threeKeys (findFrame threeKeys 2) 2 = some 2
    ∧ ¬ ((2 : ℚ) ≤ 1)
    ∧ 2 ≤ lateKeys.length ∧ NonDecreasing lateKeys
    ∧ snaps lateKeys (findFrame lateKeys 0) = false
    ∧ factor lateKeys (findFrame lateKeys 0) 0 = some (-1)
    ∧ ¬ ((0 : ℚ) ≤ -1) := by
  have hf : findFrame threeKeys 2 = 0 := by decide
  have h2 : toFloat (2 : ℚ) = some 2 := by
    have := toFloat_intCast (K := ℚ) 2 (by norm_num)
    simpa using this
  have hm1 : toFloat (-1 : ℚ) = some (-1) := by
    have := toFloat_intCast (K := ℚ) (-1) (by norm_num)
    simpa using this
  have ht : factor threeKeys (findFrame threeKeys 2) 2 = some 2 := by
    rw [hf]
    have hseg : segmentLength threeKeys 0 = 1 := by
      simp [segmentLength, nextFrame, keyAt, threeKeys]
    rw [factor_of_ne_zero _ _ _ (by rw [hseg]; norm_num), hseg]
    have hq : ((2 : ℚ) - (keyAt threeKeys 0).mTime) / 1 = 2 := by
      simp [keyAt, threeKeys]
    rw [hq, h2]
  have hf' : findFrame lateKeys 0 = 0 := by decide
  have ht' : factor lateKeys (findFrame lateKeys 0) 0 = some (-1) := by
    rw [hf']
    have hseg : segmentLength lateKeys 0 = 1 := by
      simp [segmentLength, nextFrame, keyAt, lateKeys]
      norm_num
    rw [factor_of_ne_zero _ _ _ (by rw [hseg]; norm_num), hseg]
    have hq : ((0 : ℚ) - (keyAt lateKeys 0).mTime) / 1 = -1 := by
      simp [keyAt, lateKeys]
    rw [hq, hm1]
  exact ⟨by decide, by decide, by decide, ht, by norm_num, by decide, by decide, by decide, ht',
    by norm_num⟩

/-- C8: for tracks of at least two keyframes and every query time, each
channel of `getInterpolatedBoneTransform` takes the guarded branch exactly
when the divisor `key[nextFrame].time - key[frame].time` of the selected
segment is zero.  On a zero-length segment the division has no value
(`factor` is `none`) and the matrix is built from `key[frame]`'s value
without interpolation; on every other segment the factor is the quotient by
that nonzero divisor, narrowed to `float`, and it is the factor the channel
interpolates with. -/
theorem zero_length_segment_snaps (slerp : Quat K → Quat K → K → Quat K) (animTime : K)
    (positionKeys : List (aiVectorKey K)) (rotationKeys : List (aiQuatKey K))
    (scaleKeys : List (aiVectorKey K)) (hp : 2 ≤ positionKeys.length)
    (hr : 2 ≤ rotationKeys.length) (hs : 2 ≤ scaleKeys.length) :
    ((snaps positionKeys (findFrame positionKeys animTime) = true
        ↔ segmentLength positionKeys (findFrame positionKeys animTime) = 0)
      ∧ (segmentLength positionKeys (findFrame positionKeys animTime) = 0 →
          factor positionKeys (findFrame positionKeys animTime) animTime = none
          ∧ translationMatrix (some positionKeys) animTime
            = translate 1 (vec3 (keyAt positionKeys (findFrame positionKeys animTime)).mValue))
      ∧ (segmentLength positionKeys (findFrame positionKeys animTime) ≠ 0 →
          factor positionKeys (findFrame positionKeys animTime) animTime
            = toFloat ((animTime - (keyAt positionKeys (findFrame positionKeys animTime)).mTime)
                / segmentLength positionKeys (findFrame positionKeys animTime))
          ∧ ∀ t, factor positionKeys (findFrame positionKeys animTime) animTime = some t →
              translationMatrix (some positionKeys) animTime
                = translate 1
                    (mix (vec3 (keyAt positionKeys (findFrame positionKeys animTime)).mValue)
                      (vec3 (keyAt positionKeys
                        (nextFrame positionKeys (findFrame positionKeys animTime))).mValue) t)))
    ∧ ((snaps rotationKeys (findFrame rotationKeys animTime) = true
        ↔ segmentLength rotationKeys (findFrame rotationKeys animTime) = 0)
      ∧ (segmentLength rotationKeys (findFrame rotationKeys animTime) = 0 →
          factor rotationKeys (findFrame rotationKeys animTime) animTime = none
          ∧ rotationMatrix slerp (some rotationKeys) animTime
            = mat4_cast (quat (keyAt rotationKeys (findFrame rotationKeys animTime)).mValue))
      ∧ (segmentLength rotationKeys (findFrame rotationKeys animTime) ≠ 0 →
          factor rotationKeys (findFrame rotationKeys animTime) animTime
            = toFloat ((animTime - (keyAt rotationKeys (findFrame rotationKeys animTime)).mTime)
                / segmentLength rotationKeys (findFrame rotationKeys animTime))
          ∧ ∀ t, factor rotationKeys (findFrame rotationKeys animTime) animTime = some t →
              rotationMatrix slerp (some rotationKeys) animTime
                = mat4_cast
                    (slerp (quat (keyAt rotationKeys (findFrame rotationKeys animTime)).mValue)
                      (quat (keyAt rotationKeys
                        (nextFrame rotationKeys (findFrame rotationKeys animTime))).mValue) t)))
    ∧ ((snaps scaleKeys (findFrame scaleKeys animTime) = true
        ↔ segmentLength scaleKeys (findFrame scaleKeys animTime) = 0)
      ∧ (segmentLength scaleKeys (findFrame scaleKeys animTime) = 0 →
          factor scaleKeys (findFrame scaleKeys animTime) animTime = none
          ∧ scaleMatrix (some scaleKeys) animTime
            = scale 1 (vec3 (keyAt scaleKeys (findFrame scaleKeys animTime)).mValue))
      ∧ (segmentLength scaleKeys (findFrame scaleKeys animTime) ≠ 0 →
          factor scaleKeys (findFrame scaleKeys animTime) animTime
            = toFloat ((animTime - (keyAt scaleKeys (findFrame scaleKeys animTime)).mTime)
                / segmentLength scaleKeys (findFrame scaleKeys animTime))
          ∧ ∀ t, factor scaleKeys (findFrame scaleKeys animTime) animTime = some t →
              scaleMatrix (some scaleKeys) animTime
                = scale 1
                    (mix (vec3 (keyAt scaleKeys (findFrame scaleKeys animTime)).mValue)
                      (vec3 (keyAt scaleKeys
                        (nextFrame scaleKeys (findFrame scaleKeys animTime))).mValue) t))) := by
  have hpe : positionKeys.isEmpty = false := by
    cases positionKeys with
    | nil => simp at hp
    | cons _ _ => rfl
  have hre : rotationKeys.isEmpty = false := by
    cases rotationKeys with
    | nil => simp at hr
    | cons _ _ => rfl
  have hse : scaleKeys.isEmpty = false := by
    cases scaleKeys with
    | nil => simp at hs
    | cons _ _ => rfl
  refine ⟨?_, ?_, ?_⟩
  · have hiff : snaps positionKeys (findFrame positionKeys animTime) = true
        ↔ segmentLength positionKeys (findFrame positionKeys animTime) = 0 := by
      constructor
      · intro hsn
        by_contra hz
        rw [(snaps_eq_false_iff _ _ hp).mpr hz] at hsn
        exact Bool.false_ne_true hsn
      · intro hz
        by_contra hc
        exact (snaps_eq_false_iff _ _ hp).mp (Bool.eq_false_iff.mpr hc) hz
    refine ⟨hiff, ?_, ?_⟩
    · intro hz
      refine ⟨factor_of_zero _ _ _ hz, ?_⟩
      unfold translationMatrix
      simp only [hpe, Bool.false_eq_true, if_false]
      rw [if_neg (by omega)]
      simp only [hiff.mpr hz, if_true]
    · intro hz
      refine ⟨factor_of_ne_zero _ _ _ hz, ?_⟩
      intro t ht
      have hsnap := (snaps_eq_false_iff _ _ hp).mpr hz
      unfold translationMatrix
      simp only [hpe, Bool.false_eq_true, if_false]
      rw [if_neg (by omega)]
      simp only [hsnap, Bool.false_eq_true, if_false, ht]
  · have hiff : snaps rotationKeys (findFrame rotationKeys animTime) = true
        ↔ segmentLength rotationKeys (findFrame rotationKeys animTime) = 0 := by
      constructor
      · intro hsn
        by_contra hz
        rw [(snaps_eq_false_iff _ _ hr).mpr hz] at hsn
        exact Bool.false_ne_true hsn
      · intro hz
        by_contra hc
        exact (snaps_eq_false_iff _ _ hr).mp (Bool.eq_false_iff.mpr hc) hz
    refine ⟨hiff, ?_, ?_⟩
    · intro hz
      refine ⟨factor_of_zero _ _ _ hz, ?_⟩
      unfold rotationMatrix
      simp only [hre, Bool.false_eq_true, if_false]
      rw [if_neg (by omega)]
      simp only [hiff.mpr hz, if_true]
    · intro hz
      refine ⟨factor_of_ne_zero _ _ _ hz, ?_⟩
      intro t ht
      have hsnap := (snaps_eq_false_iff _ _ hr).mpr hz
      unfold rotationMatrix
      simp only [hre, Bool.false_eq_true, if_false]
      rw [if_neg (by omega)]
      simp only [hsnap, Bool.false_eq_true, if_false, ht]
  · have hiff : snaps scaleKeys (findFrame scaleKeys animTime) = true
        ↔ segmentLength scaleKeys (findFrame scaleKeys animTime) = 0 := by
      constructor
      · intro hsn
        by_contra hz
        rw [(snaps_eq_false_iff _ _ hs).mpr hz] at hsn
        exact Bool.false_ne_true hsn
      · intro hz
        by_contra hc
        exact (snaps_eq_false_iff _ _ hs).mp (Bool.eq_false_iff.mpr hc) hz
    refine ⟨hiff, ?_, ?_⟩
    · intro hz
      refine ⟨factor_of_zero _ _ _ hz, ?_⟩
      unfold scaleMatrix
      simp only [hse, Bool.false_eq_true, if_false]
      rw [if_neg (by omega)]
      simp only [hiff.mpr hz, if_true]
    · intro hz
      refine ⟨factor_of_ne_zero _ _ _ hz, ?_⟩
      intro t ht
      have hsnap := (snaps_eq_false_iff _ _ hs).mpr hz
      unfold scaleMatrix
      simp only [hse, Bool.false_eq_true, if_false]
      rw [if_neg (by omega)]
      simp only [hsnap, Bool.false_eq_true, if_false, ht]

/-- C8 applied to tracks whose two keyframes share their time: the guard
fires, the division has no value and every channel snaps to the first
keyframe. -/
theorem zero_length_segment_snaps_witness :
    (snaps flatKeys (findFrame flatKeys 5) = true
      ∧ factor flatKeys (findFrame flatKeys 5) 5 = none
      ∧ translationMatrix (some flatKeys) 5 = translate 1 ⟨1, 2, 3⟩)
    ∧ (snaps flatRotationKeys (findFrame flatRotationKeys 5) = true
      ∧ factor flatRotationKeys (findFrame flatRotationKeys 5) 5 = none
      ∧ rotationMatrix sampleSlerp (some flatRotationKeys) 5 = mat4_cast ⟨1, 0, 0, 0⟩)
    ∧ (snaps flatKeys (findFrame flatKeys 5) = true
      ∧ factor flatKeys (findFrame flatKeys 5) 5 = none
      ∧ scaleMatrix (some flatKeys) 5 = scale 1 ⟨1, 2, 3⟩) := by
  obtain ⟨⟨h1, h2, _⟩, ⟨h3, h4, _⟩, ⟨h5, h6, _⟩⟩ :=
    zero_length_segment_snaps sampleSlerp 5 flatKeys flatRotationKeys flatKeys
      (by decide) (by decide) (by decide)
  have hf : findFrame flatKeys 5 = 0 := by decide
  have hfr : findFrame flatRotationKeys 5 = 0 := by decide
  have hz : segmentLength flatKeys (findFrame flatKeys 5) = 0 := by
    rw [hf]
    simp [segmentLength, nextFrame, keyAt, flatKeys]
  have hzr : segmentLength flatRotationKeys (findFrame flatRotationKeys 5) = 0 := by
    rw [hfr]
    simp [segmentLength, nextFrame, keyAt, flatRotationKeys]
  refine ⟨⟨h1.mpr hz, (h2 hz).1, ?_⟩, ⟨h3.mpr hzr, (h4 hzr).1, ?_⟩, ⟨h5.mpr hz, (h6 hz).1, ?_⟩⟩
  · rw [(h2 hz).2, hf]
    rfl
  · rw [(h4 hzr).2, hfr]
    rfl
  · rw [(h6 hz).2, hf]
    rfl

theorem transformPoint_mul (a b : Mat4 K) (hb : Affine b) (v : Vec3 K) :
    transformPoint (a * b) v = transformPoint a (transformPoint b v) := by
  obtain ⟨h0, h1, h2, h3⟩ := hb
  simp only [transformPoint, Matrix.mul_apply, Fin.sum_univ_four, h0, h1, h2, h3, Vec3.mk.injEq]
  refine ⟨?_, ?_, ?_⟩ <;> ring

theorem affine_one : Affine (1 : Mat4 K) := by
  simp [Affine]

theorem affine_translate (v : Vec3 K) : Affine (translate 1 v) := by
  unfold translate
  rw [one_mul]
  exact ⟨rfl, rfl, rfl, rfl⟩

theorem affine_scale (v : Vec3 K) : Affine (scale 1 v) := by
  unfold scale
  rw [one_mul]
  exact ⟨rfl, rfl, rfl, rfl⟩

theorem affine_mat4_cast (q : Quat K) : Affine (mat4_cast q) :=
  ⟨rfl, rfl, rfl, rfl⟩

theorem affine_rotationMatrix (slerp : Quat K → Quat K → K → Quat K)
    (track : Option (List (aiQuatKey K))) (animTime : K) :
    Affine (rotationMatrix slerp track animTime) := by
  unfold rotationMatrix
  split
  · exact affine_one
  · dsimp only
    split
    · exact affine_one
    · split
      · exact affine_mat4_cast _
      · split
        · exact affine_mat4_cast _
        · split
          · exact affine_one
          · exact affine_mat4_cast _

theorem affine_scaleMatrix (track : Option (List (aiVectorKey K))) (animTime : K) :
    Affine (scaleMatrix track animTime) := by
  unfold scaleMatrix
  split
  · exact affine_one
  · dsimp only
    split
    · exact affine_one
    · split
      · exact affine_scale _
      · split
        · exact affine_scale _
        · split
          · exact affine_one
          · exact affine_scale _

theorem transformPoint_translate (p v : Vec3 K) :
    transformPoint (translate 1 p) v = ⟨v.x + p.x, v.y + p.y, v.z + p.z⟩ := by
  unfold translate
  rw [one_mul]
  show (⟨1 * v.x + 0 * v.y + 0 * v.z + p.x, 0 * v.x + 1 * v.y + 0 * v.z + p.y,
    0 * v.x + 0 * v.y + 1 * v.z + p.z⟩ : Vec3 K) = _
  simp

theorem transformPoint_scale (s v : Vec3 K) :
    transformPoint (scale 1 s) v = ⟨s.x * v.x, s.y * v.y, s.z * v.z⟩ := by
  unfold scale
  rw [one_mul]
  show (⟨s.x * v.x + 0 * v.y + 0 * v.z + 0, 0 * v.x + s.y * v.y + 0 * v.z + 0,
    0 * v.x + 0 * v.y + s.z * v.z + 0⟩ : Vec3 K) = _
  simp

/-- C9: `getInterpolatedBoneTransform` is the product `translation *
rotation * scale` of its three channel matrices, so a point is first scaled,
then rotated, then translated; and for a bone with one position key `p`, one
scale key `s` and no rotation key the matrix sends a point `v` to
`p + s * v` (componentwise), at every time. -/
theorem translation_rotation_scale_order (slerp : Quat K → Quat K → K → Quat K) (anim : Animation K)
    (boneName : String) (animTime : K) (v : Vec3 K) (positionKey scaleKey : aiVectorKey K)
    (hp : anim.positionKeyframes.lookup boneName = some [positionKey])
    (hr : (anim.rotationKeyframes.lookup boneName).getD [] = [])
    (hs : anim.scalingKeyframes.lookup boneName = some [scaleKey]) :
    (∀ (clip : Animation K) (name : String) (time : K) (w : Vec3 K),
      getInterpolatedBoneTransform slerp clip name time
        = translationMatrix (clip.positionKeyframes.lookup name) time
          * rotationMatrix slerp (clip.rotationKeyframes.lookup name) time
          * scaleMatrix (clip.scalingKeyframes.lookup name) time
      ∧ transformPoint (getInterpolatedBoneTransform slerp clip name time) w
        = transformPoint (translationMatrix (clip.positionKeyframes.lookup name) time)
            (transformPoint (rotationMatrix slerp (clip.rotationKeyframes.lookup name) time)
              (transformPoint (scaleMatrix (clip.scalingKeyframes.lookup name) time) w)))
    ∧ transformPoint (getInterpolatedBoneTransform slerp anim boneName animTime) v
        = ⟨positionKey.mValue.x + scaleKey.mValue.x * v.x,
           positionKey.mValue.y + scaleKey.mValue.y * v.y,
           positionKey.mValue.z + scaleKey.mValue.z * v.z⟩ := by
  have horder : ∀ (clip : Animation K) (name : String) (time : K) (w : Vec3 K),
      transformPoint (getInterpolatedBoneTransform slerp clip name time) w
        = transformPoint (translationMatrix (clip.positionKeyframes.lookup name) time)
            (transformPoint (rotationMatrix slerp (clip.rotationKeyframes.lookup name) time)
              (transformPoint (scaleMatrix (clip.scalingKeyframes.lookup name) time) w)) := by
    intro clip name time w
    unfold getInterpolatedBoneTransform
    rw [transformPoint_mul _ _ (affine_scaleMatrix _ _),
      transformPoint_mul _ _ (affine_rotationMatrix _ _ _)]
  refine ⟨fun clip name time w => ⟨rfl, horder clip name time w⟩, ?_⟩
  have hrot : rotationMatrix slerp (anim.rotationKeyframes.lookup boneName) animTime = 1 := by
    unfold rotationMatrix
    cases hl : anim.rotationKeyframes.lookup boneName with
    | none => rfl
    | some keys =>
      rw [hl] at hr
      simp only [Option.getD_some] at hr
      subst hr
      rfl
  rw [horder, hp, hs, hrot, translationMatrix_single, scaleMatrix_single,
    transformPoint_one, transformPoint_scale, transformPoint_translate]
  simp only [vec3, Vec3.mk.injEq]
  refine ⟨?_, ?_, ?_⟩ <;> ring

/-- C9 applied to the bone `Hand` of `handClip`: the point `(1, 1, 1)` goes
to `(1, 2, 3) + 2 * (1, 1, 1)`. -/
theorem translation_rotation_scale_order_witness :
    transformPoint (getInterpolatedBoneTransform sampleSlerp handClip "Hand" 7) ⟨1, 1, 1⟩
      = ⟨1 + 2 * 1, 2 + 2 * 1, 3 + 2 * 1⟩ :=
  (translation_rotation_scale_order sampleSlerp handClip "Hand" 7 ⟨1, 1, 1⟩
    ⟨0, ⟨1, 2, 3⟩⟩ ⟨0, ⟨2, 2, 2⟩⟩ rfl rfl rfl).2

/-! ## The playback clock -/

theorem fmod_of_nonneg {x y : K} (hx : 0 ≤ x) (hy : 0 < y) :
    ∃ r, fmod x y = some r ∧ 0 ≤ r ∧ r < y ∧ ∃ n : ℕ, x = n * y + r := by
  have hq : 0 ≤ x / y := div_nonneg hx (le_of_lt hy)
  refine ⟨x - y * ⌊x / y⌋, ?_, ?_, ?_, ⟨⌊x / y⌋.toNat, ?_⟩⟩
  · simp [fmod, ne_of_gt hy, hq]
  · have h1 : (⌊x / y⌋ : K) ≤ x / y := Int.floor_le _
    have h2 : y * ⌊x / y⌋ ≤ y * (x / y) := mul_le_mul_of_nonneg_left h1 (le_of_lt hy)
    rw [mul_div_cancel₀ _ (ne_of_gt hy)] at h2
    linarith
  · have h1 : x / y < ⌊x / y⌋ + 1 := Int.lt_floor_add_one _
    have h2 : y * (x / y) < y * (⌊x / y⌋ + 1) := mul_lt_mul_of_pos_left h1 hy
    rw [mul_div_cancel₀ _ (ne_of_gt hy)] at h2
    linarith
  · have hfl : 0 ≤ ⌊x / y⌋ := Int.floor_nonneg.mpr hq
    have hcast : ((⌊x / y⌋.toNat : ℕ) : K) = (⌊x / y⌋ : K) := by
      have := Int.toNat_of_nonneg hfl
      exact_mod_cast this
    rw [hcast]
    ring

theorem advanceClock_eq_fmod {animationTime deltaTime x d : K} {a : Animation K}
    (hx : toFloat (animationTime + deltaTime * a.ticksPerSecond) = some x)
    (hd : toFloat a.duration = some d) :
    advanceClock animationTime deltaTime a = fmod x d := by
  unfold advanceClock
  rw [hx]
  dsimp only
  rw [hd]

theorem advanceClock_eq_none_of_zero {animationTime deltaTime x : K} {a : Animation K}
    (hx : toFloat (animationTime + deltaTime * a.ticksPerSecond) = some x)
    (hd : toFloat a.duration = some 0) :
    advanceClock animationTime deltaTime a = none := by
  rw [advanceClock_eq_fmod hx hd]
  unfold fmod
  rw [if_pos rfl]

theorem updateAnimation_eq_none (slerp : Quat K → Quat K → K → Quat K) (s : State K)
    {deltaTime : K} {anim : Animation K} {rest : List (Animation K)}
    (hanim : s.animations = anim :: rest)
    (htime : advanceClock s.animationTime deltaTime anim = none) :
    updateAnimation slerp s deltaTime = none := by
  unfold updateAnimation
  split
  · next hnil => rw [hanim] at hnil; cases hnil
  · next a r ha =>
    rw [hanim] at ha
    cases ha
    rw [htime]

/-- The clock update from any state with a clip whose narrowed duration is a
positive number, a non-negative rate and a node tree. -/
theorem clock_wraps (slerp : Quat K → Quat K → K → Quat K) (s : State K)
    (deltaTime x d : K) (anim : Animation K) (rest : List (Animation K)) (root : aiNode K)
    (hanim : s.animations = anim :: rest) (hroot : s.rootNode = some root)
    (hd : toFloat anim.duration = some d) (hdpos : 0 < d) (htps : 0 ≤ anim.ticksPerSecond)
    (htime : 0 ≤ s.animationTime) (hdelta : 0 ≤ deltaTime)
    (hx : toFloat (s.animationTime + deltaTime * anim.ticksPerSecond) = some x) :
    ∃ s', updateAnimation slerp s deltaTime = some s'
      ∧ fmod x d = some s'.animationTime
      ∧ 0 ≤ s'.animationTime ∧ s'.animationTime < d
      ∧ ∃ n : ℕ, x = n * d + s'.animationTime := by
  have hx0 : 0 ≤ x := toFloat_nonneg hx (add_nonneg htime (mul_nonneg hdelta htps))
  obtain ⟨r, hr, h0, h1, hn⟩ := fmod_of_nonneg hx0 hdpos
  have hadv : advanceClock s.animationTime deltaTime anim = some r := by
    rw [advanceClock_eq_fmod hx hd, hr]
  refine ⟨_, updateAnimation_clip slerp s hanim hadv hroot, ?_⟩
  rw [calculateBoneTransformations_animationTime]
  exact ⟨hr, h0, h1, hn⟩

/-- C10, amended: in every reachable state of a model whose first clip has a
non-negative `ticksPerSecond` and a duration whose `float` value
`d = (float)duration` is a positive number, with the clock in `[0, d)` and a
frame time `deltaTime >= 0` for which the sum `animationTime + deltaTime *
ticksPerSecond`, stored in the `float` clock, is a number `x`,
`updateAnimation` returns a state whose clock is `fmod(x, d)`; it lies in
`[0, d)` and differs from `x` by a whole number of `d`. -/
theorem updateAnimation_wraps (slerp : Quat K → Quat K → K → Quat K) (s : State K)
    (deltaTime x d : K) (anim : Animation K) (rest : List (Animation K))
    (hreach : Reachable slerp s) (hanim : s.animations = anim :: rest)
    (hd : toFloat anim.duration = some d) (hdpos : 0 < d) (htps : 0 ≤ anim.ticksPerSecond)
    (htime : 0 ≤ s.animationTime ∧ s.animationTime < d)
    (hdelta : 0 ≤ deltaTime)
    (hx : toFloat (s.animationTime + deltaTime * anim.ticksPerSecond) = some x) :
    ∃ s', updateAnimation slerp s deltaTime = some s'
      ∧ fmod x d = some s'.animationTime
      ∧ 0 ≤ s'.animationTime ∧ s'.animationTime < d
      ∧ ∃ n : ℕ, x = n * d + s'.animationTime := by
  obtain ⟨root, hroot⟩ := hreach.wellFormed.2.2.2 (by rw [hanim]; simp)
  exact clock_wraps slerp s deltaTime x d anim rest root hanim hroot hd hdpos htps htime.1
    hdelta hx

/-- The amended C10 applied to `sampleModel` and a frame of half a second:
the new clock is `fmod(5, 10) = 5`. -/
theorem updateAnimation_wraps_witness :
    ∃ s', updateAnimation sampleSlerp sampleModel (1 / 2) = some s'
      ∧ fmod 5 10 = some s'.animationTime
      ∧ 0 ≤ s'.animationTime ∧ s'.animationTime < 10
      ∧ ∃ n : ℕ, (5 : ℚ) = n * 10 + s'.animationTime :=
  updateAnimation_wraps sampleSlerp sampleModel (1 / 2) 5 10 (loadAnimation sampleAnimation) []
    ⟨1, some sampleScene, [], rfl⟩ rfl
    (by
      have h := toFloat_intCast (K := ℚ) 10 (by norm_num)
      have hdur : (loadAnimation sampleAnimation).duration = ((10 : Int) : ℚ) := by decide
      rw [hdur]
      simpa using h)
    (by norm_num) (by decide) ⟨by decide, by decide⟩ (by norm_num)
    (by
      have h := toFloat_intCast (K := ℚ) 5 (by norm_num)
      have hsum : sampleModel.animationTime
          + 1 / 2 * (loadAnimation sampleAnimation).ticksPerSecond = ((5 : Int) : ℚ) := by
        have h1 : sampleModel.animationTime = 0 := rfl
        have h2 : (loadAnimation sampleAnimation).ticksPerSecond = 10 := by decide
        rw [h1, h2]
        norm_num
      rw [hsum]
      simpa using h)

/-- C10, counterexample, in three parts.  `reverseModel` has a first clip of
duration `10` with `ticksPerSecond = -1`; from the clock `0` the call
`updateAnimation(1)` leaves the clock at `fmod(-1, 10) = -1`, outside
`[0, 10)`.  `briefModel` has a first clip of the positive duration
`2 ^ (-160)`, which is zero as a `float`; from the clock `0` the call
`updateAnimation(1)` leaves no number in the clock.  `fineRateModel` has a
first clip of duration `10` with `ticksPerSecond = 1 + 2 ^ (-30)`; from the
clock `0` the call `updateAnimation(1)` leaves the clock at `1`, the sum as
stored in the `float` clock, and not at `(0 + 1 * ticksPerSecond) mod 10
= 1 + 2 ^ (-30)`. -/
theorem clock_outside_contract :
    (Reachable sampleSlerp reverseModel
      ∧ reverseModel.animations.map Animation.duration = [10]
      ∧ reverseModel.animationTime = 0
      ∧ (updateAnimation sampleSlerp reverseModel 1).map State.animationTime = some (-1)
      ∧ ¬ ∃ s', updateAnimation sampleSlerp reverseModel 1 = some s'
          ∧ 0 ≤ s'.animationTime ∧ s'.animationTime < 10)
    ∧ (Reachable sampleSlerp briefModel
      ∧ briefModel.animations.map Animation.duration = [1 / 2 ^ 160]
      ∧ briefModel.animations.map Animation.ticksPerSecond = [10]
      ∧ briefModel.animationTime = 0
      ∧ updateAnimation sampleSlerp briefModel 1 = none)
    ∧ (Reachable sampleSlerp fineRateModel
      ∧ fineRateModel.animations.map Animation.duration = [10]
      ∧ fineRateModel.animations.map Animation.ticksPerSecond = [1 + 1 / 2 ^ 30]
      ∧ fineRateModel.animationTime = 0
      ∧ fmod ((0 : ℚ) + 1 * (1 + 1 / 2 ^ 30)) 10 = some (1 + 1 / 2 ^ 30)
      ∧ (updateAnimation sampleSlerp fineRateModel 1).map State.animationTime = some 1
      ∧ (1 : ℚ) ≠ 1 + 1 / 2 ^ 30) := by
  have hf10 : toFloat (10 : ℚ) = some 10 := by
    have := toFloat_intCast (K := ℚ) 10 (by norm_num)
    simpa using this
  refine ⟨?_, ?_, ?_⟩
  · have hm1 : toFloat (-1 : ℚ) = some (-1) := by
      have := toFloat_intCast (K := ℚ) (-1) (by norm_num)
      simpa using this
    have htime : advanceClock reverseModel.animationTime 1
        (loadAnimation { sampleAnimation with mTicksPerSecond := -1 }) = some (-1) := by
      have h1 : reverseModel.animationTime = 0 := rfl
      have h2 : (loadAnimation { sampleAnimation with mTicksPerSecond := -1 }).ticksPerSecond
          = -1 := by decide
      have h3 : (loadAnimation { sampleAnimation with mTicksPerSecond := -1 }).duration
          = 10 := rfl
      have hx : toFloat (reverseModel.animationTime
          + 1 * (loadAnimation { sampleAnimation with mTicksPerSecond := -1 }).ticksPerSecond)
          = some (-1) := by
        rw [h1, h2]
        norm_num
        exact hm1
      rw [advanceClock_eq_fmod hx (by rw [h3]; exact hf10)]
      norm_num [fmod]
    have hupd : updateAnimation sampleSlerp reverseModel 1
        = some (calculateBoneTransformations sampleSlerp sampleTree 1
            { reverseModel with animationTime := -1 }) :=
      updateAnimation_clip sampleSlerp reverseModel rfl htime rfl
    have hmap : (updateAnimation sampleSlerp reverseModel 1).map State.animationTime
        = some (-1) := by
      rw [hupd]
      simp only [Option.map_some', calculateBoneTransformations_animationTime]
    refine ⟨⟨1, _, [], rfl⟩, rfl, rfl, hmap, ?_⟩
    rintro ⟨s', hs', h0, _⟩
    rw [hs', Option.map_some', Option.some.injEq] at hmap
    rw [hmap] at h0
    exact absurd h0 (by decide)
  · have hanim : briefModel.animations
        = [loadAnimation { sampleAnimation with mDuration := 1 / 2 ^ 160 }] := rfl
    have h2 : (loadAnimation { sampleAnimation with mDuration := 1 / 2 ^ 160 }).ticksPerSecond
        = 10 := by
      rw [loadAnimation_ticksPerSecond]
      exact if_neg (by norm_num [sampleAnimation])
    have h3 : (loadAnimation { sampleAnimation with mDuration := 1 / 2 ^ 160 }).duration
        = 1 / 2 ^ 160 := loadAnimation_duration _
    have hd : toFloat (loadAnimation { sampleAnimation with mDuration := 1 / 2 ^ 160 }).duration
        = some 0 := by
      rw [h3]
      exact toFloat_of_roundFloat_eq (roundFloat_tiny _ (by positivity) (by
        rw [div_lt_div_iff₀ (by positivity) (by positivity)]
        norm_num)) (by norm_num)
    have hx : toFloat (briefModel.animationTime
        + 1 * (loadAnimation { sampleAnimation with mDuration := 1 / 2 ^ 160 }).ticksPerSecond)
        = some 10 := by
      have h1 : briefModel.animationTime = 0 := rfl
      rw [h1, h2]
      norm_num
      exact hf10
    refine ⟨⟨1, _, [], rfl⟩, ?_, ?_, rfl, ?_⟩
    · rw [hanim, List.map_cons, List.map_nil, h3]
    · rw [hanim, List.map_cons, List.map_nil, h2]
    · exact updateAnimation_eq_none sampleSlerp briefModel hanim
        (advanceClock_eq_none_of_zero hx hd)
  · have hanim : fineRateModel.animations
        = [loadAnimation { sampleAnimation with mTicksPerSecond := 1 + 1 / 2 ^ 30 }] := rfl
    have h2 : (loadAnimation
        { sampleAnimation with mTicksPerSecond := 1 + 1 / 2 ^ 30 }).ticksPerSecond
        = 1 + 1 / 2 ^ 30 := by
      rw [loadAnimation_ticksPerSecond]
      exact if_neg (by norm_num)
    have h3 : (loadAnimation
        { sampleAnimation with mTicksPerSecond := 1 + 1 / 2 ^ 30 }).duration = 10 := by
      rw [loadAnimation_duration]
      rfl
    have hx : toFloat (fineRateModel.animationTime
        + 1 * (loadAnimation
          { sampleAnimation with mTicksPerSecond := 1 + 1 / 2 ^ 30 }).ticksPerSecond)
        = some 1 := by
      have h1 : fineRateModel.animationTime = 0 := rfl
      rw [h1, h2, zero_add, one_mul]
      exact toFloat_of_roundFloat_eq
        (roundFloat_just_above_one _ (by norm_num) (by norm_num)) (by norm_num)
    have htime : advanceClock fineRateModel.animationTime 1
        (loadAnimation { sampleAnimation with mTicksPerSecond := 1 + 1 / 2 ^ 30 })
        = some 1 := by
      rw [advanceClock_eq_fmod hx (by rw [h3]; exact hf10)]
      exact fmod_of_lt (by norm_num) (by norm_num)
    have hupd : updateAnimation sampleSlerp fineRateModel 1
        = some (calculateBoneTransformations sampleSlerp sampleTree 1
            { fineRateModel with animationTime := 1 }) :=
      updateAnimation_clip sampleSlerp fineRateModel hanim htime rfl
    refine ⟨⟨1, _, [], rfl⟩, ?_, ?_, rfl, ?_, ?_, by norm_num⟩
    · rw [hanim, List.map_cons, List.map_nil, h3]
    · rw [hanim, List.map_cons, List.map_nil, h2]
    · rw [zero_add, one_mul]
      exact fmod_of_lt (by positivity) (by norm_num)
    · rw [hupd]
      simp only [Option.map_some', calculateBoneTransformations_animationTime]

/-! ## A clip of duration zero -/

theorem fmod_zero (x : K) : fmod x 0 = none := by
  simp [fmod]

theorem advanceClock_zero_duration (animationTime deltaTime : K) (anim : Animation K)
    (hdur : anim.duration = 0) : advanceClock animationTime deltaTime anim = none := by
  have h0 : toFloat (0 : K) = some 0 :=
    toFloat_of_roundFloat_eq roundFloat_zero (by norm_num)
  unfold advanceClock
  rw [hdur, h0]
  split
  · rfl
  · exact fmod_zero _

theorem updateAnimation_zero_duration (slerp : Quat K → Quat K → K → Quat K) (s : State K)
    (deltaTime : K) (anim : Animation K) (rest : List (Animation K))
    (hanim : s.animations = anim :: rest) (hdur : anim.duration = 0) :
    updateAnimation slerp s deltaTime = none :=
  updateAnimation_eq_none slerp s hanim
    (advanceClock_zero_duration s.animationTime deltaTime anim hdur)

/-- C11, the code at a clip of duration zero: `poseModel` is built by the
constructor from a clip with `mDuration = 0`; every `updateAnimation` call on
it has no result in the model, because `fmod(animationTime, 0)` is evaluated
without any guard and is NaN; and whatever value the clock holds, the
propagation stores for `Hand` the product of its key matrices, which is not
the identity. -/
theorem zero_duration_not_guarded :
    Reachable sampleSlerp poseModel
    ∧ poseModel.animations.map Animation.duration = [0]
    ∧ (∀ deltaTime : ℚ, updateAnimation sampleSlerp poseModel deltaTime = none)
    ∧ (∀ clock : ℚ,
        (calculateBoneTransformations sampleSlerp sampleTree 1
            { poseModel with animationTime := clock }).boneTransforms[1]?
          = some (translate 1 ⟨1, 2, 3⟩ * 1 * scale 1 ⟨2, 2, 2⟩ * 1))
    ∧ translate 1 ⟨1, 2, 3⟩ * 1 * scale 1 ⟨2, 2, 2⟩ * 1 ≠ (1 : Mat4 ℚ) := by
  refine ⟨⟨1, _, [], rfl⟩, rfl, ?_, ?_, ?_⟩
  · intro deltaTime
    exact updateAnimation_zero_duration sampleSlerp poseModel deltaTime
      (loadAnimation poseAnimation) [] rfl rfl
  · intro clock
    have h := (calculate_two_level sampleSlerp { poseModel with animationTime := clock }
      (loadAnimation poseAnimation) [] "Root" "Hand" identityMatrix identityMatrix [0] []
      ⟨"Root", 0, convertMatrix identityMatrix, 1⟩ ⟨"Hand", 1, convertMatrix identityMatrix, 1⟩
      rfl rfl rfl (show 0 < poseModel.boneTransforms.length by decide)
      (show 1 < poseModel.boneTransforms.length by decide) (by decide)).2.2
    have hroot : getInterpolatedBoneTransform sampleSlerp (loadAnimation poseAnimation) "Root"
        clock = 1 := by
      have : getInterpolatedBoneTransform sampleSlerp (loadAnimation poseAnimation) "Root"
          clock = 1 * 1 * 1 := rfl
      rw [this, one_mul, one_mul]
    have hhand : getInterpolatedBoneTransform sampleSlerp (loadAnimation poseAnimation) "Hand"
        clock = (translate 1 ⟨1, 2, 3⟩ * 1 * scale 1 ⟨2, 2, 2⟩ : Mat4 ℚ) := rfl
    have hoff : convertMatrix (identityMatrix : aiMatrix4x4 ℚ) = 1 := by
      ext i j
      fin_cases i <;> fin_cases j <;> rfl
    rw [sampleTree, h]
    dsimp only
    rw [hroot, hhand, hoff, one_mul]
  · intro h
    have h00 := congrFun (congrFun h 0) 0
    simp [translate, scale, Matrix.mul_apply, Fin.sum_univ_four] at h00

/-! ## Playback without a clip -/

theorem construct_size (program : Nat) (scene : Option (aiScene K)) :
    (construct program scene).boneTransforms.length = (construct program scene).bones.length := by
  unfold construct
  cases scene with
  | none => rfl
  | some sc =>
    dsimp only
    split
    · next root hinc hroot =>
      obtain ⟨h1, h2, _, _, _⟩ := processNode_same sc.mMeshes root
        { (sc.mMeshes.foldl loadBones { { State.initial with shaderProgram := program } with rootNode := some root }) with
          boneTransforms := resize (sc.mMeshes.foldl loadBones { { State.initial with shaderProgram := program } with rootNode := some root }).boneTransforms
            (sc.mMeshes.foldl loadBones { { State.initial with shaderProgram := program } with rootNode := some root }).bones.length 1 }
      simp only [loadAnimations]
      rw [h1, h2]
      dsimp only
      rw [length_resize]
    · rfl

/-- In a reachable state the ids, in registry order, are the indices of
`boneTransforms`. -/
theorem Reachable.dense {slerp : Quat K → Quat K → K → Quat K} {s : State K}
    (h : Reachable slerp s) : s.bones.map Bone.id = List.range s.boneTransforms.length := by
  obtain ⟨program, scene, deltas, hs⟩ := h
  obtain ⟨_, _, _, hids⟩ := construct_inBounds_aux program scene
  obtain ⟨hsame, _⟩ := updates_same deltas hs
  rw [hsame.ids, hsame.size, hids, construct_size]

theorem offsets_fold_other (bones : List (Bone K)) (transforms : List (Mat4 K)) (i : Nat)
    (h : i ∉ bones.map Bone.id) :
    (bones.foldl
      (fun transforms bone =>
        if bone.id < transforms.length then transforms.set bone.id bone.offsetMatrix
        else transforms) transforms)[i]? = transforms[i]? := by
  induction bones generalizing transforms with
  | nil => rfl
  | cons b rest ih =>
    rw [List.map_cons, List.mem_cons, not_or] at h
    rw [List.foldl_cons, ih _ h.2]
    split
    · exact List.getElem?_set_ne (Ne.symm h.1)
    · rfl

theorem offsets_fold_get (bones : List (Bone K)) (transforms : List (Mat4 K))
    (hnodup : (bones.map Bone.id).Nodup) (hin : ∀ b ∈ bones, b.id < transforms.length) :
    ∀ b ∈ bones,
      (bones.foldl
        (fun transforms bone =>
          if bone.id < transforms.length then transforms.set bone.id bone.offsetMatrix
          else transforms) transforms)[b.id]? = some b.offsetMatrix := by
  induction bones generalizing transforms with
  | nil => intro b hb; simp at hb
  | cons b0 rest ih =>
    intro b hb
    rw [List.map_cons, List.nodup_cons] at hnodup
    have h0 := hin b0 (List.mem_cons_self _ _)
    rw [List.foldl_cons, if_pos h0]
    rcases List.mem_cons.mp hb with hb | hb
    · subst hb
      rw [offsets_fold_other _ _ _ hnodup.1]
      exact List.getElem?_set_self h0
    · apply ih _ hnodup.2 _ b hb
      intro b' hb'
      rw [List.length_set]
      exact hin b' (List.mem_cons_of_mem _ hb')

/-- C13: in every reachable state of a model without any clip, for every
`deltaTime`, `updateAnimation` returns a state with the same registry in which
`boneTransforms[b.id]` is `b.offsetMatrix` for every registered bone `b`, and
in which every index `i` of `boneTransforms` is the id of a registered bone
whose offset matrix is stored at `i`. -/
theorem no_clip_copies_offsets (slerp : Quat K → Quat K → K → Quat K) (s : State K) (deltaTime : K)
    (hreach : Reachable slerp s) (hanim : s.animations = []) :
    ∃ s', updateAnimation slerp s deltaTime = some s'
      ∧ s'.bones = s.bones
      ∧ (∀ b ∈ s'.bones, s'.boneTransforms[b.id]? = some b.offsetMatrix)
      ∧ (∀ i, i < s'.boneTransforms.length →
          ∃ b ∈ s'.bones, b.id = i ∧ s'.boneTransforms[i]? = some b.offsetMatrix) := by
  obtain ⟨hin, hnodup, _, _⟩ := hreach.wellFormed
  have hperm : (inKeyOrder s.bones).Perm s.bones := List.perm_insertionSort _ _
  have hget : ∀ b ∈ s.bones,
      ((inKeyOrder s.bones).foldl
        (fun transforms bone =>
          if bone.id < transforms.length then transforms.set bone.id bone.offsetMatrix
          else transforms) s.boneTransforms)[b.id]? = some b.offsetMatrix := by
    intro b hb
    apply offsets_fold_get
    · exact (List.Perm.nodup_iff (hperm.map Bone.id)).mpr hnodup
    · intro b' hb'
      exact hin b' (hperm.mem_iff.mp hb')
    · exact hperm.mem_iff.mpr hb
  have hupd : updateAnimation slerp s deltaTime
      = some { s with
          boneTransforms := (inKeyOrder s.bones).foldl
            (fun transforms bone =>
              if bone.id < transforms.length then transforms.set bone.id bone.offsetMatrix
              else transforms)
            s.boneTransforms } := by
    unfold updateAnimation
    rw [hanim]
  refine ⟨_, hupd, rfl, hget, ?_⟩
  intro i hi
  dsimp only at hi
  rw [offsets_fold_length] at hi
  have hmem : i ∈ s.bones.map Bone.id := by
    rw [hreach.dense]
    exact List.mem_range.mpr hi
  obtain ⟨b, hb, hid⟩ := List.mem_map.mp hmem
  refine ⟨b, hb, hid, ?_⟩
  rw [← hid]
  exact hget b hb

/-- C13 applied to `stillModel` and a frame of half a second. -/
theorem no_clip_copies_offsets_witness :
    ∃ s', updateAnimation sampleSlerp stillModel (1 / 2) = some s'
      ∧ s'.bones = stillModel.bones
      ∧ (∀ b ∈ s'.bones, s'.boneTransforms[b.id]? = some b.offsetMatrix)
      ∧ (∀ i, i < s'.boneTransforms.length →
          ∃ b ∈ s'.bones, b.id = i ∧ s'.boneTransforms[i]? = some b.offsetMatrix) :=
  no_clip_copies_offsets sampleSlerp stillModel (1 / 2) ⟨1, _, [], rfl⟩ rfl

/-! ## Skin data of a mesh -/

theorem getD_set_ne {α : Type} (l : List α) (i j : Nat) (x d : α) (h : i ≠ j) :
    (l.set i x).getD j d = l.getD j d := by
  rw [List.getD_eq_getElem?_getD, List.getD_eq_getElem?_getD, List.getElem?_set_ne h]

theorem getD_set_self {α : Type} (l : List α) (i : Nat) (x d : α) (h : i < l.length) :
    (l.set i x).getD i d = x := by
  rw [List.getD_eq_getElem?_getD, List.getElem?_set_self h]
  rfl

theorem fillSlot_lengths (v : Nat) (w : K) (boneIndex : Int) (m : Mesh K) (ks : List Nat) :
    (fillSlot v w boneIndex m ks).boneWeightsData.length = m.boneWeightsData.length
    ∧ (fillSlot v w boneIndex m ks).boneIDsData.length = m.boneIDsData.length := by
  induction ks with
  | nil => exact ⟨rfl, rfl⟩
  | cons k rest ih =>
    unfold fillSlot
    split
    · simp
    · exact ih

theorem fillSlot_other (v' v : Nat) (w : K) (boneIndex : Int) (m : Mesh K) (ks : List Nat)
    (hks : ∀ k ∈ ks, k < 4) (hv : v' ≠ v) (k : Nat) (hk : k < 4) :
    slotWeight (fillSlot v' w boneIndex m ks) v k = slotWeight m v k
    ∧ slotId (fillSlot v' w boneIndex m ks) v k = slotId m v k := by
  induction ks with
  | nil => exact ⟨rfl, rfl⟩
  | cons k' rest ih =>
    unfold fillSlot
    split
    · have hk' := hks k' (List.mem_cons_self _ _)
      have hne : v' * 4 + k' ≠ v * 4 + k := by omega
      exact ⟨getD_set_ne _ _ _ _ _ hne, getD_set_ne _ _ _ _ _ hne⟩
    · exact ih (fun k'' h'' => hks k'' (List.mem_cons_of_mem _ h''))

theorem fillSlot_full (v : Nat) (w : K) (boneIndex : Int) (m : Mesh K)
    (h : ∀ k, k < 4 → slotWeight m v k ≠ 0) :
    fillSlot v w boneIndex m [0, 1, 2, 3] = m := by
  have h0 := h 0 (by omega)
  have h1 := h 1 (by omega)
  have h2 := h 2 (by omega)
  have h3 := h 3 (by omega)
  unfold slotWeight at h0 h1 h2 h3
  simp only [fillSlot, if_neg h0, if_neg h1, if_neg h2, if_neg h3]

theorem fillSlot_free (v : Nat) (w : K) (boneIndex : Int) (m : Mesh K) (c : Nat) (hc : c < 4)
    (hocc : ∀ k, k < c → slotWeight m v k ≠ 0) (hfree : slotWeight m v c = 0) :
    fillSlot v w boneIndex m [0, 1, 2, 3]
      = { boneWeightsData := m.boneWeightsData.set (v * 4 + c) w,
          boneIDsData := m.boneIDsData.set (v * 4 + c) boneIndex } := by
  unfold slotWeight at hocc hfree
  interval_cases c
  · simp only [fillSlot, if_pos hfree]
  · simp only [fillSlot, if_neg (hocc 0 (by omega)), if_pos hfree]
  · simp only [fillSlot, if_neg (hocc 0 (by omega)), if_neg (hocc 1 (by omega)), if_pos hfree]
  · simp only [fillSlot, if_neg (hocc 0 (by omega)), if_neg (hocc 1 (by omega)),
      if_neg (hocc 2 (by omega)), if_pos hfree]

theorem firstFour_length_le (L : List (Int × K)) : (firstFour L).length ≤ 4 :=
  List.length_take_le _ _

theorem firstFour_nonzero (L : List (Int × K)) : ∀ p ∈ firstFour L, p.2 ≠ 0 := by
  intro p hp
  have := List.mem_filter.mp (List.mem_of_mem_take hp)
  simpa using this.2

theorem firstFour_append_zero (L : List (Int × K)) (x : Int × K) (hx : x.2 = 0) :
    firstFour (L ++ [x]) = firstFour L := by
  unfold firstFour
  rw [List.filter_append]
  have : List.filter (fun p : Int × K => decide (p.2 ≠ 0)) [x] = [] := by
    simp [List.filter, hx]
  rw [this, List.append_nil]

theorem firstFour_append_full (L : List (Int × K)) (x : Int × K)
    (hfull : (firstFour L).length = 4) : firstFour (L ++ [x]) = firstFour L := by
  unfold firstFour at hfull ⊢
  rw [List.filter_append]
  rw [List.length_take] at hfull
  exact List.take_append_of_le_length (by omega)

theorem firstFour_append_room (L : List (Int × K)) (x : Int × K) (hx : x.2 ≠ 0)
    (hroom : (firstFour L).length < 4) : firstFour (L ++ [x]) = firstFour L ++ [x] := by
  unfold firstFour at hroom ⊢
  rw [List.filter_append]
  have hx' : List.filter (fun p : Int × K => decide (p.2 ≠ 0)) [x] = [x] := by
    simp [List.filter, hx]
  rw [List.length_take] at hroom
  have hlen : (List.filter (fun p : Int × K => decide (p.2 ≠ 0)) L).length < 4 := by omega
  rw [hx', List.take_of_length_le (by simp only [List.length_append, List.length_singleton]; omega),
    List.take_of_length_le (by omega)]

theorem SkinInv.occupied {n v : Nat} {m : Mesh K} {L : List (Int × K)} (h : SkinInv n v m L) :
    ∀ k, k < (firstFour L).length → slotWeight m v k ≠ 0 := by
  intro k hk
  have hk4 : k < 4 := lt_of_lt_of_le hk (firstFour_length_le L)
  rw [h.weights k hk4, List.getD_eq_getElem _ _ (by simpa using hk), List.getElem_map]
  exact firstFour_nonzero L _ (List.getElem_mem _)

theorem SkinInv.free {n v : Nat} {m : Mesh K} {L : List (Int × K)} (h : SkinInv n v m L) :
    ∀ k, (firstFour L).length ≤ k → k < 4 → slotWeight m v k = 0 := by
  intro k hk hk4
  rw [h.weights k hk4, List.getD_eq_default _ _ (by simpa using hk)]

theorem SkinInv.other {n v : Nat} {m : Mesh K} {L : List (Int × K)} (h : SkinInv n v m L)
    (v' : Nat) (w : K) (boneIndex : Int) (hv : v' ≠ v) :
    SkinInv n v (fillSlot v' w boneIndex m [0, 1, 2, 3]) L := by
  have hks : ∀ k ∈ [0, 1, 2, 3], k < 4 := by decide
  refine ⟨?_, ?_, ?_, ?_, ?_⟩
  · rw [(fillSlot_lengths _ _ _ _ _).1]; exact h.weightsLength
  · rw [(fillSlot_lengths _ _ _ _ _).2]; exact h.idsLength
  · intro k hk
    rw [(fillSlot_other v' v w boneIndex m _ hks hv k hk).1]
    exact h.weights k hk
  · intro k hk
    rw [(fillSlot_other v' v w boneIndex m _ hks hv k
      (lt_of_lt_of_le hk (firstFour_length_le L))).2]
    exact h.ids k hk
  · intro hL k hk
    rw [(fillSlot_other v' v w boneIndex m _ hks hv k hk).2]
    exact h.untouched hL k hk

theorem SkinInv.same {n v : Nat} {m : Mesh K} {L : List (Int × K)} (h : SkinInv n v m L)
    (hv : v < n) (w : K) (boneIndex : Int) :
    SkinInv n v (fillSlot v w boneIndex m [0, 1, 2, 3]) (L ++ [(boneIndex, w)]) := by
  have hle := firstFour_length_le L
  by_cases hfull : (firstFour L).length = 4
  · -- every slot is occupied: nothing is written
    have hm : fillSlot v w boneIndex m [0, 1, 2, 3] = m :=
      fillSlot_full v w boneIndex m (fun k hk => h.occupied k (by omega))
    rw [hm]
    have hT := firstFour_append_full L (boneIndex, w) hfull
    refine ⟨h.weightsLength, h.idsLength, ?_, ?_, ?_⟩
    · intro k hk; rw [hT]; exact h.weights k hk
    · intro k hk; rw [hT] at hk ⊢; exact h.ids k hk
    · intro hL; simp at hL
  · -- the first free slot is the one after the occupied ones
    have hroom : (firstFour L).length < 4 := by omega
    have hm := fillSlot_free v w boneIndex m (firstFour L).length hroom
      (fun k hk => h.occupied k hk) (h.free _ (le_refl _) hroom)
    have hinW : v * 4 + (firstFour L).length < m.boneWeightsData.length := by
      rw [h.weightsLength]; omega
    have hinI : v * 4 + (firstFour L).length < m.boneIDsData.length := by
      rw [h.idsLength]; omega
    have hW : ∀ k, k < 4 → slotWeight (fillSlot v w boneIndex m [0, 1, 2, 3]) v k
        = if k = (firstFour L).length then w else slotWeight m v k := by
      intro k hk
      rw [hm]
      unfold slotWeight
      dsimp only
      by_cases hkc : k = (firstFour L).length
      · rw [if_pos hkc, hkc]
        exact getD_set_self _ _ _ _ hinW
      · rw [if_neg hkc]
        exact getD_set_ne _ _ _ _ _ (by omega)
    have hI : ∀ k, k < 4 → slotId (fillSlot v w boneIndex m [0, 1, 2, 3]) v k
        = if k = (firstFour L).length then boneIndex else slotId m v k := by
      intro k hk
      rw [hm]
      unfold slotId
      dsimp only
      by_cases hkc : k = (firstFour L).length
      · rw [if_pos hkc, hkc]
        exact getD_set_self _ _ _ _ hinI
      · rw [if_neg hkc]
        exact getD_set_ne _ _ _ _ _ (by omega)
    refine ⟨?_, ?_, ?_, ?_, ?_⟩
    · rw [(fillSlot_lengths _ _ _ _ _).1]; exact h.weightsLength
    · rw [(fillSlot_lengths _ _ _ _ _).2]; exact h.idsLength
    · intro k hk
      rw [hW k hk]
      by_cases hw : w = 0
      · rw [firstFour_append_zero L (boneIndex, w) hw]
        by_cases hkc : k = (firstFour L).length
        · rw [if_pos hkc, hw, List.getD_eq_default _ _ (by simp [hkc])]
        · rw [if_neg hkc]; exact h.weights k hk
      · rw [firstFour_append_room L (boneIndex, w) hw hroom, List.map_append]
        by_cases hkc : k = (firstFour L).length
        · rw [if_pos hkc, List.getD_append_right _ _ _ _ (by simp [hkc])]
          simp [hkc]
        · rw [if_neg hkc, h.weights k hk]
          by_cases hlt : k < (firstFour L).length
          · rw [List.getD_append _ _ _ _ (by simpa using hlt)]
          · rw [List.getD_eq_default _ _ (by simp; omega),
              List.getD_eq_default _ _ (by simp; omega)]
    · intro k hk
      have hk4 : k < 4 := lt_of_lt_of_le hk (firstFour_length_le _)
      rw [hI k hk4]
      by_cases hw : w = 0
      · rw [firstFour_append_zero L (boneIndex, w) hw] at hk ⊢
        rw [if_neg (by omega)]
        exact h.ids k hk
      · rw [firstFour_append_room L (boneIndex, w) hw hroom] at hk ⊢
        rw [List.map_append]
        by_cases hkc : k = (firstFour L).length
        · rw [if_pos hkc, List.getD_append_right _ _ _ _ (by simp [hkc])]
          simp [hkc]
        · have hlt : k < (firstFour L).length := by
            simp only [List.length_append, List.length_singleton] at hk; omega
          rw [if_neg hkc, h.ids k hlt, List.getD_append _ _ _ _ (by simpa using hlt)]
    · intro hL; simp at hL

theorem SkinInv.weights_fold {n v : Nat} (hv : v < n) (boneIndex : Int)
    (ws : List (aiVertexWeight K)) :
    ∀ (m : Mesh K) (L : List (Int × K)), SkinInv n v m L →
      SkinInv n v
        (ws.foldl
          (fun m weight => fillSlot weight.mVertexId weight.mWeight boneIndex m [0, 1, 2, 3]) m)
        (L ++ (ws.filter (fun weight => weight.mVertexId = v)).map
          (fun weight => (boneIndex, weight.mWeight))) := by
  induction ws with
  | nil => intro m L h; simpa using h
  | cons w rest ih =>
    intro m L h
    rw [List.foldl_cons]
    by_cases hw : w.mVertexId = v
    · have hstep := ih _ _ (h.same hv w.mWeight boneIndex)
      rw [List.filter_cons_of_pos (by simpa using hw), List.map_cons]
      rw [List.append_assoc] at hstep
      rw [hw]
      exact hstep
    · have hstep := ih _ _ (h.other w.mVertexId w.mWeight boneIndex hw)
      rw [List.filter_cons_of_neg (by simpa using hw)]
      exact hstep

theorem SkinInv.bones_fold {n v : Nat} (hv : v < n) (bones : List (Bone K)) (bs : List (aiBone K)) :
    ∀ (acc : Mesh K × List Diagnostic) (L : List (Int × K)), SkinInv n v acc.1 L →
      SkinInv n v (bs.foldl (skinBone bones) acc).1 (L ++ influencesOn bones bs v) := by
  induction bs with
  | nil => intro acc L h; simpa [influencesOn] using h
  | cons b rest ih =>
    intro acc L h
    rw [List.foldl_cons]
    have hsplit : influencesOn bones (b :: rest) v
        = influencesOn bones [b] v ++ influencesOn bones rest v := by
      simp [influencesOn]
    rw [hsplit, ← List.append_assoc]
    apply ih
    unfold skinBone
    cases hfind : findBone bones b.mName with
    | none =>
      have : influencesOn bones [b] v = [] := by simp [influencesOn, hfind]
      rw [this, List.append_nil]
      exact h
    | some bone =>
      have : influencesOn bones [b] v
          = (b.mWeights.filter (fun weight => weight.mVertexId = v)).map
              (fun weight => ((bone.id : Int), weight.mWeight)) := by
        simp [influencesOn, hfind]
      rw [this]
      exact SkinInv.weights_fold hv bone.id b.mWeights _ _ h

theorem SkinInv.initial (n v : Nat) :
    SkinInv n v
      ({ boneIDsData := List.replicate (n * 4) (-1),
         boneWeightsData := List.replicate (n * 4) 0 } : Mesh K) [] := by
  refine ⟨by simp, by simp, ?_, ?_, ?_⟩
  · intro k _
    unfold slotWeight
    rw [List.getD_eq_getElem?_getD, List.getElem?_getD_replicate_default_eq]
    rfl
  · intro k hk
    simp [firstFour] at hk
  · intro _ k _
    unfold slotId
    rw [List.getD_eq_getElem?_getD, List.getElem?_getD_replicate_default_eq]

theorem skinData_inv (bones : List (Bone K)) (mesh : aiMesh K) (v : Nat)
    (hv : v < mesh.mNumVertices) :
    SkinInv mesh.mNumVertices v (skinData bones mesh).1 (influencesOn bones mesh.mBones v) := by
  have h := SkinInv.bones_fold hv bones mesh.mBones
    ({ boneIDsData := List.replicate (mesh.mNumVertices * 4) (-1),
       boneWeightsData := List.replicate (mesh.mNumVertices * 4) 0 }, []) []
    (SkinInv.initial _ _)
  rw [List.nil_append] at h
  exact h

theorem getElem?_of_getD {α : Type} (l : List α) (i : Nat) (d : α) (h : i < l.length) :
    l[i]? = some (l.getD i d) := by
  rw [List.getD_eq_getElem _ _ h, List.getElem?_eq_getElem h]

/-- C14: for every registry, every mesh and every vertex `v` of the mesh, the
arrays built by `processMesh` have four slots per vertex; the four weights of
`v` are the weights of the first four influences on `v` with a nonzero
weight, in list order among the influences of registered bones, padded with
`0`; each occupied slot holds the registry id of its influence; and a vertex
without any influence keeps its four ids at `-1` and its four weights at
`0`. -/
theorem skinData_reference (bones : List (Bone K)) (mesh : aiMesh K) (v : Nat)
    (hv : v < mesh.mNumVertices) :
    (skinData bones mesh).1.boneWeightsData.length = mesh.mNumVertices * 4
    ∧ (skinData bones mesh).1.boneIDsData.length = mesh.mNumVertices * 4
    ∧ (∀ k, k < 4 → (skinData bones mesh).1.boneWeightsData[v * 4 + k]?
        = some (((firstFour (influencesOn bones mesh.mBones v)).map Prod.snd).getD k 0))
    ∧ (∀ k, k < (firstFour (influencesOn bones mesh.mBones v)).length →
        (skinData bones mesh).1.boneIDsData[v * 4 + k]?
          = some (((firstFour (influencesOn bones mesh.mBones v)).map Prod.fst).getD k (-1)))
    ∧ (influencesOn bones mesh.mBones v = [] → ∀ k, k < 4 →
        (skinData bones mesh).1.boneIDsData[v * 4 + k]? = some (-1)
        ∧ (skinData bones mesh).1.boneWeightsData[v * 4 + k]? = some 0) := by
  have h := skinData_inv bones mesh v hv
  have hW : ∀ k, k < 4 → v * 4 + k < (skinData bones mesh).1.boneWeightsData.length := by
    intro k hk; rw [h.weightsLength]; omega
  have hI : ∀ k, k < 4 → v * 4 + k < (skinData bones mesh).1.boneIDsData.length := by
    intro k hk; rw [h.idsLength]; omega
  refine ⟨h.weightsLength, h.idsLength, ?_, ?_, ?_⟩
  · intro k hk
    rw [getElem?_of_getD _ _ 0 (hW k hk)]
    exact congrArg some (h.weights k hk)
  · intro k hk
    have hk4 : k < 4 := lt_of_lt_of_le hk (firstFour_length_le _)
    rw [getElem?_of_getD _ _ (-1) (hI k hk4)]
    exact congrArg some (h.ids k hk)
  · intro hnone k hk
    constructor
    · rw [getElem?_of_getD _ _ (-1) (hI k hk)]
      exact congrArg some (h.untouched hnone k hk)
    · rw [getElem?_of_getD _ _ 0 (hW k hk)]
      have := h.weights k hk
      rw [hnone] at this
      exact congrArg some this

/-- C14 applied to vertex `1` of `crowdedMesh`. -/
theorem skinData_reference_witness :
    (skinData sampleModel.bones crowdedMesh).1.boneWeightsData.length = 3 * 4
    ∧ (∀ k, k < 4 → (skinData sampleModel.bones crowdedMesh).1.boneWeightsData[1 * 4 + k]?
        = some (([5, 4, 3, 2] : List ℚ).getD k 0))
    ∧ (∀ k, k < 4 → (skinData sampleModel.bones crowdedMesh).1.boneIDsData[1 * 4 + k]?
        = some (([0, 1, 1, 0] : List Int).getD k (-1))) := by
  have h := skinData_reference sampleModel.bones crowdedMesh 1 (by decide)
  have hfour : firstFour (influencesOn sampleModel.bones crowdedMesh.mBones 1)
      = [(0, 5), (1, 4), (1, 3), (0, 2)] := by decide
  rw [hfour] at h
  exact ⟨h.1, h.2.2.1, h.2.2.2.1⟩

theorem full_vertex_weights_fold (v : Nat) (boneIndex : Int) (ws : List (aiVertexWeight K)) :
    ∀ (m : Mesh K), (∀ k, k < 4 → slotWeight m v k ≠ 0) →
      ∀ k, k < 4 →
        slotWeight (ws.foldl
          (fun m weight => fillSlot weight.mVertexId weight.mWeight boneIndex m [0, 1, 2, 3])
          m) v k = slotWeight m v k
        ∧ slotId (ws.foldl
          (fun m weight => fillSlot weight.mVertexId weight.mWeight boneIndex m [0, 1, 2, 3])
          m) v k = slotId m v k := by
  induction ws with
  | nil => intro m _ k _; exact ⟨rfl, rfl⟩
  | cons w rest ih =>
    intro m hfull k hk
    rw [List.foldl_cons]
    by_cases hw : w.mVertexId = v
    · rw [hw, fillSlot_full v w.mWeight boneIndex m hfull]
      exact ih m hfull k hk
    · have hstep := fillSlot_other w.mVertexId v w.mWeight boneIndex m [0, 1, 2, 3]
        (by decide) hw
      have hfull' : ∀ k, k < 4 →
          slotWeight (fillSlot w.mVertexId w.mWeight boneIndex m [0, 1, 2, 3]) v k ≠ 0 := by
        intro k' hk'
        rw [(hstep k' hk').1]
        exact hfull k' hk'
      obtain ⟨h1, h2⟩ := ih _ hfull' k hk
      exact ⟨h1.trans (hstep k hk).1, h2.trans (hstep k hk).2⟩

theorem full_vertex_bones_fold (bones : List (Bone K)) (v : Nat) (more : List (aiBone K)) :
    ∀ (acc : Mesh K × List Diagnostic), (∀ k, k < 4 → slotWeight acc.1 v k ≠ 0) →
      ∀ k, k < 4 →
        slotWeight (more.foldl (skinBone bones) acc).1 v k = slotWeight acc.1 v k
        ∧ slotId (more.foldl (skinBone bones) acc).1 v k = slotId acc.1 v k := by
  induction more with
  | nil => intro acc _ k _; exact ⟨rfl, rfl⟩
  | cons b rest ih =>
    intro acc hfull k hk
    rw [List.foldl_cons]
    have hstep : ∀ k, k < 4 →
        slotWeight (skinBone bones acc b).1 v k = slotWeight acc.1 v k
        ∧ slotId (skinBone bones acc b).1 v k = slotId acc.1 v k := by
      intro k' hk'
      unfold skinBone
      cases findBone bones b.mName with
      | none => exact ⟨rfl, rfl⟩
      | some bone => exact full_vertex_weights_fold v bone.id b.mWeights acc.1 hfull k' hk'
    have hfull' : ∀ k, k < 4 → slotWeight (skinBone bones acc b).1 v k ≠ 0 := by
      intro k' hk'
      rw [(hstep k' hk').1]
      exact hfull k' hk'
    obtain ⟨h1, h2⟩ := ih _ hfull' k hk
    exact ⟨h1.trans (hstep k hk).1, h2.trans (hstep k hk).2⟩

theorem weights_fold_lengths (boneIndex : Int) (ws : List (aiVertexWeight K)) (m : Mesh K) :
    (ws.foldl
      (fun m weight => fillSlot weight.mVertexId weight.mWeight boneIndex m [0, 1, 2, 3])
      m).boneWeightsData.length = m.boneWeightsData.length
    ∧ (ws.foldl
      (fun m weight => fillSlot weight.mVertexId weight.mWeight boneIndex m [0, 1, 2, 3])
      m).boneIDsData.length = m.boneIDsData.length := by
  induction ws generalizing m with
  | nil => exact ⟨rfl, rfl⟩
  | cons w rest ih =>
    rw [List.foldl_cons]
    obtain ⟨h1, h2⟩ := ih (fillSlot w.mVertexId w.mWeight boneIndex m [0, 1, 2, 3])
    obtain ⟨k1, k2⟩ := fillSlot_lengths w.mVertexId w.mWeight boneIndex m [0, 1, 2, 3]
    exact ⟨h1.trans k1, h2.trans k2⟩

theorem skinBone_fold_lengths (bones : List (Bone K)) (decls : List (aiBone K))
    (acc : Mesh K × List Diagnostic) :
    (decls.foldl (skinBone bones) acc).1.boneWeightsData.length = acc.1.boneWeightsData.length
    ∧ (decls.foldl (skinBone bones) acc).1.boneIDsData.length = acc.1.boneIDsData.length := by
  induction decls generalizing acc with
  | nil => exact ⟨rfl, rfl⟩
  | cons b rest ih =>
    rw [List.foldl_cons]
    obtain ⟨h1, h2⟩ := ih (skinBone bones acc b)
    have hstep : (skinBone bones acc b).1.boneWeightsData.length = acc.1.boneWeightsData.length
        ∧ (skinBone bones acc b).1.boneIDsData.length = acc.1.boneIDsData.length := by
      unfold skinBone
      cases findBone bones b.mName with
      | none => exact ⟨rfl, rfl⟩
      | some bone => exact weights_fold_lengths bone.id b.mWeights acc.1
    exact ⟨h1.trans hstep.1, h2.trans hstep.2⟩

theorem skinData_lengths (bones : List (Bone K)) (mesh : aiMesh K) :
    (skinData bones mesh).1.boneWeightsData.length = mesh.mNumVertices * 4
    ∧ (skinData bones mesh).1.boneIDsData.length = mesh.mNumVertices * 4 := by
  unfold skinData
  obtain ⟨h1, h2⟩ := skinBone_fold_lengths bones mesh.mBones
    ({ boneIDsData := List.replicate (mesh.mNumVertices * 4) (-1),
       boneWeightsData := List.replicate (mesh.mNumVertices * 4) 0 }, [])
  rw [h1, h2]
  simp

/-- C15: every vertex has exactly four slots in each array, so at most four
nonzero weights; and once the four slots of a vertex hold nonzero weights, a
further influence on that vertex leaves the whole mesh data unchanged, and
any further bones of the mesh leave the four ids and the four weights of the
vertex unchanged. -/
theorem full_vertex_drops_influences (bones : List (Bone K)) (m : Mesh K) (v : Nat)
    (hfull : ∀ k, k < 4 → slotWeight m v k ≠ 0) :
    (∀ (weight : K) (boneIndex : Int), fillSlot v weight boneIndex m [0, 1, 2, 3] = m)
    ∧ (∀ (more : List (aiBone K)) (diagnostics : List Diagnostic) (k : Nat), k < 4 →
        slotWeight (more.foldl (skinBone bones) (m, diagnostics)).1 v k = slotWeight m v k
        ∧ slotId (more.foldl (skinBone bones) (m, diagnostics)).1 v k = slotId m v k)
    ∧ (∀ (mesh : aiMesh K),
        (skinData bones mesh).1.boneWeightsData.length = mesh.mNumVertices * 4
        ∧ (skinData bones mesh).1.boneIDsData.length = mesh.mNumVertices * 4
        ∧ ∀ u, (((skinData bones mesh).1.boneWeightsData.drop (u * 4)).take 4).countP
            (fun weight => weight ≠ 0) ≤ 4) := by
  refine ⟨fun weight boneIndex => fillSlot_full v weight boneIndex m hfull, ?_, ?_⟩
  · intro more diagnostics k hk
    exact full_vertex_bones_fold bones v more (m, diagnostics) hfull k hk
  · intro mesh
    have hlen := skinData_lengths bones mesh
    refine ⟨hlen.1, hlen.2, ?_⟩
    intro u
    exact le_trans (List.countP_le_length _) (List.length_take_le _ _)

/-- C15 applied to vertex `1` of the data built for `crowdedMesh`, whose
four slots are taken. -/
theorem full_vertex_drops_influences_witness :
    (∀ (weight : ℚ) (boneIndex : Int),
      fillSlot 1 weight boneIndex (skinData sampleModel.bones crowdedMesh).1 [0, 1, 2, 3]
        = (skinData sampleModel.bones crowdedMesh).1)
    ∧ (skinData sampleModel.bones crowdedMesh).1.boneWeightsData
        = [0, 0, 0, 0, 5, 4, 3, 2, 0, 0, 0, 0] :=
  ⟨(full_vertex_drops_influences sampleModel.bones (skinData sampleModel.bones crowdedMesh).1 1
      (by decide)).1, by decide⟩

/-! ## Bones missing from the registry -/

theorem skinBone_fold_mesh (bones : List (Bone K)) (decls : List (aiBone K)) (m : Mesh K)
    (d d' : List Diagnostic) :
    (decls.foldl (skinBone bones) (m, d)).1 = (decls.foldl (skinBone bones) (m, d')).1 := by
  induction decls generalizing m d d' with
  | nil => rfl
  | cons bone rest ih =>
    rw [List.foldl_cons, List.foldl_cons]
    unfold skinBone
    cases findBone bones bone.mName with
    | none => exact ih _ _ _
    | some b => exact ih _ _ _

theorem skinBone_missing (bones : List (Bone K)) (acc : Mesh K × List Diagnostic) (bone : aiBone K)
    (h : findBone bones bone.mName = none) :
    skinBone bones acc bone = (acc.1, acc.2 ++ [Diagnostic.boneNotFound bone.mName]) := by
  unfold skinBone
  rw [h]

theorem skinBone_fold_diagnostics_mono (bones : List (Bone K)) (decls : List (aiBone K))
    (acc : Mesh K × List Diagnostic) (x : Diagnostic) (h : x ∈ acc.2) :
    x ∈ (decls.foldl (skinBone bones) acc).2 := by
  induction decls generalizing acc with
  | nil => exact h
  | cons bone rest ih =>
    rw [List.foldl_cons]
    apply ih
    unfold skinBone
    cases findBone bones bone.mName with
    | none => exact List.mem_append_left _ h
    | some b => exact h

/-- C16: a mesh bone whose name is not in the registry is skipped with a
warning: the bone-id and bone-weight arrays of `processMesh` for a mesh with
such a bone are those of the same mesh with that bone, and so all its vertex
weights, removed; the warning is written and the mesh is still appended. -/
theorem missing_bone_is_skipped (bones : List (Bone K)) (numVertices : Nat)
    (before after : List (aiBone K)) (bone : aiBone K)
    (h : findBone bones bone.mName = none) :
    (skinData bones ⟨numVertices, before ++ bone :: after⟩).1
      = (skinData bones ⟨numVertices, before ++ after⟩).1
    ∧ Diagnostic.boneNotFound bone.mName
        ∈ (skinData bones ⟨numVertices, before ++ bone :: after⟩).2
    ∧ (∀ s : State K, s.bones = bones →
        (processMesh s ⟨numVertices, before ++ bone :: after⟩).meshes
          = (processMesh s ⟨numVertices, before ++ after⟩).meshes) := by
  have hmesh : (skinData bones ⟨numVertices, before ++ bone :: after⟩).1
      = (skinData bones ⟨numVertices, before ++ after⟩).1 := by
    unfold skinData
    dsimp only
    rw [List.foldl_append, List.foldl_append, List.foldl_cons, skinBone_missing _ _ _ h]
    exact skinBone_fold_mesh bones after _ _ _
  refine ⟨hmesh, ?_, ?_⟩
  · unfold skinData
    dsimp only
    rw [List.foldl_append, List.foldl_cons, skinBone_missing _ _ _ h]
    exact skinBone_fold_diagnostics_mono _ _ _ _ (List.mem_append_right _ (List.mem_singleton_self _))
  · intro s hs
    unfold processMesh
    dsimp only
    rw [hs, hmesh]

/-- C16 applied to `crowdedMesh`, whose third bone `Ghost` is not registered
in `sampleModel`. -/
theorem missing_bone_is_skipped_witness :
    (skinData sampleModel.bones crowdedMesh).1
      = (skinData sampleModel.bones
          ⟨3, [⟨"Root", identityMatrix, [⟨1, 5⟩]⟩,
               ⟨"Hand", identityMatrix, [⟨1, 4⟩, ⟨1, 3⟩]⟩,
               ⟨"Root", identityMatrix, [⟨1, 2⟩]⟩,
               ⟨"Hand", identityMatrix, [⟨1, 1⟩]⟩]⟩).1
    ∧ Diagnostic.boneNotFound "Ghost" ∈ (skinData sampleModel.bones crowdedMesh).2 :=
  have h := missing_bone_is_skipped sampleModel.bones 3
    [⟨"Root", identityMatrix, [⟨1, 5⟩]⟩, ⟨"Hand", identityMatrix, [⟨1, 4⟩, ⟨1, 3⟩]⟩]
    [⟨"Root", identityMatrix, [⟨1, 2⟩]⟩, ⟨"Hand", identityMatrix, [⟨1, 1⟩]⟩]
    ⟨"Ghost", identityMatrix, [⟨0, 1⟩]⟩ rfl
  ⟨h.1, h.2.1⟩

/-! ## Repeated bone declarations -/

theorem loadBone_of_mem (s : State K) (bone : aiBone K)
    (h : bone.mName ∈ s.bones.map Bone.name) : loadBone s bone = s := by
  have hn : ¬ (findBone s.bones bone.mName).isNone = true := by
    rw [findBone_isNone_iff]
    exact not_not.mpr h
  simp [loadBone, hn]

theorem loadBone_names_mono (s : State K) (bone : aiBone K) (n : String)
    (h : n ∈ s.bones.map Bone.name) : n ∈ (loadBone s bone).bones.map Bone.name := by
  unfold loadBone
  split
  · simp only [List.map_append, List.mem_append]
    exact Or.inl h
  · exact h

theorem loadBone_registers (s : State K) (bone : aiBone K) :
    bone.mName ∈ (loadBone s bone).bones.map Bone.name := by
  by_cases h : bone.mName ∈ s.bones.map Bone.name
  · rw [loadBone_of_mem s bone h]; exact h
  · have hn : (findBone s.bones bone.mName).isNone = true := by
      rw [findBone_isNone_iff]; exact h
    simp [loadBone, hn]

theorem loadBone_fold_names_mono (decls : List (aiBone K)) (s : State K) (n : String)
    (h : n ∈ s.bones.map Bone.name) : n ∈ (decls.foldl loadBone s).bones.map Bone.name := by
  induction decls generalizing s with
  | nil => exact h
  | cons d rest ih => exact ih _ (loadBone_names_mono s d n h)

theorem loadBone_fold_registers (decls : List (aiBone K)) (s : State K) :
    ∀ d ∈ decls, d.mName ∈ (decls.foldl loadBone s).bones.map Bone.name := by
  induction decls generalizing s with
  | nil => intro d hd; simp at hd
  | cons d0 rest ih =>
    intro d hd
    rw [List.foldl_cons]
    rcases List.mem_cons.mp hd with hd | hd
    · subst hd
      exact loadBone_fold_names_mono rest _ _ (loadBone_registers s d)
    · exact ih _ d hd

theorem loadBone_fold_of_mem (decls : List (aiBone K)) (s : State K)
    (h : ∀ d ∈ decls, d.mName ∈ s.bones.map Bone.name) : decls.foldl loadBone s = s := by
  induction decls with
  | nil => rfl
  | cons d rest ih =>
    rw [List.foldl_cons, loadBone_of_mem s d (h d (List.mem_cons_self _ _))]
    exact ih (fun d' hd' => h d' (List.mem_cons_of_mem _ hd'))

/-- C17: when the name of a bone declaration is already registered,
`loadBone` returns the state it was given: the registered bone keeps its id
and the offset matrix of its first registration (the declaration's own offset
matrix is ignored), `boneCounter` is not advanced and no other bone changes.
Hence a mesh all of whose bones are registered leaves the state unchanged, and
running `loadBones` on any mesh a second time changes nothing. -/
theorem loadBone_registered_unchanged (s : State K) (bone : aiBone K) (b : Bone K)
    (h : findBone s.bones bone.mName = some b) :
    loadBone s bone = s
    ∧ (∀ mesh : aiMesh K, (∀ d ∈ mesh.mBones, d.mName ∈ s.bones.map Bone.name) →
        loadBones s mesh = s)
    ∧ (∀ (mesh : aiMesh K) (t : State K), loadBones (loadBones t mesh) mesh = loadBones t mesh) := by
  have hmem : bone.mName ∈ s.bones.map Bone.name := by
    have := (findBone_mem h)
    exact List.mem_map.mpr ⟨b, this.1, this.2⟩
  refine ⟨loadBone_of_mem s bone hmem, ?_, ?_⟩
  · intro mesh hall
    exact loadBone_fold_of_mem _ _ hall
  · intro mesh t
    unfold loadBones
    exact loadBone_fold_of_mem _ _ (loadBone_fold_registers mesh.mBones t)

/-- C17 applied to `sampleModel` and a second declaration of `Hand` with
another offset matrix. -/
theorem loadBone_registered_unchanged_witness :
    loadBone sampleModel ⟨"Hand", { identityMatrix with a4 := 5 }, []⟩ = sampleModel
    ∧ (∀ mesh : aiMesh ℚ, (∀ d ∈ mesh.mBones, d.mName ∈ sampleModel.bones.map Bone.name) →
        loadBones sampleModel mesh = sampleModel)
    ∧ (∀ (mesh : aiMesh ℚ) (t : State ℚ), loadBones (loadBones t mesh) mesh = loadBones t mesh) :=
  loadBone_registered_unchanged sampleModel ⟨"Hand", { identityMatrix with a4 := 5 }, []⟩
    ⟨"Hand", 1, convertMatrix identityMatrix, 1⟩ rfl

/-! ## Loaded clips -/

/-- C18: `loadAnimations` appends one stored clip per imported animation, in
order; each stores `ticksPerSecond = 25` when the source's `mTicksPerSecond`
is zero and the source's value otherwise, and stores the source's `mDuration`
as its duration. -/
theorem loadAnimations_rate_and_duration (sceneAnimations : List (aiAnimation K)) (s : State K) :
    (loadAnimations sceneAnimations s).animations
      = s.animations ++ sceneAnimations.map loadAnimation
    ∧ (sceneAnimations.map loadAnimation).map Animation.ticksPerSecond
      = sceneAnimations.map
          (fun anim => if anim.mTicksPerSecond = 0 then 25 else anim.mTicksPerSecond)
    ∧ (sceneAnimations.map loadAnimation).map Animation.duration
      = sceneAnimations.map aiAnimation.mDuration := by
  refine ⟨rfl, ?_, ?_⟩
  · rw [List.map_map]
    apply List.map_congr_left
    intro anim _
    exact loadAnimation_ticksPerSecond anim
  · rw [List.map_map]
    apply List.map_congr_left
    intro anim _
    exact loadAnimation_duration anim

/-! ## A failed import -/

/-- C19, the code at a failed import: for a null scene, an incomplete scene
and a scene without root node the constructor registers no bone, mesh, clip
or matrix, but it leaves `shaderProgram` at the handle `glCreateProgram`
returned, so with the handle `1` the member is not zero and the test of
`main` does not see the failure. -/
theorem failed_load_keeps_program (program : Nat) (root : Option (aiNode K))
    (meshes : List (aiMesh K)) (animations : List (aiAnimation K)) :
    ((construct program none : State K).shaderProgram = program
      ∧ (construct program none : State K).bones = [] ∧ (construct program none : State K).meshes = []
      ∧ (construct program none : State K).animations = []
      ∧ (construct program none : State K).boneTransforms = [])
    ∧ ((construct program (some ⟨true, root, meshes, animations⟩)).shaderProgram = program
      ∧ (construct program (some ⟨true, root, meshes, animations⟩)).bones = []
      ∧ (construct program (some ⟨true, root, meshes, animations⟩)).meshes = []
      ∧ (construct program (some ⟨true, root, meshes, animations⟩)).animations = []
      ∧ (construct program (some ⟨true, root, meshes, animations⟩)).boneTransforms = [])
    ∧ ((construct program (some ⟨false, none, meshes, animations⟩)).shaderProgram = program
      ∧ (construct program (some ⟨false, none, meshes, animations⟩)).bones = []
      ∧ (construct program (some ⟨false, none, meshes, animations⟩)).meshes = []
      ∧ (construct program (some ⟨false, none, meshes, animations⟩)).animations = []
      ∧ (construct program (some ⟨false, none, meshes, animations⟩)).boneTransforms = [])
    ∧ (construct 1 none : State K).shaderProgram ≠ 0
    ∧ loadingFailed (construct 1 none : State K) = false
    ∧ (construct 1 none : State K).errors = [Diagnostic.errorLoadingModel] := by
  refine ⟨⟨rfl, rfl, rfl, rfl, rfl⟩, ?_, ⟨rfl, rfl, rfl, rfl, rfl⟩,
    (show (1 : Nat) ≠ 0 by decide), rfl, rfl⟩
  cases root <;> exact ⟨rfl, rfl, rfl, rfl, rfl⟩

/-! ## The end-to-end scenario -/

theorem findFrame_cases {α : Type} [Inhabited α] (keys : List (Key K α)) (animTime : K)
    (hn : 2 ≤ keys.length) :
    (findFrame keys animTime + 1 < keys.length
      ∧ animTime < (keyAt keys (findFrame keys animTime + 1)).mTime
      ∧ ∀ i, i < findFrame keys animTime → (keyAt keys (i + 1)).mTime ≤ animTime)
    ∨ (findFrame keys animTime = 0
      ∧ ∀ i, i + 1 < keys.length → (keyAt keys (i + 1)).mTime ≤ animTime) := by
  cases keys with
  | nil => simp at hn
  | cons k0 rest =>
    by_cases h : ∃ k ∈ rest, animTime < k.mTime
    · left
      obtain ⟨j, hj, hres, hfound, hmin⟩ := findFrameLoop_found animTime rest 0 h
      have hf : findFrame (k0 :: rest) animTime = j := by
        unfold findFrame
        rw [List.tail_cons, hres, Nat.zero_add]
      rw [hf]
      refine ⟨by simp only [List.length_cons]; omega, ?_, ?_⟩
      · rw [keyAt_cons_succ]; exact hfound
      · intro i hi
        rw [keyAt_cons_succ]
        exact hmin i hi
    · right
      have hall : ∀ k ∈ rest, k.mTime ≤ animTime := by
        intro k hk
        exact not_lt.mp (fun hlt => h ⟨k, hk, hlt⟩)
      refine ⟨?_, ?_⟩
      · unfold findFrame
        rw [List.tail_cons]
        exact findFrameLoop_not_found animTime rest 0 hall
      · intro i hi
        rw [keyAt_cons_succ]
        exact hall _ (keyAt_mem rest i (by simp only [List.length_cons] at hi; omega))

theorem translationMatrix_scan (positionKeys : List (aiVectorKey K)) (animTime : K)
    (hn : 2 ≤ positionKeys.length) :
    translationMatrix (some positionKeys) animTime
      = if snaps positionKeys (findFrame positionKeys animTime) then
          translate 1 (vec3 (keyAt positionKeys (findFrame positionKeys animTime)).mValue)
        else
          (factor positionKeys (findFrame positionKeys animTime) animTime).elim 1
            (fun t => translate 1 (mix (vec3 (keyAt positionKeys (findFrame positionKeys animTime)).mValue)
              (vec3 (keyAt positionKeys (nextFrame positionKeys (findFrame positionKeys animTime))).mValue) t)) := by
  have h0 : positionKeys.isEmpty = false := by
    cases positionKeys with
    | nil => simp at hn
    | cons k rest => rfl
  have h1 : ¬ positionKeys.length = 1 := by omega
  simp only [translationMatrix, h0, h1, if_false, Bool.false_eq_true]
  split
  · rfl
  · cases factor positionKeys (findFrame positionKeys animTime) animTime <;> rfl

theorem rotationMatrix_scan (slerp : Quat K → Quat K → K → Quat K) (rotationKeys : List (aiQuatKey K))
    (animTime : K) (hn : 2 ≤ rotationKeys.length) :
    rotationMatrix slerp (some rotationKeys) animTime
      = if snaps rotationKeys (findFrame rotationKeys animTime) then
          mat4_cast (quat (keyAt rotationKeys (findFrame rotationKeys animTime)).mValue)
        else
          (factor rotationKeys (findFrame rotationKeys animTime) animTime).elim 1
            (fun t => mat4_cast (slerp (quat (keyAt rotationKeys (findFrame rotationKeys animTime)).mValue)
              (quat (keyAt rotationKeys (nextFrame rotationKeys (findFrame rotationKeys animTime))).mValue) t)) := by
  have h0 : rotationKeys.isEmpty = false := by
    cases rotationKeys with
    | nil => simp at hn
    | cons k rest => rfl
  have h1 : ¬ rotationKeys.length = 1 := by omega
  simp only [rotationMatrix, h0, h1, if_false, Bool.false_eq_true]
  split
  · rfl
  · cases factor rotationKeys (findFrame rotationKeys animTime) animTime <;> rfl

theorem scaleMatrix_scan (scaleKeys : List (aiVectorKey K)) (animTime : K)
    (hn : 2 ≤ scaleKeys.length) :
    scaleMatrix (some scaleKeys) animTime
      = if snaps scaleKeys (findFrame scaleKeys animTime) then
          scale 1 (vec3 (keyAt scaleKeys (findFrame scaleKeys animTime)).mValue)
        else
          (factor scaleKeys (findFrame scaleKeys animTime) animTime).elim 1
            (fun t => scale 1 (mix (vec3 (keyAt scaleKeys (findFrame scaleKeys animTime)).mValue)
              (vec3 (keyAt scaleKeys (nextFrame scaleKeys (findFrame scaleKeys animTime))).mValue) t)) := by
  have h0 : scaleKeys.isEmpty = false := by
    cases scaleKeys with
    | nil => simp at hn
    | cons k rest => rfl
  have h1 : ¬ scaleKeys.length = 1 := by omega
  simp only [scaleMatrix, h0, h1, if_false, Bool.false_eq_true]
  split
  · rfl
  · cases factor scaleKeys (findFrame scaleKeys animTime) animTime <;> rfl

/-- C21: for a track of at least two keyframes, with times in any order, and
every query time, the frame chosen by the scan is the least `i` in
`[0, n - 2]` with `animTime < key[i + 1].time`, and it is `0` when there is no
such `i`.  The position, rotation and scale blocks each use the frame that
this scan gives on their own track: the block snaps to the key of that frame
or interpolates from it with the factor computed for it, and is left at the
identity when that factor is not a number. -/
theorem findFrame_is_least {α : Type} [Inhabited α] (keys : List (Key K α)) (animTime : K)
    (hn : 2 ≤ keys.length) :
    ((∃ i, i ≤ keys.length - 2 ∧ animTime < (keyAt keys (i + 1)).mTime) →
      IsLeast {i | i ≤ keys.length - 2 ∧ animTime < (keyAt keys (i + 1)).mTime}
        (findFrame keys animTime))
    ∧ ((¬ ∃ i, i ≤ keys.length - 2 ∧ animTime < (keyAt keys (i + 1)).mTime) →
      findFrame keys animTime = 0)
    ∧ (∀ (slerp : Quat K → Quat K → K → Quat K) (positionKeys scaleKeys : List (aiVectorKey K))
        (rotationKeys : List (aiQuatKey K)),
        2 ≤ positionKeys.length → 2 ≤ rotationKeys.length → 2 ≤ scaleKeys.length →
        translationMatrix (some positionKeys) animTime
          = (if snaps positionKeys (findFrame positionKeys animTime) then
              translate 1 (vec3 (keyAt positionKeys (findFrame positionKeys animTime)).mValue)
            else
              (factor positionKeys (findFrame positionKeys animTime) animTime).elim 1
            (fun t => translate 1 (mix (vec3 (keyAt positionKeys (findFrame positionKeys animTime)).mValue)
              (vec3 (keyAt positionKeys (nextFrame positionKeys (findFrame positionKeys animTime))).mValue) t)))
        ∧ rotationMatrix slerp (some rotationKeys) animTime
          = (if snaps rotationKeys (findFrame rotationKeys animTime) then
              mat4_cast (quat (keyAt rotationKeys (findFrame rotationKeys animTime)).mValue)
            else
              (factor rotationKeys (findFrame rotationKeys animTime) animTime).elim 1
            (fun t => mat4_cast (slerp (quat (keyAt rotationKeys (findFrame rotationKeys animTime)).mValue)
              (quat (keyAt rotationKeys (nextFrame rotationKeys (findFrame rotationKeys animTime))).mValue) t)))
        ∧ scaleMatrix (some scaleKeys) animTime
          = (if snaps scaleKeys (findFrame scaleKeys animTime) then
              scale 1 (vec3 (keyAt scaleKeys (findFrame scaleKeys animTime)).mValue)
            else
              (factor scaleKeys (findFrame scaleKeys animTime) animTime).elim 1
            (fun t => scale 1 (mix (vec3 (keyAt scaleKeys (findFrame scaleKeys animTime)).mValue)
              (vec3 (keyAt scaleKeys (nextFrame scaleKeys (findFrame scaleKeys animTime))).mValue) t)))) := by
  refine ⟨?_, ?_, ?_⟩
  · rintro ⟨i0, hi0, hlt0⟩
    rcases findFrame_cases keys animTime hn with ⟨hlen, hfound, hmin⟩ | ⟨_, hall⟩
    · refine ⟨⟨by omega, hfound⟩, ?_⟩
      rintro i ⟨_, hlt⟩
      by_contra hcon
      exact absurd hlt (not_lt.mpr (hmin i (by omega)))
    · exact absurd hlt0 (not_lt.mpr (hall i0 (by omega)))
  · intro hnone
    rcases findFrame_cases keys animTime hn with ⟨hlen, hfound, _⟩ | ⟨hzero, _⟩
    · exact absurd ⟨findFrame keys animTime, by omega, hfound⟩ hnone
    · exact hzero
  · intro slerp positionKeys scaleKeys rotationKeys hp hr hs
    exact ⟨translationMatrix_scan positionKeys animTime hp,
      rotationMatrix_scan slerp rotationKeys animTime hr,
      scaleMatrix_scan scaleKeys animTime hs⟩

/-- The scan applied to `threeKeys` at the time `1`: among the frames `i` with
`1 < key[i + 1].time` the least one, `1`, is chosen. -/
theorem findFrame_is_least_witness :
    2 ≤ threeKeys.length
    ∧ IsLeast {i | i ≤ threeKeys.length - 2 ∧ (1 : ℚ) < (keyAt threeKeys (i + 1)).mTime}
        (findFrame threeKeys 1)
    ∧ findFrame threeKeys 1 = 1 :=
  ⟨by decide, (findFrame_is_least threeKeys 1 (by decide)).1 ⟨1, by decide, by decide⟩,
    by decide⟩

/-- C22, amended: for a track of at least two keyframes with non-decreasing
times and a query time inside its span, `key[0].time <= animTime <
key[n-1].time`, the selected segment brackets the query time,
`key[frame].time <= animTime < key[frame+1].time`, the interpolating branch
is taken with a positive divisor, the quotient `q` of the factor satisfies
`0 <= q < 1`, and the factor `t`, the `float` nearest to `q`, is a number
that satisfies `0 <= t <= 1`.  The proof makes no use of the order of the
times. -/
theorem selected_segment_brackets_time {α : Type} [Inhabited α] (keys : List (Key K α))
    (animTime : K) (hn : 2 ≤ keys.length) (_hsorted : NonDecreasing keys)
    (h0 : (keyAt keys 0).mTime ≤ animTime)
    (hlast : animTime < (keyAt keys (keys.length - 1)).mTime) :
    (keyAt keys (findFrame keys animTime)).mTime ≤ animTime
    ∧ animTime < (keyAt keys (findFrame keys animTime + 1)).mTime
    ∧ nextFrame keys (findFrame keys animTime) = findFrame keys animTime + 1
    ∧ snaps keys (findFrame keys animTime) = false
    ∧ 0 < segmentLength keys (findFrame keys animTime)
    ∧ 0 ≤ (animTime - (keyAt keys (findFrame keys animTime)).mTime)
          / segmentLength keys (findFrame keys animTime)
    ∧ (animTime - (keyAt keys (findFrame keys animTime)).mTime)
          / segmentLength keys (findFrame keys animTime) < 1
    ∧ ∃ t, factor keys (findFrame keys animTime) animTime = some t
        ∧ t = roundFloat ((animTime - (keyAt keys (findFrame keys animTime)).mTime)
              / segmentLength keys (findFrame keys animTime))
        ∧ 0 ≤ t ∧ t ≤ 1 := by
  obtain ⟨hlt, hlo, hhi⟩ := findFrame_bracket keys animTime hn h0 hlast
  have hnext := nextFrame_eq_succ keys _ hlt
  obtain ⟨hpos, hfac⟩ := factor_bracket keys animTime hn h0 hlast
  refine ⟨hlo, hhi, hnext, ?_, hpos, ?_, ?_, hfac⟩
  · exact (snaps_eq_false_iff keys _ hn).mpr (ne_of_gt hpos)
  · exact div_nonneg (by linarith) (le_of_lt hpos)
  · rw [div_lt_one hpos]
    unfold segmentLength
    rw [hnext]
    linarith

/-- The amended C22 applied to `threeKeys` at the time `1`, the start of its
second segment. -/
theorem selected_segment_brackets_time_witness :
    (keyAt threeKeys (findFrame threeKeys 1)).mTime ≤ 1
    ∧ (1 : ℚ) < (keyAt threeKeys (findFrame threeKeys 1 + 1)).mTime
    ∧ nextFrame threeKeys (findFrame threeKeys 1) = findFrame threeKeys 1 + 1
    ∧ snaps threeKeys (findFrame threeKeys 1) = false
    ∧ 0 < segmentLength threeKeys (findFrame threeKeys 1)
    ∧ 0 ≤ (1 - (keyAt threeKeys (findFrame threeKeys 1)).mTime)
          / segmentLength threeKeys (findFrame threeKeys 1)
    ∧ (1 - (keyAt threeKeys (findFrame threeKeys 1)).mTime)
          / segmentLength threeKeys (findFrame threeKeys 1) < 1
    ∧ ∃ t, factor threeKeys (findFrame threeKeys 1) 1 = some t
        ∧ t = roundFloat ((1 - (keyAt threeKeys (findFrame threeKeys 1)).mTime)
              / segmentLength threeKeys (findFrame threeKeys 1))
        ∧ 0 ≤ t ∧ t ≤ 1 :=
  selected_segment_brackets_time threeKeys 1 (by decide) (by decide) (by decide) (by decide)

/-- C22, counterexample: on the non-decreasing track `nearEndKeys`, with keys
at the times `0` and `0.7`, the query time `0.7f = 11744051 / 2 ^ 24` lies
inside the span, the interpolating branch is taken, and the factor stored in
`float t` is `1`: the quotient, about `1 - 1.7e-8`, is nearer to `1` than to
the `float` below it. -/
theorem factor_reaches_one :
    2 ≤ nearEndKeys.length ∧ NonDecreasing nearEndKeys
    ∧ (keyAt nearEndKeys 0).mTime ≤ 11744051 / 16777216
    ∧ (11744051 / 16777216 : ℚ) < (keyAt nearEndKeys (nearEndKeys.length - 1)).mTime
    ∧ snaps nearEndKeys (findFrame nearEndKeys (11744051 / 16777216)) = false
    ∧ factor nearEndKeys (findFrame nearEndKeys (11744051 / 16777216)) (11744051 / 16777216)
        = some 1
    ∧ ¬ ((1 : ℚ) < 1) := by
  have hf : findFrame nearEndKeys (11744051 / 16777216) = 0 := by
    simp only [findFrame, nearEndKeys, List.tail_cons, findFrameLoop]
    split <;> rfl
  have hseg : segmentLength nearEndKeys 0 = 3152519739159347 / 4503599627370496 := by
    simp [segmentLength, nextFrame, keyAt, nearEndKeys]
  have hk0 : (keyAt nearEndKeys 0).mTime = 0 := rfl
  have hk1 : (keyAt nearEndKeys (nearEndKeys.length - 1)).mTime
      = 3152519739159347 / 4503599627370496 := rfl
  refine ⟨by decide, ?_, ?_, ?_, ?_, ?_, lt_irrefl 1⟩
  · simp only [NonDecreasing, nearEndKeys, List.pairwise_cons, List.mem_singleton,
      List.not_mem_nil, forall_eq, List.Pairwise.nil, and_true]
    constructor
    · norm_num
    · intro a h
      exact absurd h (by simp)
  · rw [hk0]
    norm_num
  · rw [hk1]
    norm_num
  · rw [hf]
    exact (snaps_eq_false_iff nearEndKeys 0 (by decide)).mpr (by rw [hseg]; norm_num)
  · rw [hf, factor_of_ne_zero _ _ _ (by rw [hseg]; norm_num), hseg, hk0]
    exact toFloat_of_roundFloat_eq
      (roundFloat_near_one _ (by norm_num) (by norm_num)) (by norm_num)

/-- C23: for a track of at least two keyframes, well-formed or not, and every
query time, the selected frame is at most `n - 2`, `nextFrame = (frame + 1) mod
n` is `frame + 1` and at most `n - 1`, so the modulo never wraps to index `0`,
and both `key[frame]` and `key[nextFrame]` are elements of the track: every
read of the interpolator is in bounds. -/
theorem frame_and_next_in_bounds {α : Type} [Inhabited α] (keys : List (Key K α))
    (animTime : K) (hn : 2 ≤ keys.length) :
    findFrame keys animTime ≤ keys.length - 2
    ∧ nextFrame keys (findFrame keys animTime) = findFrame keys animTime + 1
    ∧ nextFrame keys (findFrame keys animTime) ≤ keys.length - 1
    ∧ nextFrame keys (findFrame keys animTime) ≠ 0
    ∧ keys[findFrame keys animTime]? = some (keyAt keys (findFrame keys animTime))
    ∧ keys[nextFrame keys (findFrame keys animTime)]?
        = some (keyAt keys (nextFrame keys (findFrame keys animTime))) := by
  have hlt : findFrame keys animTime + 1 < keys.length := by
    rcases findFrame_cases keys animTime hn with ⟨hlen, _, _⟩ | ⟨hzero, _⟩
    · exact hlen
    · rw [hzero]; omega
  have hnext := nextFrame_eq_succ keys _ hlt
  refine ⟨by omega, hnext, by omega, by omega, ?_, ?_⟩
  · unfold keyAt
    rw [List.getD_eq_getElem _ _ (by omega), List.getElem?_eq_getElem]
  · rw [hnext]
    unfold keyAt
    rw [List.getD_eq_getElem _ _ hlt, List.getElem?_eq_getElem]

/-- C23 applied to the track `threeKeys` at the time `5`, past its last
keyframe. -/
theorem frame_and_next_in_bounds_witness :
    findFrame threeKeys 5 ≤ threeKeys.length - 2
    ∧ nextFrame threeKeys (findFrame threeKeys 5) = findFrame threeKeys 5 + 1
    ∧ nextFrame threeKeys (findFrame threeKeys 5) ≤ threeKeys.length - 1
    ∧ nextFrame threeKeys (findFrame threeKeys 5) ≠ 0
    ∧ threeKeys[findFrame threeKeys 5]? = some (keyAt threeKeys (findFrame threeKeys 5))
    ∧ threeKeys[nextFrame threeKeys (findFrame threeKeys 5)]?
        = some (keyAt threeKeys (nextFrame threeKeys (findFrame threeKeys 5))) :=
  frame_and_next_in_bounds threeKeys 5 (by decide)

/-! ## Nodes that are not bones, bones without keyframes, ids out of range -/

theorem nodeTransformation_non_bone (slerp : Quat K → Quat K → K → Quat K) (s : State K)
    (nodeName : String) (mTransformation : aiMatrix4x4 K)
    (h : findBone s.bones nodeName = none) :
    nodeTransformation slerp s nodeName mTransformation = convertMatrix mTransformation := by
  unfold nodeTransformation
  rw [h]
  rfl

theorem nodeTransformation_bone (slerp : Quat K → Quat K → K → Quat K) (s : State K)
    (nodeName : String) (mTransformation : aiMatrix4x4 K) {bone : Bone K} {anim : Animation K}
    {rest : List (Animation K)} (h : findBone s.bones nodeName = some bone)
    (hanim : s.animations = anim :: rest) :
    nodeTransformation slerp s nodeName mTransformation
      = getInterpolatedBoneTransform slerp anim nodeName s.animationTime := by
  unfold nodeTransformation
  rw [h, hanim]
  rfl

theorem writeBone_non_bone (s : State K) (nodeName : String) (g : Mat4 K)
    (h : findBone s.bones nodeName = none) : writeBone s nodeName g = s := by
  unfold writeBone
  rw [h]

theorem writeBone_in_range (s : State K) (nodeName : String) (g : Mat4 K) {bone : Bone K}
    (h : findBone s.bones nodeName = some bone) (hlt : bone.id < s.boneTransforms.length) :
    (writeBone s nodeName g).boneTransforms
      = s.boneTransforms.set bone.id (g * bone.offsetMatrix) := by
  unfold writeBone
  rw [h]
  dsimp only
  rw [if_pos hlt]

/-- C24: a node that is not a registered bone leaves the state as it is and
hands `parentTransform * M`, with `M` its own bind-pose transformation, to its
children.  In every reachable state with a clip whose tree is a non-bone
root with transformation `M` and one childless child that is the registered
bone `B`, for a frame whose new clock is the number `time`, `updateAnimation`
returns a state with that clock in which `boneTransforms` differs from the
previous array in the entry `B.id` alone, which is `M * local_B *
B.offsetMatrix` with `local_B` the interpolated transform of `B` at the new
clock. -/
theorem non_bone_node_passes_bind_pose (slerp : Quat K → Quat K → K → Quat K) (s : State K)
    (deltaTime time : K) (anim : Animation K) (rest : List (Animation K))
    (rootName childName : String) (M childTransformation : aiMatrix4x4 K)
    (rootMeshes childMeshes : List Nat) (B : Bone K)
    (hreach : Reachable slerp s)
    (hanim : s.animations = anim :: rest)
    (htime : advanceClock s.animationTime deltaTime anim = some time)
    (hroot : s.rootNode = some (.mk rootName M rootMeshes
      [.mk childName childTransformation childMeshes []]))
    (hR : findBone s.bones rootName = none)
    (hB : findBone s.bones childName = some B) :
    (∀ (s0 : State K) (children : List (aiNode K)) (parentTransform : Mat4 K),
      findBone s0.bones rootName = none →
      calculateBoneTransformations slerp (.mk rootName M rootMeshes children) parentTransform s0
        = calculateChildren slerp children (parentTransform * convertMatrix M) s0)
    ∧ ∃ s', updateAnimation slerp s deltaTime = some s'
      ∧ s'.animationTime = time
      ∧ s'.boneTransforms = s.boneTransforms.set B.id
          (convertMatrix M * getInterpolatedBoneTransform slerp anim childName s'.animationTime
            * B.offsetMatrix)
      ∧ s'.boneTransforms[B.id]?
          = some (convertMatrix M
                    * getInterpolatedBoneTransform slerp anim childName s'.animationTime
                    * B.offsetMatrix) := by
  have hgen : ∀ (s0 : State K) (children : List (aiNode K)) (parentTransform : Mat4 K),
      findBone s0.bones rootName = none →
      calculateBoneTransformations slerp (.mk rootName M rootMeshes children) parentTransform s0
        = calculateChildren slerp children (parentTransform * convertMatrix M) s0 := by
    intro s0 children parentTransform h0
    rw [calculateBoneTransformations, nodeTransformation_non_bone slerp s0 rootName M h0,
      writeBone_non_bone s0 rootName _ h0]
  refine ⟨hgen, ?_⟩
  obtain ⟨hin, _, _, _⟩ := hreach.wellFormed
  have hBb : B.id < s.boneTransforms.length := hin B (findBone_mem hB).1
  obtain ⟨s1, hs1⟩ : ∃ s1 : State K, s1 = { s with animationTime := time } := ⟨_, rfl⟩
  have hR1 : findBone s1.bones rootName = none := by rw [hs1]; exact hR
  have hB1 : findBone s1.bones childName = some B := by rw [hs1]; exact hB
  have hA1 : s1.animations = anim :: rest := by rw [hs1]; exact hanim
  have hT1 : s1.animationTime = time := by rw [hs1]
  have hbt1 : s1.boneTransforms = s.boneTransforms := by rw [hs1]
  have hfinal : calculateBoneTransformations slerp (.mk rootName M rootMeshes
      [.mk childName childTransformation childMeshes []]) 1 s1
      = writeBone s1 childName (convertMatrix M
          * getInterpolatedBoneTransform slerp anim childName time) := by
    rw [hgen s1 _ 1 hR1, calculateChildren, calculateBoneTransformations, calculateChildren,
      calculateChildren, nodeTransformation_bone slerp s1 childName childTransformation hB1 hA1,
      hT1, one_mul]
  have hupd := updateAnimation_clip slerp s hanim htime hroot
  rw [← hs1, hfinal] at hupd
  have htime' : (writeBone s1 childName (convertMatrix M
      * getInterpolatedBoneTransform slerp anim childName time)).animationTime = time := by
    rw [writeBone_animationTime, hT1]
  have hset : (writeBone s1 childName (convertMatrix M
      * getInterpolatedBoneTransform slerp anim childName time)).boneTransforms
      = s.boneTransforms.set B.id (convertMatrix M
          * getInterpolatedBoneTransform slerp anim childName time * B.offsetMatrix) := by
    rw [writeBone_in_range s1 childName _ hB1 (by rw [hbt1]; exact hBb), hbt1]
  refine ⟨_, hupd, ?_, ?_, ?_⟩
  · exact htime'
  · rw [htime']; exact hset
  · rw [htime', hset, List.getElem?_set_self hBb]

/-- C24 applied to `groupModel`, whose root `Armature` is not a bone, and a
frame of half a second. -/
theorem non_bone_node_passes_bind_pose_witness :
    ∃ s', updateAnimation sampleSlerp groupModel (1 / 2) = some s'
      ∧ s'.animationTime = 5
      ∧ s'.boneTransforms = groupModel.boneTransforms.set 0
          (convertMatrix shiftMatrix
            * getInterpolatedBoneTransform sampleSlerp
                (loadAnimation ⟨"lift", 10, 10, [⟨"Hand", [⟨0, ⟨1, 2, 3⟩⟩], [], []⟩]⟩)
                "Hand" s'.animationTime
            * convertMatrix shiftMatrix) := by
  obtain ⟨s', h1, h2, h3, _⟩ := (non_bone_node_passes_bind_pose sampleSlerp groupModel (1 / 2) 5
    (loadAnimation ⟨"lift", 10, 10, [⟨"Hand", [⟨0, ⟨1, 2, 3⟩⟩], [], []⟩]⟩) []
    "Armature" "Hand" shiftMatrix shiftMatrix [] [0]
    ⟨"Hand", 0, convertMatrix shiftMatrix, 1⟩
    ⟨1, some (groupScene [⟨"Hand", [⟨0, ⟨1, 2, 3⟩⟩], [], []⟩]), [], rfl⟩ rfl
    (advanceClock_half_of_ten _ (by decide) (by decide)) rfl rfl rfl).2
  exact ⟨s', h1, h2, h3⟩

theorem translationMatrix_no_keys (track : Option (List (aiVectorKey K))) (animTime : K)
    (h : track = none ∨ track = some []) : translationMatrix track animTime = 1 := by
  rcases h with h | h <;> rw [h] <;> rfl

theorem rotationMatrix_no_keys (slerp : Quat K → Quat K → K → Quat K)
    (track : Option (List (aiQuatKey K))) (animTime : K)
    (h : track = none ∨ track = some []) : rotationMatrix slerp track animTime = 1 := by
  rcases h with h | h <;> rw [h] <;> rfl

theorem scaleMatrix_no_keys (track : Option (List (aiVectorKey K))) (animTime : K)
    (h : track = none ∨ track = some []) : scaleMatrix track animTime = 1 := by
  rcases h with h | h <;> rw [h] <;> rfl

/-- C25: for a node that is a registered bone `B` without any keyframe in the
active clip (each of the position, rotation and scale maps has no entry under
its name or an empty one), `getInterpolatedBoneTransform` is the identity at
every time; in propagation the node's local transform is the identity
whatever its own bind-pose transformation is, so its children receive the
parent's global transform unchanged, and with `B.id` inside `boneTransforms`
the entry written is `parentTransform * B.offsetMatrix`. -/
theorem keyless_bone_uses_identity (slerp : Quat K → Quat K → K → Quat K) (s : State K)
    (anim : Animation K) (rest : List (Animation K)) (nodeName : String)
    (mTransformation : aiMatrix4x4 K) (meshes : List Nat) (children : List (aiNode K))
    (parentTransform : Mat4 K) (B : Bone K)
    (hB : findBone s.bones nodeName = some B)
    (hanim : s.animations = anim :: rest)
    (hpos : anim.positionKeyframes.lookup nodeName = none
      ∨ anim.positionKeyframes.lookup nodeName = some [])
    (hrot : anim.rotationKeyframes.lookup nodeName = none
      ∨ anim.rotationKeyframes.lookup nodeName = some [])
    (hscale : anim.scalingKeyframes.lookup nodeName = none
      ∨ anim.scalingKeyframes.lookup nodeName = some [])
    (hlt : B.id < s.boneTransforms.length) :
    (∀ animTime, getInterpolatedBoneTransform slerp anim nodeName animTime = 1)
    ∧ nodeTransformation slerp s nodeName mTransformation = 1
    ∧ calculateBoneTransformations slerp (.mk nodeName mTransformation meshes children)
        parentTransform s
      = calculateChildren slerp children parentTransform (writeBone s nodeName parentTransform)
    ∧ (writeBone s nodeName parentTransform).boneTransforms
      = s.boneTransforms.set B.id (parentTransform * B.offsetMatrix)
    ∧ (calculateBoneTransformations slerp (.mk nodeName mTransformation meshes [])
        parentTransform s).boneTransforms[B.id]?
      = some (parentTransform * B.offsetMatrix) := by
  have hid : ∀ animTime, getInterpolatedBoneTransform slerp anim nodeName animTime = 1 := by
    intro animTime
    unfold getInterpolatedBoneTransform
    rw [translationMatrix_no_keys _ _ hpos, rotationMatrix_no_keys slerp _ _ hrot,
      scaleMatrix_no_keys _ _ hscale, one_mul, one_mul]
  have hlocal : nodeTransformation slerp s nodeName mTransformation = 1 := by
    rw [nodeTransformation_bone slerp s nodeName mTransformation hB hanim]
    exact hid _
  have hwrite := writeBone_in_range s nodeName parentTransform hB hlt
  refine ⟨hid, hlocal, ?_, hwrite, ?_⟩
  · rw [calculateBoneTransformations, hlocal, mul_one]
  · rw [calculateBoneTransformations, hlocal, mul_one, calculateChildren, hwrite,
      List.getElem?_set_self hlt]

/-- C25 applied to the node `Hand` of `idleModel`, whose clip has no keyframe
for `Hand`, below the global transform of the grouping node `Armature`: the
node's own transformation `shiftMatrix` does not enter the entry written. -/
theorem keyless_bone_uses_identity_witness :
    (∀ animTime, getInterpolatedBoneTransform sampleSlerp
        (loadAnimation ⟨"lift", 10, 10, [⟨"Hand", [], [], []⟩]⟩) "Hand" animTime = 1)
    ∧ (calculateBoneTransformations sampleSlerp (.mk "Hand" shiftMatrix [0] [])
        (convertMatrix shiftMatrix) idleModel).boneTransforms[0]?
      = some (convertMatrix shiftMatrix * convertMatrix shiftMatrix) :=
  have h := keyless_bone_uses_identity sampleSlerp idleModel
    (loadAnimation ⟨"lift", 10, 10, [⟨"Hand", [], [], []⟩]⟩) [] "Hand" shiftMatrix [0] []
    (convertMatrix shiftMatrix) ⟨"Hand", 0, convertMatrix shiftMatrix, 1⟩
    rfl rfl (Or.inr rfl) (Or.inr rfl) (Or.inr rfl) (by decide)
  ⟨h.1, h.2.2.2.2⟩

theorem writeBone_entry_other (s : State K) (nodeName : String) (g : Mat4 K) (i : Nat)
    (hi : i ∉ s.bones.map Bone.id) :
    (writeBone s nodeName g).boneTransforms[i]? = s.boneTransforms[i]? := by
  unfold writeBone
  split
  · rfl
  · next bone hfind =>
    dsimp only
    have hne : bone.id ≠ i := by
      intro h
      exact hi (h ▸ List.mem_map_of_mem Bone.id (findBone_mem hfind).1)
    split
    · exact List.getElem?_set_ne hne
    · rfl

mutual
theorem calculateBoneTransformations_entry_other (slerp : Quat K → Quat K → K → Quat K) (i : Nat) :
    ∀ (node : aiNode K) (parent : Mat4 K) (s : State K), i ∉ s.bones.map Bone.id →
      (calculateBoneTransformations slerp node parent s).boneTransforms[i]?
        = s.boneTransforms[i]?
  | .mk nodeName tr ms children, parent, s, h => by
    rw [calculateBoneTransformations]
    rw [calculateChildren_entry_other slerp i children _ _
      (by rw [(writeBone_same s nodeName _).ids]; exact h)]
    exact writeBone_entry_other s nodeName _ i h
theorem calculateChildren_entry_other (slerp : Quat K → Quat K → K → Quat K) (i : Nat) :
    ∀ (children : List (aiNode K)) (g : Mat4 K) (s : State K), i ∉ s.bones.map Bone.id →
      (calculateChildren slerp children g s).boneTransforms[i]? = s.boneTransforms[i]?
  | [], g, s, _ => by
    rw [calculateChildren]
  | child :: rest, g, s, h => by
    rw [calculateChildren]
    rw [calculateChildren_entry_other slerp i rest g _
      (by rw [(calculateBoneTransformations_same slerp child g s).ids]; exact h)]
    exact calculateBoneTransformations_entry_other slerp i child g s h
end

theorem getD_set_out_of_range {α : Type} (l : List α) (i : Nat) (x d : α)
    (h : l.length ≤ i) : (l.set i x).getD i d = d := by
  rw [List.getD_eq_default]
  rw [List.length_set]
  exact h

theorem fillSlot_registered (ids : List Nat) (v : Nat) (w : K) (n : Nat) (hn : n ∈ ids)
    (ks : List Nat) :
    ∀ (m : Mesh K), IdsRegistered ids m → IdsRegistered ids (fillSlot v w (n : Int) m ks) := by
  induction ks with
  | nil => intro m h; exact h
  | cons k rest ih =>
    intro m h
    unfold fillSlot
    split
    · refine ⟨by simp only [List.length_set]; exact h.1, ?_⟩
      intro i
      by_cases hi : v * 4 + k = i
      · subst hi
        by_cases hlen : v * 4 + k < m.boneIDsData.length
        · have hid : (m.boneIDsData.set (v * 4 + k) (n : Int)).getD (v * 4 + k) (-1) = (n : Int) :=
            getD_set_self _ _ _ _ hlen
          dsimp only
          rw [hid]
          exact ⟨Or.inr ⟨n, hn, rfl⟩, fun _ => ⟨n, hn, rfl⟩⟩
        · have hid : (m.boneIDsData.set (v * 4 + k) (n : Int)).getD (v * 4 + k) (-1) = -1 :=
            getD_set_out_of_range _ _ _ _ (by omega)
          have hw : (m.boneWeightsData.set (v * 4 + k) w).getD (v * 4 + k) 0 = 0 :=
            getD_set_out_of_range _ _ _ _ (by rw [h.1]; omega)
          dsimp only
          rw [hid, hw]
          exact ⟨Or.inl rfl, fun hne => absurd rfl hne⟩
      · dsimp only
        rw [getD_set_ne _ _ _ _ _ hi, getD_set_ne _ _ _ _ _ hi]
        exact h.2 i
    · exact ih m h

theorem weights_fold_registered (ids : List Nat) (n : Nat) (hn : n ∈ ids)
    (ws : List (aiVertexWeight K)) :
    ∀ (m : Mesh K), IdsRegistered ids m →
      IdsRegistered ids (ws.foldl
        (fun m weight => fillSlot weight.mVertexId weight.mWeight (n : Int) m [0, 1, 2, 3]) m) := by
  induction ws with
  | nil => intro m h; exact h
  | cons w rest ih =>
    intro m h
    rw [List.foldl_cons]
    exact ih _ (fillSlot_registered ids w.mVertexId w.mWeight n hn _ m h)

theorem skinBone_fold_registered (bones : List (Bone K)) (decls : List (aiBone K)) :
    ∀ (acc : Mesh K × List Diagnostic), IdsRegistered (bones.map Bone.id) acc.1 →
      IdsRegistered (bones.map Bone.id) (decls.foldl (skinBone bones) acc).1 := by
  induction decls with
  | nil => intro acc h; exact h
  | cons d rest ih =>
    intro acc h
    rw [List.foldl_cons]
    apply ih
    unfold skinBone
    split
    · exact h
    · next b hfind =>
      exact weights_fold_registered _ b.id
        (List.mem_map_of_mem Bone.id (findBone_mem hfind).1) d.mWeights acc.1 h

theorem skinData_registered (bones : List (Bone K)) (mesh : aiMesh K) :
    IdsRegistered (bones.map Bone.id) (skinData bones mesh).1 := by
  unfold skinData
  apply skinBone_fold_registered
  refine ⟨by simp, ?_⟩
  intro i
  have hid : (List.replicate (mesh.mNumVertices * 4) (-1 : Int)).getD i (-1) = -1 := by
    rw [List.getD_eq_getElem?_getD, List.getElem?_getD_replicate_default_eq]
  have hw : (List.replicate (mesh.mNumVertices * 4) (0 : K)).getD i 0 = 0 := by
    rw [List.getD_eq_getElem?_getD, List.getElem?_getD_replicate_default_eq]
  dsimp only
  rw [hid, hw]
  exact ⟨Or.inl rfl, fun hne => absurd rfl hne⟩

theorem processMesh_registered (s : State K) (mesh : aiMesh K)
    (h : ∀ m ∈ s.meshes, IdsRegistered (s.bones.map Bone.id) m) :
    ∀ m ∈ (processMesh s mesh).meshes,
      IdsRegistered ((processMesh s mesh).bones.map Bone.id) m := by
  intro m hm
  simp only [processMesh, List.mem_append, List.mem_singleton] at hm ⊢
  rcases hm with hm | hm
  · exact h m hm
  · rw [hm]
    exact skinData_registered s.bones mesh

theorem processMeshes_registered (sceneMeshes : List (aiMesh K)) (indices : List Nat) :
    ∀ (s : State K), (∀ m ∈ s.meshes, IdsRegistered (s.bones.map Bone.id) m) →
      ∀ m ∈ (indices.foldl (processMeshAt sceneMeshes) s).meshes,
        IdsRegistered ((indices.foldl (processMeshAt sceneMeshes) s).bones.map Bone.id) m := by
  induction indices with
  | nil => intro s h; exact h
  | cons i rest ih =>
    intro s h
    rw [List.foldl_cons]
    apply ih
    unfold processMeshAt
    cases sceneMeshes.get? i with
    | none => exact h
    | some mesh => exact processMesh_registered s mesh h

mutual
theorem processNode_registered (sceneMeshes : List (aiMesh K)) :
    ∀ (node : aiNode K) (s : State K),
      (∀ m ∈ s.meshes, IdsRegistered (s.bones.map Bone.id) m) →
      ∀ m ∈ (processNode sceneMeshes node s).meshes,
        IdsRegistered ((processNode sceneMeshes node s).bones.map Bone.id) m
  | .mk name tr ms children, s, h => by
    rw [processNode]
    exact processChildren_registered sceneMeshes children _
      (processMeshes_registered sceneMeshes ms s h)
theorem processChildren_registered (sceneMeshes : List (aiMesh K)) :
    ∀ (children : List (aiNode K)) (s : State K),
      (∀ m ∈ s.meshes, IdsRegistered (s.bones.map Bone.id) m) →
      ∀ m ∈ (processChildren sceneMeshes children s).meshes,
        IdsRegistered ((processChildren sceneMeshes children s).bones.map Bone.id) m
  | [], s, h => by
    rw [processChildren]
    exact h
  | child :: rest, s, h => by
    rw [processChildren]
    exact processChildren_registered sceneMeshes rest _
      (processNode_registered sceneMeshes child s h)
end

theorem loadBone_fold_meshes (decls : List (aiBone K)) (s : State K) :
    (decls.foldl loadBone s).meshes = s.meshes := by
  induction decls generalizing s with
  | nil => rfl
  | cons d rest ih =>
    rw [List.foldl_cons, ih]
    unfold loadBone
    split <;> rfl

theorem construct_registered (program : Nat) (scene : Option (aiScene K)) :
    ∀ m ∈ (construct program scene).meshes,
      IdsRegistered ((construct program scene).bones.map Bone.id) m := by
  unfold construct
  cases scene with
  | none => intro m hm; simp [State.initial] at hm
  | some sc =>
    dsimp only
    split
    · next root hinc hroot =>
      simp only [loadAnimations]
      apply processNode_registered
      intro m hm
      dsimp only at hm
      rw [foldl_loadBones, loadBone_fold_meshes] at hm
      simp [State.initial] at hm
    · intro m hm; simp [State.initial] at hm

theorem Reachable.registered {slerp : Quat K → Quat K → K → Quat K} {s : State K}
    (h : Reachable slerp s) : ∀ m ∈ s.meshes, IdsRegistered (s.bones.map Bone.id) m := by
  obtain ⟨program, scene, deltas, hs⟩ := h
  obtain ⟨hsame, _⟩ := updates_same deltas hs
  rw [hsame.meshes, hsame.ids]
  exact construct_registered program scene

/-- C27: the skin data that `processMesh` appends for a mesh stores, in every
entry of the bone-id array, `-1` or the id of a bone of the registry, and in
every entry whose weight is nonzero the id of a bone of the registry.  In
every reachable state, where `boneTransforms` has one entry per registered
bone, each such id is an index of `boneTransforms`, for every mesh of the
model. -/
theorem skin_ids_are_registered (slerp : Quat K → Quat K → K → Quat K) (s : State K)
    (hreach : Reachable slerp s) (m : Mesh K) (hm : m ∈ s.meshes) (i : Nat) :
    (∀ (s0 : State K) (mesh : aiMesh K),
      (processMesh s0 mesh).meshes = s0.meshes ++ [(skinData s0.bones mesh).1]
      ∧ ∀ j, ((skinData s0.bones mesh).1.boneIDsData.getD j (-1) = -1
          ∨ ∃ b ∈ s0.bones, (skinData s0.bones mesh).1.boneIDsData.getD j (-1) = (b.id : Int))
        ∧ ((skinData s0.bones mesh).1.boneWeightsData.getD j 0 ≠ 0 →
          ∃ b ∈ s0.bones, (skinData s0.bones mesh).1.boneIDsData.getD j (-1) = (b.id : Int)))
    ∧ s.boneTransforms.length = s.bones.length
    ∧ (m.boneIDsData.getD i (-1) = -1
      ∨ ∃ b ∈ s.bones, m.boneIDsData.getD i (-1) = (b.id : Int)
          ∧ b.id < s.boneTransforms.length)
    ∧ (m.boneWeightsData.getD i 0 ≠ 0 →
      m.boneIDsData.getD i (-1) ≠ -1
      ∧ ∃ b ∈ s.bones, m.boneIDsData.getD i (-1) = (b.id : Int)
          ∧ b.id < s.boneTransforms.length) := by
  have hlift : ∀ (bones : List (Bone K)) (x : Int), (∃ n ∈ bones.map Bone.id, x = (n : Int)) →
      ∃ b ∈ bones, x = (b.id : Int) := by
    rintro bones x ⟨n, hn, hx⟩
    obtain ⟨b, hb, hbn⟩ := List.mem_map.mp hn
    exact ⟨b, hb, by rw [hx, hbn]⟩
  obtain ⟨hin, _, _, _⟩ := hreach.wellFormed
  have hdense := hreach.dense
  have hreg := (hreach.registered m hm).2 i
  refine ⟨?_, ?_, ?_, ?_⟩
  · intro s0 mesh
    refine ⟨rfl, ?_⟩
    intro j
    have hj := (skinData_registered s0.bones mesh).2 j
    exact ⟨hj.1.imp id (hlift _ _), fun hne => hlift _ _ (hj.2 hne)⟩
  · have := congrArg List.length hdense
    rw [List.length_map, List.length_range] at this
    exact this.symm
  · rcases hreg.1 with h | h
    · exact Or.inl h
    · obtain ⟨b, hb, hx⟩ := hlift _ _ h
      exact Or.inr ⟨b, hb, hx, hin b hb⟩
  · intro hne
    obtain ⟨b, hb, hx⟩ := hlift _ _ (hreg.2 hne)
    refine ⟨?_, b, hb, hx, hin b hb⟩
    rw [hx]
    omega

/-- C27 applied to the mesh of `groupModel` and its first entry, the slot `0`
of vertex `0`, which holds the weight `1` of `Hand`. -/
theorem skin_ids_are_registered_witness :
    groupModel.boneTransforms.length = groupModel.bones.length
    ∧ ((1 : ℚ) ≠ 0 →
      (0 : Int) ≠ -1
      ∧ ∃ b ∈ groupModel.bones, (0 : Int) = (b.id : Int)
          ∧ b.id < groupModel.boneTransforms.length) :=
  have h := skin_ids_are_registered sampleSlerp groupModel
    ⟨1, some (groupScene [⟨"Hand", [⟨0, ⟨1, 2, 3⟩⟩], [], []⟩]), [], rfl⟩
    ⟨[0, -1, -1, -1, -1, -1, -1, -1], [1, 0, 0, 0, 0, 0, 0, 0]⟩ (List.Mem.head _) 0
  ⟨h.2.1, h.2.2.2⟩

/-! ## Influences of weight zero -/

theorem set_zero_of_getD_zero (l : List K) (j : Nat) (h : l.getD j 0 = 0) : l.set j 0 = l := by
  induction l generalizing j with
  | nil => rfl
  | cons a rest ih =>
    cases j with
    | zero =>
      rw [List.getD_cons_zero] at h
      rw [List.set_cons_zero, h]
    | succ j =>
      rw [List.getD_cons_succ] at h
      rw [List.set_cons_succ, ih j h]

theorem fillSlot_zero_weights (v : Nat) (boneIndex : Int) (m : Mesh K) (ks : List Nat) :
    (fillSlot v 0 boneIndex m ks).boneWeightsData = m.boneWeightsData := by
  induction ks with
  | nil => rfl
  | cons k rest ih =>
    unfold fillSlot
    split
    · next hfree => exact set_zero_of_getD_zero _ _ hfree
    · exact ih

theorem fillSlot_weights_congr (v : Nat) (w : K) (boneIndex boneIndex' : Int) (ks : List Nat) :
    ∀ (m m' : Mesh K), m.boneWeightsData = m'.boneWeightsData →
      (fillSlot v w boneIndex m ks).boneWeightsData
        = (fillSlot v w boneIndex' m' ks).boneWeightsData := by
  induction ks with
  | nil => intro m m' h; exact h
  | cons k rest ih =>
    intro m m' h
    unfold fillSlot
    rw [h]
    split
    · rfl
    · exact ih m m' h

theorem weights_fold_dropZero (boneIndex : Int) (ws : List (aiVertexWeight K)) :
    ∀ (m m' : Mesh K), m.boneWeightsData = m'.boneWeightsData →
      (ws.foldl
        (fun m weight => fillSlot weight.mVertexId weight.mWeight boneIndex m [0, 1, 2, 3])
        m).boneWeightsData
      = ((ws.filter (fun weight => weight.mWeight ≠ 0)).foldl
        (fun m weight => fillSlot weight.mVertexId weight.mWeight boneIndex m [0, 1, 2, 3])
        m').boneWeightsData := by
  induction ws with
  | nil => intro m m' h; exact h
  | cons w rest ih =>
    intro m m' h
    rw [List.foldl_cons]
    by_cases hw : w.mWeight = 0
    · rw [List.filter_cons_of_neg (by simpa using hw)]
      apply ih
      rw [hw, fillSlot_zero_weights]
      exact h
    · rw [List.filter_cons_of_pos (by simpa using hw), List.foldl_cons]
      apply ih
      exact fillSlot_weights_congr _ _ _ _ _ m m' h

theorem skinBone_fold_dropZero (bones : List (Bone K)) (decls : List (aiBone K)) :
    ∀ (acc acc' : Mesh K × List Diagnostic), acc.1.boneWeightsData = acc'.1.boneWeightsData →
      (decls.foldl (skinBone bones) acc).1.boneWeightsData
        = ((decls.map withoutZeroWeights).foldl (skinBone bones) acc').1.boneWeightsData := by
  induction decls with
  | nil => intro acc acc' h; exact h
  | cons d rest ih =>
    intro acc acc' h
    rw [List.map_cons, List.foldl_cons, List.foldl_cons]
    apply ih
    unfold skinBone
    have hname : (withoutZeroWeights d).mName = d.mName := rfl
    rw [hname]
    cases findBone bones d.mName with
    | none => exact h
    | some b => exact weights_fold_dropZero (b.id : Int) d.mWeights acc.1 acc'.1 h

/-- C28: an influence of weight exactly zero on a vertex whose first free
slot is `c` stores its bone id in that slot and leaves every weight as it
was, and the next influence on the vertex, whatever its weight, is written to
the same slot `c`, replacing that id.  For every registry and every mesh, the
bone-weight array that `processMesh` builds equals the one built from the
mesh with all zero-weight influences removed. -/
theorem zero_weight_never_occupies (bones : List (Bone K)) (mesh : aiMesh K) (m : Mesh K)
    (v c : Nat) (boneIndex boneIndex' : Int) (weight' : K) (hc : c < 4)
    (hocc : ∀ k, k < c → slotWeight m v k ≠ 0) (hfree : slotWeight m v c = 0) :
    fillSlot v 0 boneIndex m [0, 1, 2, 3]
      = { boneWeightsData := m.boneWeightsData,
          boneIDsData := m.boneIDsData.set (v * 4 + c) boneIndex }
    ∧ fillSlot v weight' boneIndex' (fillSlot v 0 boneIndex m [0, 1, 2, 3]) [0, 1, 2, 3]
      = { boneWeightsData := m.boneWeightsData.set (v * 4 + c) weight',
          boneIDsData := m.boneIDsData.set (v * 4 + c) boneIndex' }
    ∧ (skinData bones mesh).1.boneWeightsData
      = (skinData bones (dropZeroWeights mesh)).1.boneWeightsData := by
  have hzero : fillSlot v 0 boneIndex m [0, 1, 2, 3]
      = { boneWeightsData := m.boneWeightsData,
          boneIDsData := m.boneIDsData.set (v * 4 + c) boneIndex } := by
    rw [fillSlot_free v 0 boneIndex m c hc hocc hfree]
    unfold slotWeight at hfree
    rw [set_zero_of_getD_zero _ _ hfree]
  refine ⟨hzero, ?_, ?_⟩
  · rw [hzero]
    refine (fillSlot_free v weight' boneIndex'
      { boneWeightsData := m.boneWeightsData,
        boneIDsData := m.boneIDsData.set (v * 4 + c) boneIndex } c hc hocc hfree).trans ?_
    simp only [List.set_set]
  · unfold skinData dropZeroWeights
    exact skinBone_fold_dropZero bones mesh.mBones _ _ rfl

/-- C28 applied to `zeroWeightMesh` and the registry of `sampleModel`: after
the first influence of `Root` on vertex `0` its first free slot is `1`, and
the zero weight of `Hand` leaves no trace in the weights. -/
theorem zero_weight_never_occupies_witness :
    (skinData sampleModel.bones zeroWeightMesh).1.boneWeightsData
      = (skinData sampleModel.bones (dropZeroWeights zeroWeightMesh)).1.boneWeightsData
    ∧ (skinData sampleModel.bones zeroWeightMesh).1.boneWeightsData = [5, 3, 0, 0, 0, 0, 0, 0]
    ∧ (skinData sampleModel.bones zeroWeightMesh).1.boneIDsData = [0, 0, -1, -1, -1, -1, -1, -1] :=
  ⟨(zero_weight_never_occupies sampleModel.bones zeroWeightMesh
      (skinData sampleModel.bones ⟨2, [⟨"Root", identityMatrix, [⟨0, 5⟩]⟩]⟩).1 0 1 1 0 3
      (by decide) (by decide) (by decide)).2.2, by decide, by decide⟩

/-! ## Rotation interpolation over the reals -/

theorem dot_self_nonneg (q : Quat ℝ) : 0 ≤ dot q q := by
  unfold dot
  nlinarith [mul_self_nonneg q.w, mul_self_nonneg q.x, mul_self_nonneg q.y, mul_self_nonneg q.z]

theorem length_eq_one_iff (q : Quat ℝ) : q.length = 1 ↔ dot q q = 1 := by
  unfold Quat.length
  exact Real.sqrt_eq_one

theorem dot_le_one (x z : Quat ℝ) (hx : dot x x = 1) (hz : dot z z = 1) : dot x z ≤ 1 := by
  unfold dot at *
  nlinarith [mul_self_nonneg (x.w - z.w), mul_self_nonneg (x.x - z.x),
    mul_self_nonneg (x.y - z.y), mul_self_nonneg (x.z - z.z)]

theorem sin_arc_identity (α β : ℝ) :
    Real.sin α ^ 2 + Real.sin β ^ 2 + 2 * Real.sin α * Real.sin β * Real.cos (α + β)
      = Real.sin (α + β) ^ 2 := by
  rw [Real.sin_add, Real.cos_add]
  have hα := Real.sin_sq_add_cos_sq α
  have hβ := Real.sin_sq_add_cos_sq β
  linear_combination (-(Real.sin α ^ 2)) * hβ + (-(Real.sin β ^ 2)) * hα

/-- The arc formula gives a unit quaternion from two unit quaternions whose
inner product is the cosine of `angle`. -/
theorem arc_unit (x z : Quat ℝ) (a angle : ℝ) (hx : dot x x = 1) (hz : dot z z = 1)
    (hc : Real.cos angle = dot x z) (hs : Real.sin angle ≠ 0) :
    dot
      (⟨(Real.sin ((1 - a) * angle) * x.w + Real.sin (a * angle) * z.w) / Real.sin angle,
        (Real.sin ((1 - a) * angle) * x.x + Real.sin (a * angle) * z.x) / Real.sin angle,
        (Real.sin ((1 - a) * angle) * x.y + Real.sin (a * angle) * z.y) / Real.sin angle,
        (Real.sin ((1 - a) * angle) * x.z + Real.sin (a * angle) * z.z) / Real.sin angle⟩ :
        (Quat ℝ))
      ⟨(Real.sin ((1 - a) * angle) * x.w + Real.sin (a * angle) * z.w) / Real.sin angle,
        (Real.sin ((1 - a) * angle) * x.x + Real.sin (a * angle) * z.x) / Real.sin angle,
        (Real.sin ((1 - a) * angle) * x.y + Real.sin (a * angle) * z.y) / Real.sin angle,
        (Real.sin ((1 - a) * angle) * x.z + Real.sin (a * angle) * z.z) / Real.sin angle⟩
      = 1 := by
  have hid := sin_arc_identity ((1 - a) * angle) (a * angle)
  have hsum : (1 - a) * angle + a * angle = angle := by ring
  rw [hsum, hc] at hid
  unfold dot at *
  dsimp only
  field_simp
  linear_combination (Real.sin ((1 - a) * angle) ^ 2) * hx + (Real.sin (a * angle) ^ 2) * hz + hid

theorem slerp_unit (x y : Quat ℝ) (a : ℝ) (hx : x.length = 1) (hy : y.length = 1) :
    (slerp x y a).length = 1 := by
  rw [length_eq_one_iff] at hx hy ⊢
  obtain ⟨z, hzdef⟩ : ∃ z : Quat ℝ, z = if dot x y < 0 then ⟨-y.w, -y.x, -y.y, -y.z⟩ else y :=
    ⟨_, rfl⟩
  have hz : dot z z = 1 := by
    rw [hzdef]
    split
    · unfold dot at *
      dsimp only
      linarith
    · exact hy
  have hxz0 : 0 ≤ dot x z := by
    rw [hzdef]
    split
    · next h =>
      unfold dot at *
      dsimp only
      linarith
    · next h => exact not_lt.mp h
  have hxz1 := dot_le_one x z hx hz
  have hc : Real.cos (Real.arccos (dot x z)) = dot x z :=
    Real.cos_arccos (by linarith) hxz1
  unfold slerp
  simp only [← hzdef]
  split
  · exact hx
  · next hs => exact arc_unit x z a _ hx hz hc hs

/-- C20: for every pair of unit-length quaternions and every factor the
interpolated quaternion `slerp(x, y, a)` has unit length; and for a rotation
track of at least two keyframes whose quaternions all have unit length, at
every query time at which the rotation channel interpolates with a factor
`t`, the matrix of the channel is `mat4_cast` of the quaternion interpolated
between `key[frame]` and `key[nextFrame]` at `t`, both of them keys of the
track, and that quaternion has unit length. -/
theorem rotation_interpolation_unit_length (rotationKeys : List (aiQuatKey ℝ)) (animTime : ℝ)
    (hn : 2 ≤ rotationKeys.length)
    (hunit : ∀ key ∈ rotationKeys, (quat key.mValue).length = 1) :
    (∀ (x y : Quat ℝ) (a : ℝ), x.length = 1 → y.length = 1 → (slerp x y a).length = 1)
    ∧ ∀ t, factor rotationKeys (findFrame rotationKeys animTime) animTime = some t →
        rotationMatrix slerp (some rotationKeys) animTime
          = mat4_cast (slerp (quat (keyAt rotationKeys (findFrame rotationKeys animTime)).mValue)
              (quat (keyAt rotationKeys
                (nextFrame rotationKeys (findFrame rotationKeys animTime))).mValue) t)
        ∧ keyAt rotationKeys (findFrame rotationKeys animTime) ∈ rotationKeys
        ∧ keyAt rotationKeys (nextFrame rotationKeys (findFrame rotationKeys animTime))
            ∈ rotationKeys
        ∧ (slerp (quat (keyAt rotationKeys (findFrame rotationKeys animTime)).mValue)
              (quat (keyAt rotationKeys
                (nextFrame rotationKeys (findFrame rotationKeys animTime))).mValue) t).length
            = 1 := by
  refine ⟨fun x y a hx hy => slerp_unit x y a hx hy, ?_⟩
  intro t ht
  have hlt : findFrame rotationKeys animTime + 1 < rotationKeys.length := by
    rcases findFrame_cases rotationKeys animTime hn with ⟨hlen, _, _⟩ | ⟨hzero, _⟩
    · exact hlen
    · rw [hzero]; omega
  have hnext := nextFrame_eq_succ rotationKeys _ hlt
  have hm0 := keyAt_mem rotationKeys (findFrame rotationKeys animTime) (by omega)
  have hm1 := keyAt_mem rotationKeys (findFrame rotationKeys animTime + 1) hlt
  rw [← hnext] at hm1
  have hseg : segmentLength rotationKeys (findFrame rotationKeys animTime) ≠ 0 := by
    intro hz
    rw [factor_of_zero _ _ _ hz] at ht
    cases ht
  have hsnap := (snaps_eq_false_iff rotationKeys _ hn).mpr hseg
  refine ⟨?_, hm0, hm1, slerp_unit _ _ t (hunit _ hm0) (hunit _ hm1)⟩
  rw [rotationMatrix_scan slerp rotationKeys animTime hn, hsnap, ht]
  rfl

theorem quarterTurn_unit : (quat quarterTurn).length = 1 := by
  rw [length_eq_one_iff]
  have h2 : Real.sqrt 2 * Real.sqrt 2 = 2 := Real.mul_self_sqrt (by norm_num)
  simp only [dot, quat, quarterTurn]
  linear_combination (1 / 2) * h2

/-- C20 applied to the rotation track of the end-to-end scenario at the time
`5`: the channel interpolates at `t = 1 / 2` between the identity quaternion
and the quarter turn about Y, and the interpolated quaternion has unit
length. -/
theorem rotation_interpolation_unit_length_witness :
    factor [(⟨0, ⟨1, 0, 0, 0⟩⟩ : aiQuatKey ℝ), ⟨10, quarterTurn⟩]
        (findFrame [(⟨0, ⟨1, 0, 0, 0⟩⟩ : aiQuatKey ℝ), ⟨10, quarterTurn⟩] 5) 5 = some (1 / 2)
    ∧ rotationMatrix slerp (some [⟨0, ⟨1, 0, 0, 0⟩⟩, ⟨10, quarterTurn⟩]) 5
        = mat4_cast (slerp ⟨1, 0, 0, 0⟩ (quat quarterTurn) (1 / 2))
    ∧ (slerp ⟨1, 0, 0, 0⟩ (quat quarterTurn) (1 / 2)).length = 1 := by
  have hmid : ((0 : ℝ) + 10) / 2 = 5 := by norm_num
  have hkey := two_key_frame (⟨0, ⟨1, 0, 0, 0⟩⟩ : aiQuatKey ℝ) ⟨10, quarterTurn⟩
    (by norm_num)
  dsimp only at hkey
  rw [hmid] at hkey
  have hfac : factor [(⟨0, ⟨1, 0, 0, 0⟩⟩ : aiQuatKey ℝ), ⟨10, quarterTurn⟩]
      (findFrame [(⟨0, ⟨1, 0, 0, 0⟩⟩ : aiQuatKey ℝ), ⟨10, quarterTurn⟩] 5) 5
      = some (1 / 2) := by
    rw [hkey.1]
    exact hkey.2.2
  have h := (rotation_interpolation_unit_length [⟨0, ⟨1, 0, 0, 0⟩⟩, ⟨10, quarterTurn⟩] 5
    (by simp)
    (by
      intro key hkey
      simp only [List.mem_cons, List.mem_singleton, List.not_mem_nil, or_false] at hkey
      rcases hkey with rfl | rfl
      · rw [length_eq_one_iff]
        simp [dot, quat]
      · exact quarterTurn_unit)).2 (1 / 2) hfac
  rw [hkey.1] at h
  exact ⟨hfac, h.1, h.2.2.2⟩

theorem sqrt_two_div_two_sq : Real.sqrt 2 / 2 * (Real.sqrt 2 / 2) = 1 / 2 := by
  have h2 : Real.sqrt 2 * Real.sqrt 2 = 2 := Real.mul_self_sqrt (by norm_num)
  linear_combination (1 / 4) * h2

end AnimatedModel

namespace Terrain

/-! ## The height lookup -/

theorem toUnsigned_le (n : Int) (h : 0 ≤ n) : (toUnsigned n : Int) ≤ n := by
  unfold toUnsigned
  omega

theorem toUnsigned_of_lt (n : Int) (h : 0 ≤ n) (hlt : n < 2 ^ 32) : (toUnsigned n : Int) = n := by
  unfold toUnsigned
  omega

theorem clamp_mem {α : Type} [LinearOrder α] (x minVal maxVal : α) (h : minVal ≤ maxVal) :
    minVal ≤ clamp x minVal maxVal ∧ clamp x minVal maxVal ≤ maxVal := by
  unfold clamp
  exact ⟨le_min (le_max_right _ _) h, min_le_right _ _⟩

theorem clamp_of_mem {α : Type} [LinearOrder α] (x minVal maxVal : α) (h1 : minVal ≤ x)
    (h2 : x ≤ maxVal) : clamp x minVal maxVal = x := by
  unfold clamp
  rw [max_eq_left h1, min_eq_left h2]

theorem mix_mem (x y a : ℚ) (hx : 0 ≤ x ∧ x ≤ 1) (hy : 0 ≤ y ∧ y ≤ 1) (ha : 0 ≤ a ∧ a ≤ 1) :
    0 ≤ mix x y a ∧ mix x y a ≤ 1 := by
  unfold mix
  constructor
  · nlinarith [mul_nonneg hx.1 (sub_nonneg.mpr ha.2), mul_nonneg hy.1 ha.1]
  · nlinarith [mul_nonneg (sub_nonneg.mpr hx.2) (sub_nonneg.mpr ha.2),
      mul_nonneg (sub_nonneg.mpr hy.2) ha.1]

theorem getPixelHeightValue_mem (heightmapData : Nat → Fin 256)
    (h_width h_height h_channels x z : Int) :
    0 ≤ getPixelHeightValue heightmapData h_width h_height h_channels x z
    ∧ getPixelHeightValue heightmapData h_width h_height h_channels x z ≤ 1 := by
  unfold getPixelHeightValue
  dsimp only
  split
  · exact ⟨le_refl _, zero_le_one⟩
  · have hb : ((heightmapData (pixelIndex h_width h_channels x z)).val : ℚ) ≤ 255 := by
      have := (heightmapData (pixelIndex h_width h_channels x z)).isLt
      exact_mod_cast Nat.le_of_lt_succ this
    constructor
    · positivity
    · rw [div_le_one (by norm_num)]
      exact hb

theorem pixel_in_range (h_width h_height h_channels x z : Int)
    (hw : 1 ≤ h_width) (hc : 1 ≤ h_channels)
    (hsize : h_width * h_height * h_channels < 2 ^ 32)
    (hx : 0 ≤ x ∧ x ≤ h_width - 1) (hz : 0 ≤ z ∧ z ≤ h_height - 1) :
    outOfRange h_width h_height h_channels (pixelIndex h_width h_channels x z) = false
    ∧ (pixelIndex h_width h_channels x z : Int) = (z * h_width + x) * h_channels
    ∧ (pixelIndex h_width h_channels x z : Int) < h_width * h_height * h_channels := by
  have hrow : z * h_width + x ≤ h_width * h_height - 1 := by nlinarith
  have hnn : 0 ≤ z * h_width + x := by nlinarith
  have hidx : (z * h_width + x) * h_channels < h_width * h_height * h_channels := by nlinarith
  have hidx0 : 0 ≤ (z * h_width + x) * h_channels := by nlinarith
  have h1 : (pixelIndex h_width h_channels x z : Int) = (z * h_width + x) * h_channels := by
    unfold pixelIndex
    exact toUnsigned_of_lt _ hidx0 (lt_trans hidx hsize)
  have h2 : (toUnsigned (h_width * h_height * h_channels) : Int)
      = h_width * h_height * h_channels :=
    toUnsigned_of_lt _ (by nlinarith) hsize
  refine ⟨?_, h1, by rw [h1]; exact hidx⟩
  unfold outOfRange
  rw [decide_eq_false_iff_not, ge_iff_le, not_le]
  have : (pixelIndex h_width h_channels x z : Int)
      < (toUnsigned (h_width * h_height * h_channels) : Int) := by
    rw [h1, h2]; exact hidx
  exact_mod_cast this

theorem axis_in_image (normalized : ℚ) (size : Int) (hs : 1 ≤ size) :
    (0 ≤ clamp ⌊clamp normalized 0 1 * ((size - 1 : Int) : ℚ)⌋ 0 (size - 1)
      ∧ clamp ⌊clamp normalized 0 1 * ((size - 1 : Int) : ℚ)⌋ 0 (size - 1) ≤ size - 1)
    ∧ (0 ≤ clamp ⌈clamp normalized 0 1 * ((size - 1 : Int) : ℚ)⌉ 0 (size - 1)
      ∧ clamp ⌈clamp normalized 0 1 * ((size - 1 : Int) : ℚ)⌉ 0 (size - 1) ≤ size - 1)
    ∧ (0 ≤ clamp normalized 0 1 * ((size - 1 : Int) : ℚ)
          - ((clamp ⌊clamp normalized 0 1 * ((size - 1 : Int) : ℚ)⌋ 0 (size - 1) : Int) : ℚ)
      ∧ clamp normalized 0 1 * ((size - 1 : Int) : ℚ)
          - ((clamp ⌊clamp normalized 0 1 * ((size - 1 : Int) : ℚ)⌋ 0 (size - 1) : Int) : ℚ)
        ≤ 1) := by
  have hsize : (0 : Int) ≤ size - 1 := by omega
  obtain ⟨hn0, hn1⟩ := clamp_mem normalized 0 1 zero_le_one
  have hsq : (0 : ℚ) ≤ ((size - 1 : Int) : ℚ) := by exact_mod_cast hsize
  have hp0 : 0 ≤ clamp normalized 0 1 * ((size - 1 : Int) : ℚ) := mul_nonneg hn0 hsq
  have hp1 : clamp normalized 0 1 * ((size - 1 : Int) : ℚ) ≤ ((size - 1 : Int) : ℚ) := by
    nlinarith
  have hf0 : 0 ≤ ⌊clamp normalized 0 1 * ((size - 1 : Int) : ℚ)⌋ := Int.floor_nonneg.mpr hp0
  have hf1 : ⌊clamp normalized 0 1 * ((size - 1 : Int) : ℚ)⌋ ≤ size - 1 := by
    have := le_trans (Int.floor_le (clamp normalized 0 1 * ((size - 1 : Int) : ℚ))) hp1
    exact_mod_cast this
  refine ⟨clamp_mem _ 0 (size - 1) hsize, clamp_mem _ 0 (size - 1) hsize, ?_⟩
  rw [clamp_of_mem _ 0 (size - 1) hf0 hf1]
  have h1 := Int.floor_le (clamp normalized 0 1 * ((size - 1 : Int) : ℚ))
  have h2 := Int.lt_floor_add_one (clamp normalized 0 1 * ((size - 1 : Int) : ℚ))
  constructor <;> linarith

theorem cell_in_image (worldX worldZ terrainWidth terrainDepth : ℚ) (h_width h_height : Int)
    (hW : terrainWidth ≠ 0) (hD : terrainDepth ≠ 0) (hw : 1 ≤ h_width) (hh : 1 ≤ h_height) :
    ∃ c, cell worldX worldZ terrainWidth terrainDepth h_width h_height = some c
      ∧ (0 ≤ c.x1 ∧ c.x1 ≤ h_width - 1) ∧ (0 ≤ c.x2 ∧ c.x2 ≤ h_width - 1)
      ∧ (0 ≤ c.z1 ∧ c.z1 ≤ h_height - 1) ∧ (0 ≤ c.z2 ∧ c.z2 ≤ h_height - 1)
      ∧ (0 ≤ c.pixelX_float - (c.x1 : ℚ) ∧ c.pixelX_float - (c.x1 : ℚ) ≤ 1)
      ∧ (0 ≤ c.pixelZ_float - (c.z1 : ℚ) ∧ c.pixelZ_float - (c.z1 : ℚ) ≤ 1) := by
  obtain ⟨hx1, hx2, htx⟩ :=
    axis_in_image ((worldX + terrainWidth / 2) / terrainWidth) h_width hw
  obtain ⟨hz1, hz2, htz⟩ :=
    axis_in_image ((worldZ + terrainDepth / 2) / terrainDepth) h_height hh
  unfold cell fdiv
  rw [if_neg hW, if_neg hD]
  exact ⟨_, rfl, hx1, hx2, hz1, hz2, htx, htz⟩

/-- C29, amended: for a heightmap with `h_width >= 1`, `h_height >= 1`,
`h_channels >= 1` whose size `h_width * h_height * h_channels` is
representable as an `int` (below `2 ^ 31`), non-null data, a terrain of
positive width and depth, `heightScale >= 0` and every world position, inside
the terrain or not: the four pixels read have coordinates inside the image,
their indices pass the range test of `getPixelHeightValue` and are below the
size of the image, and the value returned lies in `[terrainYOffset,
terrainYOffset + heightScale]`.  With null data or a zero width or height the
function returns exactly `terrainYOffset`, whatever the other arguments. -/
theorem getTerrainHeight_in_range
    (worldX worldZ terrainWidth terrainDepth terrainYOffset heightScale : ℚ)
    (heightmapData : Nat → Fin 256) (h_width h_height h_channels : Int)
    (hw : 1 ≤ h_width) (hh : 1 ≤ h_height) (hc : 1 ≤ h_channels)
    (hsize : h_width * h_height * h_channels < 2 ^ 31)
    (hW : 0 < terrainWidth) (hD : 0 < terrainDepth) (hS : 0 ≤ heightScale) :
    (∃ c r, cell worldX worldZ terrainWidth terrainDepth h_width h_height = some c
      ∧ (∀ x ∈ [c.x1, c.x2], ∀ z ∈ [c.z1, c.z2],
          (0 ≤ x ∧ x < h_width) ∧ (0 ≤ z ∧ z < h_height)
          ∧ outOfRange h_width h_height h_channels (pixelIndex h_width h_channels x z) = false
          ∧ (pixelIndex h_width h_channels x z : Int) = (z * h_width + x) * h_channels
          ∧ (pixelIndex h_width h_channels x z : Int) < h_width * h_height * h_channels
          ∧ getPixelHeightValue heightmapData h_width h_height h_channels x z
              = ((heightmapData (pixelIndex h_width h_channels x z)).val : ℚ) / 255)
      ∧ getTerrainHeight worldX worldZ terrainWidth terrainDepth terrainYOffset heightScale
          (some heightmapData) h_width h_height h_channels = some r
      ∧ terrainYOffset ≤ r ∧ r ≤ terrainYOffset + heightScale)
    ∧ (∀ (data : Option (Nat → Fin 256)) (width height channels : Int)
        (x z sizeX sizeZ scale : ℚ),
        data = none ∨ width = 0 ∨ height = 0 →
        getTerrainHeight x z sizeX sizeZ terrainYOffset scale data width height channels
          = some terrainYOffset) := by
  have hsize' : h_width * h_height * h_channels < 2 ^ 32 := lt_trans hsize (by norm_num)
  constructor
  · obtain ⟨c, hcell, hx1, hx2, hz1, hz2, htx, htz⟩ := cell_in_image worldX worldZ terrainWidth
      terrainDepth h_width h_height hW.ne' hD.ne' hw hh
    obtain ⟨finalHeightValue, hvalue⟩ : ∃ finalHeightValue : ℚ, finalHeightValue = mix
        (mix (getPixelHeightValue heightmapData h_width h_height h_channels c.x1 c.z1)
          (getPixelHeightValue heightmapData h_width h_height h_channels c.x2 c.z1)
          (c.pixelX_float - (c.x1 : ℚ)))
        (mix (getPixelHeightValue heightmapData h_width h_height h_channels c.x1 c.z2)
          (getPixelHeightValue heightmapData h_width h_height h_channels c.x2 c.z2)
          (c.pixelX_float - (c.x1 : ℚ)))
        (c.pixelZ_float - (c.z1 : ℚ)) := ⟨_, rfl⟩
    have hfinal : 0 ≤ finalHeightValue ∧ finalHeightValue ≤ 1 := by
      rw [hvalue]
      exact mix_mem _ _ _
        (mix_mem _ _ _ (getPixelHeightValue_mem _ _ _ _ _ _) (getPixelHeightValue_mem _ _ _ _ _ _)
          htx)
        (mix_mem _ _ _ (getPixelHeightValue_mem _ _ _ _ _ _) (getPixelHeightValue_mem _ _ _ _ _ _)
          htx)
        htz
    refine ⟨c, terrainYOffset + finalHeightValue * heightScale, hcell, ?_, ?_, ?_, ?_⟩
    · intro x hx z hz
      have hxm : 0 ≤ x ∧ x ≤ h_width - 1 := by
        simp only [List.mem_cons, List.mem_singleton, List.not_mem_nil, or_false] at hx
        rcases hx with h | h <;> rw [h] <;> assumption
      have hzm : 0 ≤ z ∧ z ≤ h_height - 1 := by
        simp only [List.mem_cons, List.mem_singleton, List.not_mem_nil, or_false] at hz
        rcases hz with h | h <;> rw [h] <;> assumption
      obtain ⟨hin, hidx, hlt⟩ := pixel_in_range h_width h_height h_channels x z hw hc hsize'
        hxm hzm
      refine ⟨⟨hxm.1, by omega⟩, ⟨hzm.1, by omega⟩, hin, hidx, hlt, ?_⟩
      unfold getPixelHeightValue
      dsimp only
      rw [hin]
      rfl
    · unfold getTerrainHeight
      dsimp only
      rw [if_neg (by omega), hcell, hvalue]
    · nlinarith [mul_nonneg hfinal.1 hS]
    · nlinarith [mul_nonneg (sub_nonneg.mpr hfinal.2) hS]
  · intro data width height channels x z sizeX sizeZ scale h
    unfold getTerrainHeight
    cases data with
    | none => rfl
    | some d =>
      rcases h with h | h | h
      · cases h
      · dsimp only
        rw [if_pos (Or.inl h)]
      · dsimp only
        rw [if_pos (Or.inr h)]

/-- The amended C29 applied to a white image of `2` by `2` pixels with one
channel under a terrain of `2` by `2` units, at the centre of the terrain. -/
theorem getTerrainHeight_in_range_witness :
    ∃ r, getTerrainHeight 0 0 2 2 0 1 (some whiteImage) 2 2 1 = some r ∧ 0 ≤ r ∧ r ≤ 0 + 1 := by
  obtain ⟨_, r, _, _, h1, h2, h3⟩ := (getTerrainHeight_in_range 0 0 2 2 0 1 whiteImage 2 2 1
    (by decide) (by decide) (by decide) (by norm_num) (by norm_num) (by norm_num)
    (by norm_num)).1
  exact ⟨r, h1, h2, h3⟩

/-- C29, counterexample: for a white image of `65536` by `65536` pixels with
one channel, whose size `2 ^ 32` becomes `0` as an `unsigned int`, and the
corner `(-1, -1)` of a terrain of `2` by `2` units, the pixel read is
`(0, 0)`, its index `0` fails the range test, so the fallback value `0` is
taken in place of the byte `255`, and the height returned is the offset `0`
where the image gives `0 + 1`. -/
theorem large_image_takes_fallback :
    (1 : Int) ≤ 65536 ∧ (1 : Int) ≤ 1 ∧ (0 : ℚ) < 2 ∧ (0 : ℚ) ≤ 1
    ∧ cell (-1) (-1) 2 2 65536 65536 = some ⟨0, 0, 0, 0, 0, 0⟩
    ∧ outOfRange 65536 65536 1 (pixelIndex 65536 1 0 0) = true
    ∧ getPixelHeightValue whiteImage 65536 65536 1 0 0 = 0
    ∧ ((whiteImage (pixelIndex 65536 1 0 0)).val : ℚ) / 255 = 1
    ∧ getTerrainHeight (-1) (-1) 2 2 0 1 (some whiteImage) 65536 65536 1 = some 0 := by
  have hcell : cell (-1) (-1) 2 2 65536 65536 = some ⟨0, 0, 0, 0, 0, 0⟩ := by
    norm_num [cell, fdiv, clamp]
  have hout : outOfRange 65536 65536 1 (pixelIndex 65536 1 0 0) = true := by
    norm_num [outOfRange, pixelIndex, toUnsigned]
  have hpix : getPixelHeightValue whiteImage 65536 65536 1 0 0 = 0 := by
    unfold getPixelHeightValue
    dsimp only
    rw [hout]
    rfl
  refine ⟨by decide, by decide, by norm_num, by norm_num, hcell, hout, hpix, ?_, ?_⟩
  · have hbyte : (whiteImage (pixelIndex 65536 1 0 0)).val = 255 := rfl
    rw [hbyte]
    norm_num
  · unfold getTerrainHeight
    dsimp only
    rw [if_neg (by decide), hcell]
    dsimp only
    rw [hpix]
    norm_num [mix]

/-! ## The terrain grid -/

theorem length_flatMap_const {α β : Type} (l : List α) (f : α → List β) (n : Nat)
    (h : ∀ a ∈ l, (f a).length = n) : (l.flatMap f).length = l.length * n := by
  induction l with
  | nil => simp
  | cons a rest ih =>
    rw [List.flatMap_cons, List.length_append, h a (List.mem_cons_self _ _),
      ih (fun b hb => h b (List.mem_cons_of_mem _ hb)), List.length_cons]
    ring

/-- C30: for resolutions of at least `1`, `generateTerrainGridIndices`
returns exactly `6 * (resolutionX - 1) * (resolutionZ - 1)` indices,
`generateTerrainGridVertices` returns `8` floats for each of
`resolutionX * resolutionZ` vertices, and every index is below that number of
vertices, so its eight floats exist in the vertex array. -/
theorem terrain_indices_in_range (resolutionX resolutionZ : Int)
    (terrainSizeX terrainSizeZ baseHeight : ℚ)
    (hx : 1 ≤ resolutionX) (hz : 1 ≤ resolutionZ) :
    ((generateTerrainGridIndices resolutionX resolutionZ).length : Int)
      = 6 * (resolutionX - 1) * (resolutionZ - 1)
    ∧ ((generateTerrainGridVertices resolutionX resolutionZ terrainSizeX terrainSizeZ
        baseHeight).length : Int) = 8 * (resolutionX * resolutionZ)
    ∧ ∀ index ∈ generateTerrainGridIndices resolutionX resolutionZ,
        (index : Int) < resolutionX * resolutionZ
        ∧ 8 * index + 7 < (generateTerrainGridVertices resolutionX resolutionZ terrainSizeX
            terrainSizeZ baseHeight).length := by
  have hlenI : ((generateTerrainGridIndices resolutionX resolutionZ).length : Int)
      = 6 * (resolutionX - 1) * (resolutionZ - 1) := by
    unfold generateTerrainGridIndices
    rw [length_flatMap_const _ _ ((resolutionX - 1).toNat * 6)]
    · rw [List.length_range]
      push_cast
      rw [Int.toNat_of_nonneg (by omega), Int.toNat_of_nonneg (by omega)]
      ring
    · intro z _
      rw [length_flatMap_const _ _ 6]
      · rw [List.length_range]
      · intro x _
        rfl
  have hlenV : ((generateTerrainGridVertices resolutionX resolutionZ terrainSizeX terrainSizeZ
      baseHeight).length : Int) = 8 * (resolutionX * resolutionZ) := by
    unfold generateTerrainGridVertices
    dsimp only
    rw [length_flatMap_const _ _ (resolutionX.toNat * 8)]
    · rw [List.length_range]
      push_cast
      rw [Int.toNat_of_nonneg (by omega), Int.toNat_of_nonneg (by omega)]
      ring
    · intro z _
      rw [length_flatMap_const _ _ 8]
      · rw [List.length_range]
      · intro x _
        rfl
  have hbound : ∀ index ∈ generateTerrainGridIndices resolutionX resolutionZ,
      (index : Int) < resolutionX * resolutionZ := by
    intro index hmem
    unfold generateTerrainGridIndices at hmem
    rw [List.mem_flatMap] at hmem
    obtain ⟨z, hzr, hmem⟩ := hmem
    rw [List.mem_flatMap] at hmem
    obtain ⟨x, hxr, hmem⟩ := hmem
    rw [List.mem_range] at hzr hxr
    have hz' : (z : Int) + 1 ≤ resolutionZ - 1 := by omega
    have hx' : (x : Int) + 1 ≤ resolutionX - 1 := by omega
    have hz0 : (0 : Int) ≤ z := Int.ofNat_nonneg z
    have hx0 : (0 : Int) ≤ x := Int.ofNat_nonneg x
    have hnn : (0 : Int) ≤ (z : Int) * resolutionX := by positivity
    have htl : (toUnsigned ((z : Int) * resolutionX + (x : Int)) : Int)
        < resolutionX * resolutionZ :=
      lt_of_le_of_lt (toUnsigned_le ((z : Int) * resolutionX + (x : Int)) (by omega))
        (by nlinarith)
    have htr : (toUnsigned ((z : Int) * resolutionX + (x : Int) + 1) : Int)
        < resolutionX * resolutionZ :=
      lt_of_le_of_lt (toUnsigned_le ((z : Int) * resolutionX + (x : Int) + 1) (by omega))
        (by nlinarith)
    have hbl : (toUnsigned (((z : Int) + 1) * resolutionX + (x : Int)) : Int)
        < resolutionX * resolutionZ :=
      lt_of_le_of_lt (toUnsigned_le (((z : Int) + 1) * resolutionX + (x : Int)) (by nlinarith))
        (by nlinarith)
    have hbr : (toUnsigned (((z : Int) + 1) * resolutionX + (x : Int) + 1) : Int)
        < resolutionX * resolutionZ :=
      lt_of_le_of_lt
        (toUnsigned_le (((z : Int) + 1) * resolutionX + (x : Int) + 1) (by nlinarith))
        (by nlinarith)
    dsimp only at hmem
    simp only [List.mem_cons, List.mem_singleton, List.not_mem_nil, or_false] at hmem
    rcases hmem with h | h | h | h | h | h <;> rw [h] <;> assumption
  refine ⟨hlenI, hlenV, ?_⟩
  intro index hmem
  have hb := hbound index hmem
  refine ⟨hb, ?_⟩
  have : (8 * index + 7 : Int) < ((generateTerrainGridVertices resolutionX resolutionZ
      terrainSizeX terrainSizeZ baseHeight).length : Int) := by
    rw [hlenV]
    omega
  exact_mod_cast this

/-- C30 applied to a grid of `3` by `2` points: six indices for each of its
two cells, all below the six vertices. -/
theorem terrain_indices_in_range_witness :
    ((generateTerrainGridIndices 3 2).length : Int) = 6 * (3 - 1) * (2 - 1)
    ∧ ((generateTerrainGridVertices 3 2 10 10 0).length : Int) = 8 * (3 * 2)
    ∧ ∀ index ∈ generateTerrainGridIndices 3 2,
        (index : Int) < 3 * 2
        ∧ 8 * index + 7 < (generateTerrainGridVertices 3 2 10 10 0).length :=
  terrain_indices_in_range 3 2 10 10 0 (by decide) (by decide)

end Terrain
